import Mathlib

/-!
# Verification of the asset-pack seeding script

A shallow embedding of `src/scripts/seed/index.ts`, the one-shot pipeline that
reads local JSON fixtures describing asset packs and their assets, upserts the
corresponding records into a relational store and mirrors binary content
(thumbnails, model content files) into an object-storage bucket, skipping keys
that already exist.

External collaborators (the filesystem, `JSON.parse`, the https module, the S3
clients and the persistence layer) are modelled as parameters of an `Env`
record or as small state-transformers over a `Store`.  The script's
cooperative concurrency (`Promise.all` over a list of dispatched promises) is
sequentialised in dispatch order: Node runs this code on a single thread, and
the linearisation chosen here runs each chain to completion at its dispatch
point, i.e. the chains' I/O completes in dispatch order.  `await
Promise.all(ps)` is settled accordingly: if every chain fulfills, the await
resumes after the last one; at the first rejection the await resumes at once —
the chains after the rejecting one are still pending.  Node has no
cancellation, so those leftover chains complete at the next turn of the event
loop (here: once the continuation next yields, i.e. at the following pack's
`await`), except that the script's runner calls `process.exit()` as soon as
`seed` settles, which kills whatever is still pending then.  An `error` event
on an emitter with no `error` listener (the request-level failure path of
`downloadAsset`) is an uncaught exception that kills the process: it is a
`crash` outcome, distinct from a promise rejection, and no `catch` in the
script observes it.  A run produces, besides the final store, a trace of
observable events (console logs, file reads, S3 existence checks and writes,
HTTP downloads and database upserts) over which the temporal statements are
expressed.
-/

namespace SeedScript

/-- Access-control settings for object-store writes (the `ACL` enum imported
from `src/S3`).  Modelled from the spec: write operations take "an
access-control setting restricted to at least a public read value". -/
inductive ACL where
  | publicRead
  deriving DecidableEq, Repr

/-- Fixture pack descriptor: one entry of `packs.json` (`DefaultAssetPack`). -/
structure DefaultAssetPack where
  id : String
  title : String
  url : String
  thumbnail : String
  deriving DecidableEq, Repr

/-- Fixture asset descriptor: one entry of a `<packId>.json` file
(`DefaultAsset`).  The `contents` object is an ordered role-to-contentId
mapping. -/
structure DefaultAsset where
  id : String
  name : String
  thumbnail : String
  url : String
  category : String
  tags : List String
  variations : List String
  contents : List (String × String)
  deriving DecidableEq, Repr

/-- Payload of `packs.json` (`DefaultAssetPackResponse.data`). -/
structure PacksData where
  packs : List DefaultAssetPack
  deriving DecidableEq, Repr

/-- Shape of `packs.json` (`DefaultAssetPackResponse`). -/
structure DefaultAssetPackResponse where
  ok : Bool
  data : PacksData
  deriving DecidableEq, Repr

/-- Payload of a `<packId>.json` file (`DefaultAssetResponse.data`). -/
structure AssetsData where
  id : String
  version : Nat
  title : String
  assets : List DefaultAsset
  deriving DecidableEq, Repr

/-- Shape of a `<packId>.json` file (`DefaultAssetResponse`). -/
structure DefaultAssetResponse where
  ok : Bool
  data : AssetsData
  deriving DecidableEq, Repr

/-- Persisted asset-pack record (`AssetPackAttributes`): what
`upsertAssetPacks` builds by spreading `utils.omit(defaultAssetPack, ['url'])`
and then overriding `thumbnail`, `eth_address`, `created_at`, `updated_at`.
Timestamps are abstracted to a `Nat` clock value. -/
structure AssetPackAttributes where
  id : String
  title : String
  thumbnail : String
  eth_address : String
  created_at : Nat
  updated_at : Nat
  deriving DecidableEq, Repr

/-- Persisted asset record (`AssetAttributes`): what `upsertAssets` builds by
spreading `utils.omit(defaultAttributes, ['variations', 'url'])` and then
overriding `thumbnail` and adding `model` and `asset_pack_id`.  Note that the
record deliberately has no `variations` and no `url` field. -/
structure AssetAttributes where
  id : String
  name : String
  thumbnail : String
  model : String
  category : String
  tags : List String
  contents : List (String × String)
  asset_pack_id : String
  deriving DecidableEq, Repr

/-- Result of `JSON.parse` on a fixture file, at the granularity the script
uses it: either a value of one of the two fixture shapes the code casts to, or
some other JSON value (on which the subsequent field accesses would throw). -/
inductive JsonValue where
  | packsResponse (r : DefaultAssetPackResponse)
  | assetResponse (r : DefaultAssetResponse)
  | other
  deriving DecidableEq, Repr

/-- An HTTP response as observed by `downloadAsset`'s response handlers: a
status code, the sequence of `data` chunks, and optionally a transport error
emitted by the response stream instead of the `end` event. -/
structure HttpResponse where
  status : Nat
  chunks : List (List Nat)
  streamError : Option String
  deriving DecidableEq, Repr

/-- The outcome of `https.get(url, callback)` for a given URL: either the
callback fires with a response object (whose body stream may still fail
mid-transfer, see `HttpResponse.streamError`), or the request itself fails
before any response arrives — connection refused, DNS, TLS — and the
`ClientRequest` emits an `error` event.  `downloadAsset` installs handlers
only on the response, never on the request. -/
inductive HttpOutcome where
  | response (r : HttpResponse)
  | requestError (msg : String)
  deriving DecidableEq, Repr

/-- Whether the `https.get` callback fires at all for this URL. -/
def HttpOutcome.isResponse : HttpOutcome → Bool
  | HttpOutcome.response _ => true
  | HttpOutcome.requestError _ => false

/-- Whether a request for this URL delivers a complete body: the callback
fires and the response stream ends without a transport error. -/
def HttpOutcome.deliversBody : HttpOutcome → Bool
  | HttpOutcome.response r => r.streamError == none
  | HttpOutcome.requestError _ => false

/-- The script's external environment: the production flag, the fixture
directory layout (`__dirname`, its subdirectories and the files below it, as
raw bytes), `JSON.parse`, the remote content host (a request outcome per URL)
and the value of `new Date()` for this run. -/
structure Env where
  isProduction : Bool
  dirname : String
  directories : List String
  files : List (String × List Nat)
  jsonParse : List Nat → Except String JsonValue
  remote : String → HttpOutcome
  now : Nat

/-- Observable events of a run. -/
inductive Event where
  | log (msg : String)
  | readFile (path : String)
  | checkFile (key : String) (present : Bool)
  | saveFile (key : String) (acl : ACL)
  | download (url : String) (ok : Bool)
  | upsertPack (attributes : AssetPackAttributes) (existed : Bool)
  | upsertAsset (attributes : AssetAttributes) (target : List String) (existed : Bool)
  deriving DecidableEq, Repr

/-- The two upsertable record collections of the database. -/
structure DbState where
  assetPacks : List AssetPackAttributes
  assets : List AssetAttributes
  deriving DecidableEq, Repr

/-- The persistent state a run operates on: the database and the object-store
bucket (keys with their stored bytes; the head entry shadows older ones). -/
structure Store where
  db : DbState
  s3 : List (String × List Nat)
  deriving DecidableEq, Repr

/-- The running state of one run: the store plus the event trace so far. -/
structure RS where
  store : Store
  trace : List Event
  deriving DecidableEq, Repr

/-- How a fragment of the script terminates: a delivered value, a rejected
promise / thrown error (deliverable to a `catch`, carrying the JS error's
message), or a process crash — an exception nothing handles, such as an
`error` event on an emitter with no `error` listener, after which no further
code of the run executes. -/
inductive Outcome (α : Type) where
  | ok (a : α)
  | error (msg : String)
  | crash (msg : String)
  deriving DecidableEq, Repr

/-- The outcome is a delivered value. -/
def Outcome.isOk : Outcome α → Bool
  | Outcome.ok _ => true
  | _ => false

/-- The outcome is a rejection (catchable), not a crash. -/
def Outcome.isError : Outcome α → Bool
  | Outcome.error _ => true
  | _ => false

/-- The effect monad of the embedding: a state transformer over `RS` paired
with an `Outcome`.  On an error or a crash the state reached so far is kept,
mirroring the fact that neither undoes side effects already performed. -/
def M (α : Type) : Type := RS → RS × Outcome α

/-- Monadic return. -/
def M.pure (a : α) : M α := fun rs => (rs, Outcome.ok a)

/-- Monadic bind: `await`/`.then` sequencing; both a rejection and a crash
short-circuit (nothing runs after a crash; a rejection skips to the nearest
`catch`, of which the continuation has none). -/
def M.bind (m : M α) (f : α → M β) : M β := fun rs =>
  match m rs with
  | (rs1, Outcome.ok a) => f a rs1
  | (rs1, Outcome.error msg) => (rs1, Outcome.error msg)
  | (rs1, Outcome.crash msg) => (rs1, Outcome.crash msg)

instance : Monad M where
  pure := M.pure
  bind := M.bind

@[simp] theorem M.bind_eq (m : M α) (f : α → M β) : m >>= f = M.bind m f := rfl

@[simp] theorem M.pure_eq (a : α) : (pure a : M α) = M.pure a := rfl

/-- `console.log`. -/
def consoleLog (msg : String) : M Unit := fun rs =>
  ({ rs with trace := rs.trace ++ [Event.log msg] }, Outcome.ok ())

/-- A thrown error / rejected promise. -/
def throwM (msg : String) : M α := fun rs => (rs, Outcome.error msg)

/-- Settling of the promises a `Promise.all` waits on, in dispatch order (the
linearisation of this embedding: each chain's I/O completes in the order the
chains were dispatched).  Chains settle one after the other until the first
one that does not fulfill: a rejection settles the combined promise as
rejected right away, with the chains after the rejecting one still pending —
Node has no cancellation, so they are merely still in flight; a crash kills
the process, so nothing runs after it at all.  Returns the state reached, the
combined outcome and the leftover pending chains. -/
def settleChains : List (M Unit) → RS → RS × Outcome Unit × List (M Unit)
  | [], rs => (rs, Outcome.ok (), [])
  | p :: ps, rs =>
      match p rs with
      | (rs1, Outcome.ok _) => settleChains ps rs1
      | (rs1, Outcome.error msg) => (rs1, Outcome.error msg, ps)
      | (rs1, Outcome.crash msg) => (rs1, Outcome.crash msg, ps)

/-- Completion of chains left pending by an already-settled `Promise.all`,
once the event loop is reached again.  Each chain runs to completion; a
rejection among them is delivered to the already-rejected `Promise.all`, which
holds a handler for every constituent promise and discards late settlements,
so nothing observes it; a crash still kills the process. -/
def runPending : List (M Unit) → M Unit
  | [] => fun rs => (rs, Outcome.ok ())
  | p :: ps => fun rs =>
      match p rs with
      | (rs1, Outcome.crash msg) => (rs1, Outcome.crash msg)
      | (rs1, _) => runPending ps rs1

/-- `await Promise.all(ps)` at a site with no `catch` between the `await` and
the script's terminating handlers (the pack phase: a rejection propagates out
of `seed`, whose runner calls `process.exit()` as soon as it settles).  The
combined promise fulfills once every chain has, and rejects with the first
rejection; the chains still pending at that moment would need a later turn of
the event loop, which the immediate `process.exit()` never grants, so they are
killed with the process and their effects are dropped. -/
def promiseAll (ps : List (M Unit)) : M Unit := fun rs =>
  let r := settleChains ps rs
  (r.1, r.2.1)

/-! ## String ordering and path helpers -/

/-- Lexicographic comparison of character lists by code point, the order
`Array.prototype.sort`'s default comparator induces on strings. -/
def strLeAux : List Char → List Char → Bool
  | [], _ => true
  | _ :: _, [] => false
  | a :: as, b :: bs =>
    if a.toNat < b.toNat then true
    else if b.toNat < a.toNat then false
    else strLeAux as bs

/-- Lexicographic string comparison (JS default sort order). -/
def strLe (a b : String) : Bool := strLeAux a.data b.data

/-- `Array.prototype.sort()` with the default (lexicographic) comparator; the
result is the unique `strLe`-sorted permutation of the input, so any correct
sorting algorithm models it. -/
def sortStrings (l : List String) : List String :=
  List.insertionSort (fun a b => strLe a b = true) l

/-- `path.basename` (POSIX): the final path segment, with trailing slashes
stripped. -/
def basename (p : String) : String :=
  let parts := (p.splitOn "/").filter (fun s => s ≠ "")
  match parts.getLast? with
  | some s => s
  | none => if p = "" then "" else "/"

/-! ## Components modelled from the spec

The S3 clients and the persistence layer live in `src/S3` and
`src/AssetPack` / `src/Asset`, outside this repository slice; they are
modelled from the spec's contracts for them. -/

/-- Modelled from the spec: `S3AssetPack(id).getThumbnailFilename()` "computes
a deterministic thumbnail filename for a pack id" (`src/S3` is outside this
slice).  Any fixed injective choice works; the pipeline only ever compares the
result with itself and stores it. -/
def getThumbnailFilename (packId : String) : String := packId ++ "/thumbnail.png"

/-- Modelled from the spec: `getDefaultEthAddress()` returns the fixed default
owning account identifier (`src/AssetPack` is outside this slice). -/
def getDefaultEthAddress : String := "0xDefaultSeedOwner"

/-- Object-store lookup for a key (the head entry shadows older ones). -/
def s3Lookup (s : Store) (key : String) : Option (List Nat) :=
  List.lookup key s.s3

/-- Boolean existence check in the object store. -/
def s3HasB (s : Store) (key : String) : Bool := (s3Lookup s key).isSome

/-- Modelled from the spec: `checkFile` — the existence check of both S3
clients; "returns a boolean, never throwing for not found". -/
def s3CheckFile (key : String) : M Bool := fun rs =>
  let present := s3HasB rs.store key
  ({ rs with trace := rs.trace ++ [Event.checkFile key present] }, Outcome.ok present)

/-- Modelled from the spec: `saveFile` — write a byte buffer under a key with
the given access-control setting. -/
def s3SaveFile (key : String) (file : List Nat) (acl : ACL) : M Unit := fun rs =>
  ({ store := { rs.store with s3 := (key, file) :: rs.store.s3 },
     trace := rs.trace ++ [Event.saveFile key acl] }, Outcome.ok ())

/-- Boolean membership of a pack id in the asset-pack table. -/
def packHasB (s : Store) (id : String) : Bool :=
  s.db.assetPacks.any (fun p => p.id == id)

/-- Boolean membership of a composite `(id, asset_pack_id)` key in the asset
table. -/
def assetHasB (s : Store) (id packId : String) : Bool :=
  s.db.assets.any (fun a => a.id == id && a.asset_pack_id == packId)

/-- Insert-or-update of the asset-pack table, keyed by `id`. -/
def upsertPackList (packs : List AssetPackAttributes) (a : AssetPackAttributes) :
    List AssetPackAttributes :=
  if packs.any (fun p => p.id == a.id) then packs.map (fun p => if p.id == a.id then a else p)
  else packs ++ [a]

/-- Modelled from the spec: `new AssetPack(attributes).upsert()` — insert the
record if its `id` key is absent, otherwise update it in place. -/
def dbUpsertAssetPack (a : AssetPackAttributes) : M Unit := fun rs =>
  let existed := packHasB rs.store a.id
  ({ store := { rs.store with
       db := { rs.store.db with assetPacks := upsertPackList rs.store.db.assetPacks a } },
     trace := rs.trace ++ [Event.upsertPack a existed] }, Outcome.ok ())

/-- Insert-or-update of the asset table, keyed by `(id, asset_pack_id)`. -/
def upsertAssetList (assets : List AssetAttributes) (a : AssetAttributes) :
    List AssetAttributes :=
  if assets.any (fun x => x.id == a.id && x.asset_pack_id == a.asset_pack_id) then
    assets.map (fun x => if x.id == a.id && x.asset_pack_id == a.asset_pack_id then a else x)
  else assets ++ [a]

/-- Modelled from the spec: `new Asset(attributes).upsert({ target })` —
upsert controlled by an explicit conflict target; the script's only call
passes `['id', 'asset_pack_id']`, selecting the composite key. -/
def dbUpsertAsset (a : AssetAttributes) (target : List String) : M Unit := fun rs =>
  let existed := assetHasB rs.store a.id a.asset_pack_id
  ({ store := { rs.store with
       db := { rs.store.db with assets := upsertAssetList rs.store.db.assets a } },
     trace := rs.trace ++ [Event.upsertAsset a target existed] }, Outcome.ok ())

/-! ## The script's own helpers (`src/scripts/seed/index.ts`) -/

/-- `getDirectories(source)`: the names of the subdirectories of `source`; the
filesystem is part of the environment, which lists them for `__dirname`, the
only `source` the script passes. -/
def getDirectories (e : Env) : List String := e.directories

/-- `getDataPath()`: sort the subdirectory names of `__dirname`
lexicographically, `pop()` the last one and join it to `__dirname`.  On an
empty directory list `pop()` yields `undefined`, which the JS template
literal renders as the string `"undefined"`. -/
def getDataPath (e : Env) : String :=
  let dataDirectories := sortStrings (getDirectories e)
  let lastData := dataDirectories.getLast?
  e.dirname ++ "/" ++ (match lastData with
    | some d => d
    | none => "undefined")

/-- The full path `readFileSync` builds for a fixture filename. -/
def dataFilePath (e : Env) (filename : String) : String :=
  getDataPath e ++ "/" ++ filename

/-- `readFileSync(filename, encoding?)`: log the path, then read the file's
bytes below the data path; a missing file throws. -/
def readFileSync (e : Env) (filename : String) : M (List Nat) := fun rs =>
  let p := dataFilePath e filename
  let rs1 := { rs with trace := rs.trace ++ [Event.log ("Reading file " ++ p), Event.readFile p] }
  match List.lookup p e.files with
  | some bs => (rs1, Outcome.ok bs)
  | none => (rs1, Outcome.error ("ENOENT: no such file or directory, open " ++ p))

/-- `readJSON(filename)`: `JSON.parse(readFileSync(filename, 'utf8'))`; both a
read failure and a parse failure propagate. -/
def readJSON (e : Env) (filename : String) : M JsonValue := do
  let content ← readFileSync e filename
  match e.jsonParse content with
  | Except.ok v => M.pure v
  | Except.error msg => throwM msg

/-- `getAssetsUrl()`: the remote content host, selected by the production
flag. -/
def getAssetsUrl (e : Env) : String :=
  let domain := if e.isProduction then "org" else "zone"
  "https://assets.decentraland." ++ domain

/-- `downloadAsset(cid)`: streaming GET of `<assetsUrl>/<cid>`, buffering the
`data` chunks and resolving with their concatenation on `end`; a response
stream `error` rejects.  The status code is never inspected.  The returned
promise's executor installs handlers on the *response* only: a request-level
`error` (connection refused, DNS, TLS) has no listener, so Node raises it as
an uncaught exception and the process dies — the promise never settles and in
particular never rejects. -/
def downloadAsset (e : Env) (cid : String) : M (List Nat) := fun rs =>
  let url := getAssetsUrl e ++ "/" ++ cid
  let rs1 := { rs with trace := rs.trace ++ [Event.log ("Downloading " ++ url)] }
  match e.remote url with
  | HttpOutcome.response response =>
      match response.streamError with
      | none =>
          ({ rs1 with trace := rs1.trace ++ [Event.download url true] },
           Outcome.ok response.chunks.flatten)
      | some msg =>
          ({ rs1 with trace := rs1.trace ++ [Event.download url false] },
           Outcome.error msg)
  | HttpOutcome.requestError msg => (rs1, Outcome.crash msg)

/-! ## The pipeline -/

/-- `uploadThumbnail(attributes)`: compute the pack's deterministic thumbnail
filename; if the object store already has it, log and skip, otherwise read the
thumbnail bytes from the local fixture data directory and write them with
public-read access; resolve with the filename either way. -/
def uploadThumbnail (e : Env) (attributes : DefaultAssetPack) : M String := do
  let filename := getThumbnailFilename attributes.id
  let present ← s3CheckFile filename
  if present then
    consoleLog "Thumbnail already exists in S3"
  else do
    let currentThumbnail ← readFileSync e filename
    consoleLog "Uploading thumbnail to S3"
    s3SaveFile filename currentThumbnail ACL.publicRead
  M.pure filename

/-- The asset-pack record built inside `upsertAssetPacks`'s `.then` callback:
spread of `utils.omit(defaultAssetPack, ['url'])` (which contributes `id`,
`title` and the fixture `thumbnail`, the latter immediately overridden), then
`thumbnail`, `eth_address`, `created_at`, `updated_at`. -/
def mkAssetPackAttributes (now : Nat) (p : DefaultAssetPack) (thumbnail : String) :
    AssetPackAttributes :=
  { id := p.id, title := p.title, thumbnail := thumbnail,
    eth_address := getDefaultEthAddress, created_at := now, updated_at := now }

/-- One pack's promise chain in the pack phase:
`uploadThumbnail(defaultAssetPack).then(thumbnail => ... upsert())`. -/
def packUpsertChain (e : Env) (now : Nat) (defaultAssetPack : DefaultAssetPack) : M Unit := do
  let thumbnail ← uploadThumbnail e defaultAssetPack
  let attributes := mkAssetPackAttributes now defaultAssetPack thumbnail
  consoleLog ("Upserting asset pack " ++ attributes.id ++ " for user " ++ attributes.eth_address)
  dbUpsertAssetPack attributes

/-- `upsertAssetPacks(assetPacks)`: dispatch one chain per pack (with a single
`new Date()` for all of them) and `await Promise.all`. -/
def upsertAssetPacks (e : Env) (assetPacks : List DefaultAssetPack) : M Unit :=
  promiseAll (assetPacks.map (packUpsertChain e e.now))

/-- The asset record built inside `upsertAssets`'s asset loop: spread of
`utils.omit(defaultAttributes, ['variations', 'url'])` (contributing `id`,
`name`, `category`, `tags`, `contents` and the fixture `thumbnail`, the latter
immediately overridden), then `thumbnail := path.basename(...)`,
`model := defaultAttributes.url` and `asset_pack_id`. -/
def mkAssetAttributes (packId : String) (defaultAttributes : DefaultAsset) : AssetAttributes :=
  { id := defaultAttributes.id, name := defaultAttributes.name,
    thumbnail := basename defaultAttributes.thumbnail,
    model := defaultAttributes.url, category := defaultAttributes.category,
    tags := defaultAttributes.tags, contents := defaultAttributes.contents,
    asset_pack_id := packId }

/-- One content id's promise chain:
`s3Content.checkFile(cid).then(async exists => ...)` — skip if present,
otherwise download and save with public-read access. -/
def contentChain (e : Env) (cid : String) : M Unit := do
  let present ← s3CheckFile cid
  if present then
    consoleLog ("File " ++ cid ++ " already exists in S3")
  else do
    let file ← downloadAsset e cid
    consoleLog ("Uploading file " ++ cid ++ " to S3")
    s3SaveFile cid file ACL.publicRead
    consoleLog ("File " ++ cid ++ " uploaded successfully")

/-- The body of the per-asset `try` block: construct the `S3Content` client
and dispatch one `contentChain` per content id.  Dispatching promises is
synchronous and none of the dispatched calls throws synchronously, so this
always returns `Except.ok`; the `catch` arm in `assetPromises` below mirrors
the source's catch, which can therefore never observe an asynchronous
download rejection. -/
def contentDispatch (e : Env) (attributes : AssetAttributes) :
    Except String (List (M Unit)) :=
  Except.ok ((attributes.contents.map Prod.snd).map (contentChain e))

/-- The promises dispatched for one fixture asset: the record upsert (with its
synchronous `console.log`, placed at the head of the chain in this
linearisation) followed by one chain per content id; a synchronous dispatch
error would be swallowed by the `Ignoring ERROR` catch. -/
def assetPromises (e : Env) (packId : String) (defaultAttributes : DefaultAsset) :
    List (M Unit) :=
  let attributes := mkAssetAttributes packId defaultAttributes
  let upsertChain : M Unit := do
    consoleLog ("Upserting asset " ++ attributes.id ++ " for asset pack " ++ packId)
    dbUpsertAsset attributes ["id", "asset_pack_id"]
  match contentDispatch e attributes with
  | Except.ok ps => upsertChain :: ps
  | Except.error msg => [upsertChain, consoleLog ("Ignoring ERROR: " ++ msg)]

/-- The per-pack `try { await Promise.all(assetPromises) } catch` of
`upsertAssets`: the dispatched chains are settled in dispatch order; if all
fulfill the loop continues with nothing pending; at the first rejection the
`await` resumes right away — the rejection is logged as `Error saving assets`
and the loop continues *while the chains after the rejecting one are still
pending*.  Those leftover chains are returned to the loop, which carries them
to the next point the event loop is reached.  A crash is not a rejection: the
`catch` never sees it and the process is already gone. -/
def awaitAssetPromises (ps : List (M Unit)) : M (List (M Unit)) := fun rs =>
  let r := settleChains ps rs
  match r.2.1 with
  | Outcome.ok _ => (r.1, Outcome.ok r.2.2)
  | Outcome.error msg =>
      ({ r.1 with trace := r.1.trace ++ [Event.log ("Error saving assets: " ++ msg)] },
       Outcome.ok r.2.2)
  | Outcome.crash msg => (r.1, Outcome.crash msg)

/-- One iteration of `upsertAssets`'s pack loop, carrying the chains a
previous iteration's rejected `Promise.all` left pending: read the pack's
fixture file (failures propagate — this sits outside every `try`, and a
synchronous throw reaches the runner's `process.exit()` before any further
turn of the event loop, killing the carried chains), dispatch all asset
upserts and content chains, and await them behind the logging catch.  The
`await` is the first point the event loop is reached, so the carried pending
chains — whose I/O has been in flight the longest — complete there first,
after this pack's fixture read and before this pack's own chains settle. -/
def packAssetsStep (e : Env) (pend : List (M Unit)) (p : DefaultAssetPack) :
    M (List (M Unit)) := do
  let v ← readJSON e (p.id ++ ".json")
  match v with
  | JsonValue.assetResponse assetsResponse =>
      let assets := assetsResponse.data.assets
      M.bind (runPending pend) (fun _ =>
        awaitAssetPromises ((assets.map (assetPromises e p.id)).flatten))
  | _ => throwM "TypeError: fixture shape mismatch"

/-- `upsertAssets(assetPacks)`: the packs are processed strictly in fixture
order, one at a time; each pack's batch is awaited behind the logging catch,
which on a rejection resumes with the batch's leftover chains still pending —
they are carried into the next iteration.  When the loop ends, `upsertAssets`
resolves and the runner's `process.exit()` follows within the same microtask
cascade, so chains still pending then are killed and their effects dropped. -/
def upsertAssets (e : Env) (pend : List (M Unit)) : List DefaultAssetPack → M Unit
  | [] => fun rs => (rs, Outcome.ok ())
  | p :: rest =>
      M.bind (packAssetsStep e pend p) (fun pend2 => upsertAssets e pend2 rest)

/-- `seed()`: read `packs.json`, run the pack phase to completion (the
`Promise.all` barrier), then run the asset phase (with nothing pending at its
start). -/
def seed (e : Env) : M Unit := do
  let v ← readJSON e "packs.json"
  match v with
  | JsonValue.packsResponse packsResponse => do
      let assetPacks := packsResponse.data.packs
      consoleLog "==== Asset packs ===="
      upsertAssetPacks e assetPacks
      consoleLog "==== Assets ===="
      upsertAssets e [] assetPacks
  | _ => throwM "TypeError: fixture shape mismatch"

/-- The outcome of one run of the script. -/
structure RunResult where
  store : Store
  trace : List Event
  result : Outcome Unit
  deriving Repr

/-- Run `seed()` against a persistent store, starting with an empty trace. -/
def runSeed (e : Env) (s : Store) : RunResult :=
  let r := seed e { store := s, trace := [] }
  { store := r.1.store, trace := r.1.trace, result := r.2 }

/-! ## Properties of the lexicographic order and of `getDataPath` -/

theorem strLeAux_cons (a b : Char) (as bs : List Char) :
    strLeAux (a :: as) (b :: bs) = true ↔
      (a.toNat < b.toNat ∨ (a.toNat = b.toNat ∧ strLeAux as bs = true)) := by
  simp only [strLeAux]
  by_cases h1 : a.toNat < b.toNat
  · simp [h1]
  · by_cases h2 : b.toNat < a.toNat
    · simp [h1, h2]
      omega
    · have he : a.toNat = b.toNat := by omega
      simp [h1, h2, he]

theorem strLeAux_refl : ∀ l : List Char, strLeAux l l = true
  | [] => rfl
  | a :: as => by
      rw [strLeAux_cons]
      exact Or.inr ⟨rfl, strLeAux_refl as⟩

theorem strLeAux_total : ∀ l1 l2 : List Char, strLeAux l1 l2 = true ∨ strLeAux l2 l1 = true
  | [], _ => Or.inl rfl
  | _ :: _, [] => Or.inr rfl
  | a :: as, b :: bs => by
      rw [strLeAux_cons, strLeAux_cons]
      rcases Nat.lt_trichotomy a.toNat b.toNat with h | h | h
      · exact Or.inl (Or.inl h)
      · rcases strLeAux_total as bs with g | g
        · exact Or.inl (Or.inr ⟨h, g⟩)
        · exact Or.inr (Or.inr ⟨h.symm, g⟩)
      · exact Or.inr (Or.inl h)

theorem strLeAux_trans : ∀ l1 l2 l3 : List Char,
    strLeAux l1 l2 = true → strLeAux l2 l3 = true → strLeAux l1 l3 = true
  | [], _, _, _, _ => rfl
  | _ :: _, [], _, h12, _ => by simp [strLeAux] at h12
  | _ :: _, _ :: _, [], _, h23 => by simp [strLeAux] at h23
  | a :: as, b :: bs, c :: cs, h12, h23 => by
      rw [strLeAux_cons] at h12 h23 ⊢
      rcases h12 with h | ⟨he, h⟩ <;> rcases h23 with g | ⟨ge, g⟩
      · exact Or.inl (by omega)
      · exact Or.inl (by omega)
      · exact Or.inl (by omega)
      · exact Or.inr ⟨by omega, strLeAux_trans as bs cs h g⟩

theorem strLe_refl (a : String) : strLe a a = true := strLeAux_refl a.data

theorem strLe_total (a b : String) : strLe a b = true ∨ strLe b a = true :=
  strLeAux_total a.data b.data

theorem strLe_trans {a b c : String} (h1 : strLe a b = true) (h2 : strLe b c = true) :
    strLe a c = true :=
  strLeAux_trans a.data b.data c.data h1 h2

instance : IsTotal String (fun a b => strLe a b = true) := ⟨strLe_total⟩

instance : IsTrans String (fun a b => strLe a b = true) := ⟨fun _ _ _ => strLe_trans⟩

theorem mem_sortStrings {a : String} {l : List String} : a ∈ sortStrings l ↔ a ∈ l :=
  (List.perm_insertionSort _ l).mem_iff

theorem sortStrings_sorted (l : List String) :
    List.Pairwise (fun a b => strLe a b = true) (sortStrings l) :=
  List.sorted_insertionSort _ l

theorem pairwise_strLe_getLast : ∀ (t : List String) (d : String),
    List.Pairwise (fun a b => strLe a b = true) t → t.getLast? = some d →
    ∀ x ∈ t, strLe x d = true := by
  intro t
  induction t with
  | nil => intro d _ hl; simp at hl
  | cons a ts ih =>
      intro d hp hl x hx
      cases ts with
      | nil =>
          simp at hl hx
          subst hl; subst hx
          exact strLe_refl x
      | cons b ts2 =>
          have hl2 : (b :: ts2).getLast? = some d := by
            simpa [List.getLast?] using hl
          have hd : d ∈ b :: ts2 := List.mem_of_mem_getLast? hl2
          rcases List.mem_cons.mp hx with hxa | hxt
          · subst hxa
            exact (List.pairwise_cons.mp hp).1 d hd
          · exact ih d (List.pairwise_cons.mp hp).2 hl2 x hxt

theorem sortStrings_ne_nil {l : List String} (h : l ≠ []) : sortStrings l ≠ [] := by
  intro hc
  have hp : List.Perm [] l := hc ▸ List.perm_insertionSort _ l
  exact h hp.symm.eq_nil

/-- When the base directory has subdirectories, `getDataPath` appends the
lexicographically greatest of them to the base directory. -/
theorem getDataPath_spec (e : Env) (hne : e.directories ≠ []) :
    ∃ d, d ∈ e.directories ∧ (∀ x ∈ e.directories, strLe x d = true) ∧
      getDataPath e = e.dirname ++ "/" ++ d := by
  have hsne : sortStrings e.directories ≠ [] := sortStrings_ne_nil hne
  obtain ⟨d, hd⟩ : ∃ d, (sortStrings e.directories).getLast? = some d := by
    cases hl : (sortStrings e.directories).getLast? with
    | none => exact absurd (List.getLast?_eq_none_iff.mp hl) hsne
    | some d => exact ⟨d, rfl⟩
  refine ⟨d, ?_, ?_, ?_⟩
  · exact mem_sortStrings.mp (List.mem_of_mem_getLast? hd)
  · intro x hx
    exact pairwise_strLe_getLast _ d (sortStrings_sorted _) hd x (mem_sortStrings.mpr hx)
  · simp [getDataPath, getDirectories, hd]

/-- With no subdirectories at all, `pop()` yields `undefined` and the data
path becomes `<dirname>/undefined`. -/
theorem getDataPath_empty (e : Env) (hne : e.directories = []) :
    getDataPath e = e.dirname ++ "/undefined" := by
  simp [getDataPath, getDirectories, hne, sortStrings, List.insertionSort,
    String.append_assoc]

/-! ## Applied forms of the primitive operations -/

theorem M.pure_apply (a : α) (rs : RS) : M.pure a rs = (rs, Outcome.ok a) := rfl

theorem throwM_apply (msg : String) (rs : RS) :
    (throwM msg : M α) rs = (rs, Outcome.error msg) := rfl

theorem consoleLog_apply (msg : String) (rs : RS) :
    consoleLog msg rs = ({ store := rs.store, trace := rs.trace ++ [Event.log msg] }, Outcome.ok ()) :=
  rfl

theorem s3CheckFile_apply (key : String) (rs : RS) :
    s3CheckFile key rs
      = ({ store := rs.store, trace := rs.trace ++ [Event.checkFile key (s3HasB rs.store key)] },
         Outcome.ok (s3HasB rs.store key)) := rfl

theorem s3SaveFile_apply (key : String) (file : List Nat) (acl : ACL) (rs : RS) :
    s3SaveFile key file acl rs
      = ({ store := { db := rs.store.db, s3 := (key, file) :: rs.store.s3 },
           trace := rs.trace ++ [Event.saveFile key acl] }, Outcome.ok ()) := rfl

theorem dbUpsertAssetPack_apply (a : AssetPackAttributes) (rs : RS) :
    dbUpsertAssetPack a rs
      = ({ store := { db := { assetPacks := upsertPackList rs.store.db.assetPacks a,
                              assets := rs.store.db.assets },
                      s3 := rs.store.s3 },
           trace := rs.trace ++ [Event.upsertPack a (packHasB rs.store a.id)] },
         Outcome.ok ()) := rfl

theorem dbUpsertAsset_apply (a : AssetAttributes) (target : List String) (rs : RS) :
    dbUpsertAsset a target rs
      = ({ store := { db := { assetPacks := rs.store.db.assetPacks,
                              assets := upsertAssetList rs.store.db.assets a },
                      s3 := rs.store.s3 },
           trace := rs.trace ++
             [Event.upsertAsset a target (assetHasB rs.store a.id a.asset_pack_id)] },
         Outcome.ok ()) := rfl

theorem readFileSync_found (e : Env) (filename : String) (rs : RS) (bs : List Nat)
    (h : List.lookup (dataFilePath e filename) e.files = some bs) :
    readFileSync e filename rs
      = ({ store := rs.store,
           trace := rs.trace ++ [Event.log ("Reading file " ++ dataFilePath e filename),
                                 Event.readFile (dataFilePath e filename)] }, Outcome.ok bs) := by
  simp [readFileSync, h]

theorem readFileSync_missing (e : Env) (filename : String) (rs : RS)
    (h : List.lookup (dataFilePath e filename) e.files = none) :
    readFileSync e filename rs
      = ({ store := rs.store,
           trace := rs.trace ++ [Event.log ("Reading file " ++ dataFilePath e filename),
                                 Event.readFile (dataFilePath e filename)] },
         Outcome.error ("ENOENT: no such file or directory, open " ++ dataFilePath e filename)) := by
  simp [readFileSync, h]

theorem downloadAsset_resolves (e : Env) (cid : String) (rs : RS) (r : HttpResponse)
    (hrem : e.remote (getAssetsUrl e ++ "/" ++ cid) = HttpOutcome.response r)
    (h : r.streamError = none) :
    downloadAsset e cid rs
      = ({ store := rs.store,
           trace := rs.trace ++
             [Event.log ("Downloading " ++ (getAssetsUrl e ++ "/" ++ cid)),
              Event.download (getAssetsUrl e ++ "/" ++ cid) true] },
         Outcome.ok r.chunks.flatten) := by
  simp [downloadAsset, hrem, h]

theorem downloadAsset_rejects (e : Env) (cid : String) (rs : RS) (r : HttpResponse)
    (msg : String)
    (hrem : e.remote (getAssetsUrl e ++ "/" ++ cid) = HttpOutcome.response r)
    (h : r.streamError = some msg) :
    downloadAsset e cid rs
      = ({ store := rs.store,
           trace := rs.trace ++
             [Event.log ("Downloading " ++ (getAssetsUrl e ++ "/" ++ cid)),
              Event.download (getAssetsUrl e ++ "/" ++ cid) false] },
         Outcome.error msg) := by
  simp [downloadAsset, hrem, h]

theorem downloadAsset_crashes (e : Env) (cid : String) (rs : RS) (msg : String)
    (hrem : e.remote (getAssetsUrl e ++ "/" ++ cid) = HttpOutcome.requestError msg) :
    downloadAsset e cid rs
      = ({ store := rs.store,
           trace := rs.trace
             ++ [Event.log ("Downloading " ++ (getAssetsUrl e ++ "/" ++ cid))] },
         Outcome.crash msg) := by
  simp [downloadAsset, hrem]

/-- Stepping a bind whose first component is known to succeed. -/
theorem M.bind_apply_ok (m : M α) (f : α → M β) (rs rs1 : RS) (a : α)
    (h : m rs = (rs1, Outcome.ok a)) : M.bind m f rs = f a rs1 := by
  simp [M.bind, h]

/-- Stepping a bind whose first component is known to fail. -/
theorem M.bind_apply_error (m : M α) (f : α → M β) (rs rs1 : RS) (msg : String)
    (h : m rs = (rs1, Outcome.error msg)) : M.bind m f rs = (rs1, Outcome.error msg) := by
  simp [M.bind, h]

/-- Stepping a bind whose first component is known to crash. -/
theorem M.bind_apply_crash (m : M α) (f : α → M β) (rs rs1 : RS) (msg : String)
    (h : m rs = (rs1, Outcome.crash msg)) : M.bind m f rs = (rs1, Outcome.crash msg) := by
  simp [M.bind, h]

/-! ## Shapes of the promise chains -/

theorem uploadThumbnail_present (e : Env) (p : DefaultAssetPack) (rs : RS)
    (h : s3HasB rs.store (getThumbnailFilename p.id) = true) :
    uploadThumbnail e p rs
      = ({ store := rs.store,
           trace := rs.trace ++ [Event.checkFile (getThumbnailFilename p.id) true,
                                 Event.log "Thumbnail already exists in S3"] },
         Outcome.ok (getThumbnailFilename p.id)) := by
  simp only [uploadThumbnail, M.bind_eq]
  rw [M.bind_apply_ok _ _ _ _ _ (s3CheckFile_apply _ rs)]
  simp only [h, if_true]
  rw [M.bind_apply_ok _ _ _ _ _ (consoleLog_apply _ _)]
  simp [M.pure_apply]

theorem uploadThumbnail_absent_found (e : Env) (p : DefaultAssetPack) (rs : RS) (b : List Nat)
    (h : s3HasB rs.store (getThumbnailFilename p.id) = false)
    (hb : List.lookup (dataFilePath e (getThumbnailFilename p.id)) e.files = some b) :
    uploadThumbnail e p rs
      = ({ store := { db := rs.store.db, s3 := (getThumbnailFilename p.id, b) :: rs.store.s3 },
           trace := rs.trace ++
             [Event.checkFile (getThumbnailFilename p.id) false,
              Event.log ("Reading file " ++ dataFilePath e (getThumbnailFilename p.id)),
              Event.readFile (dataFilePath e (getThumbnailFilename p.id)),
              Event.log "Uploading thumbnail to S3",
              Event.saveFile (getThumbnailFilename p.id) ACL.publicRead] },
         Outcome.ok (getThumbnailFilename p.id)) := by
  simp only [uploadThumbnail, M.bind_eq]
  rw [M.bind_apply_ok _ _ _ _ _ (s3CheckFile_apply _ rs)]
  simp only [h, Bool.false_eq_true, if_false]
  rw [M.bind_apply_ok _ _ _ _ _ (readFileSync_found e _ _ b hb)]
  rw [M.bind_apply_ok _ _ _ _ _ (consoleLog_apply _ _)]
  rw [M.bind_apply_ok _ _ _ _ _ (s3SaveFile_apply _ _ _ _)]
  simp [M.pure_apply]

theorem uploadThumbnail_absent_missing (e : Env) (p : DefaultAssetPack) (rs : RS)
    (h : s3HasB rs.store (getThumbnailFilename p.id) = false)
    (hb : List.lookup (dataFilePath e (getThumbnailFilename p.id)) e.files = none) :
    uploadThumbnail e p rs
      = ({ store := rs.store,
           trace := rs.trace ++
             [Event.checkFile (getThumbnailFilename p.id) false,
              Event.log ("Reading file " ++ dataFilePath e (getThumbnailFilename p.id)),
              Event.readFile (dataFilePath e (getThumbnailFilename p.id))] },
         Outcome.error ("ENOENT: no such file or directory, open "
            ++ dataFilePath e (getThumbnailFilename p.id))) := by
  simp only [uploadThumbnail, M.bind_eq]
  rw [M.bind_apply_ok _ _ _ _ _ (s3CheckFile_apply _ rs)]
  simp only [h, Bool.false_eq_true, if_false]
  rw [M.bind_apply_error _ _ _ _ _ (readFileSync_missing e _ _ hb)]
  simp

theorem contentChain_present (e : Env) (cid : String) (rs : RS)
    (h : s3HasB rs.store cid = true) :
    contentChain e cid rs
      = ({ store := rs.store,
           trace := rs.trace ++ [Event.checkFile cid true,
                                 Event.log ("File " ++ cid ++ " already exists in S3")] },
         Outcome.ok ()) := by
  simp only [contentChain, M.bind_eq]
  rw [M.bind_apply_ok _ _ _ _ _ (s3CheckFile_apply _ rs)]
  simp only [h, if_true]
  simp [consoleLog_apply]

theorem contentChain_absent_resolves (e : Env) (cid : String) (rs : RS) (r : HttpResponse)
    (h : s3HasB rs.store cid = false)
    (hrem : e.remote (getAssetsUrl e ++ "/" ++ cid) = HttpOutcome.response r)
    (hr : r.streamError = none) :
    contentChain e cid rs
      = ({ store := { db := rs.store.db,
                      s3 := (cid, r.chunks.flatten) :: rs.store.s3 },
           trace := rs.trace ++
             [Event.checkFile cid false,
              Event.log ("Downloading " ++ (getAssetsUrl e ++ "/" ++ cid)),
              Event.download (getAssetsUrl e ++ "/" ++ cid) true,
              Event.log ("Uploading file " ++ cid ++ " to S3"),
              Event.saveFile cid ACL.publicRead,
              Event.log ("File " ++ cid ++ " uploaded successfully")] },
         Outcome.ok ()) := by
  simp only [contentChain, M.bind_eq]
  rw [M.bind_apply_ok _ _ _ _ _ (s3CheckFile_apply _ rs)]
  simp only [h, Bool.false_eq_true, if_false]
  rw [M.bind_apply_ok _ _ _ _ _ (downloadAsset_resolves e cid _ r hrem hr)]
  rw [M.bind_apply_ok _ _ _ _ _ (consoleLog_apply _ _)]
  rw [M.bind_apply_ok _ _ _ _ _ (s3SaveFile_apply _ _ _ _)]
  simp [consoleLog_apply]

theorem contentChain_absent_rejects (e : Env) (cid : String) (rs : RS) (r : HttpResponse)
    (msg : String)
    (h : s3HasB rs.store cid = false)
    (hrem : e.remote (getAssetsUrl e ++ "/" ++ cid) = HttpOutcome.response r)
    (hr : r.streamError = some msg) :
    contentChain e cid rs
      = ({ store := rs.store,
           trace := rs.trace ++
             [Event.checkFile cid false,
              Event.log ("Downloading " ++ (getAssetsUrl e ++ "/" ++ cid)),
              Event.download (getAssetsUrl e ++ "/" ++ cid) false] },
         Outcome.error msg) := by
  simp only [contentChain, M.bind_eq]
  rw [M.bind_apply_ok _ _ _ _ _ (s3CheckFile_apply _ rs)]
  simp only [h, Bool.false_eq_true, if_false]
  rw [M.bind_apply_error _ _ _ _ _ (downloadAsset_rejects e cid _ r msg hrem hr)]
  simp

theorem contentChain_absent_crashes (e : Env) (cid : String) (rs : RS) (msg : String)
    (h : s3HasB rs.store cid = false)
    (hrem : e.remote (getAssetsUrl e ++ "/" ++ cid) = HttpOutcome.requestError msg) :
    contentChain e cid rs
      = ({ store := rs.store,
           trace := rs.trace ++
             [Event.checkFile cid false,
              Event.log ("Downloading " ++ (getAssetsUrl e ++ "/" ++ cid))] },
         Outcome.crash msg) := by
  simp only [contentChain, M.bind_eq]
  rw [M.bind_apply_ok _ _ _ _ _ (s3CheckFile_apply _ rs)]
  simp only [h, Bool.false_eq_true, if_false]
  rw [M.bind_apply_crash _ _ _ _ _ (downloadAsset_crashes e cid _ msg hrem)]
  simp

theorem packUpsertChain_present (e : Env) (now : Nat) (p : DefaultAssetPack) (rs : RS)
    (h : s3HasB rs.store (getThumbnailFilename p.id) = true) :
    packUpsertChain e now p rs
      = ({ store := { db := { assetPacks := upsertPackList rs.store.db.assetPacks
                                (mkAssetPackAttributes now p (getThumbnailFilename p.id)),
                              assets := rs.store.db.assets },
                      s3 := rs.store.s3 },
           trace := rs.trace ++
             [Event.checkFile (getThumbnailFilename p.id) true,
              Event.log "Thumbnail already exists in S3",
              Event.log ("Upserting asset pack " ++ p.id ++ " for user " ++ getDefaultEthAddress),
              Event.upsertPack (mkAssetPackAttributes now p (getThumbnailFilename p.id))
                (packHasB rs.store p.id)] },
         Outcome.ok ()) := by
  simp only [packUpsertChain, M.bind_eq]
  rw [M.bind_apply_ok _ _ _ _ _ (uploadThumbnail_present e p rs h)]
  rw [M.bind_apply_ok _ _ _ _ _ (consoleLog_apply _ _)]
  rw [dbUpsertAssetPack_apply]
  simp [mkAssetPackAttributes, packHasB]

theorem packUpsertChain_absent_found (e : Env) (now : Nat) (p : DefaultAssetPack) (rs : RS)
    (b : List Nat)
    (h : s3HasB rs.store (getThumbnailFilename p.id) = false)
    (hb : List.lookup (dataFilePath e (getThumbnailFilename p.id)) e.files = some b) :
    packUpsertChain e now p rs
      = ({ store := { db := { assetPacks := upsertPackList rs.store.db.assetPacks
                                (mkAssetPackAttributes now p (getThumbnailFilename p.id)),
                              assets := rs.store.db.assets },
                      s3 := (getThumbnailFilename p.id, b) :: rs.store.s3 },
           trace := rs.trace ++
             [Event.checkFile (getThumbnailFilename p.id) false,
              Event.log ("Reading file " ++ dataFilePath e (getThumbnailFilename p.id)),
              Event.readFile (dataFilePath e (getThumbnailFilename p.id)),
              Event.log "Uploading thumbnail to S3",
              Event.saveFile (getThumbnailFilename p.id) ACL.publicRead,
              Event.log ("Upserting asset pack " ++ p.id ++ " for user " ++ getDefaultEthAddress),
              Event.upsertPack (mkAssetPackAttributes now p (getThumbnailFilename p.id))
                (packHasB rs.store p.id)] },
         Outcome.ok ()) := by
  simp only [packUpsertChain, M.bind_eq]
  rw [M.bind_apply_ok _ _ _ _ _ (uploadThumbnail_absent_found e p rs b h hb)]
  rw [M.bind_apply_ok _ _ _ _ _ (consoleLog_apply _ _)]
  rw [dbUpsertAssetPack_apply]
  simp [mkAssetPackAttributes, packHasB]

theorem packUpsertChain_absent_missing (e : Env) (now : Nat) (p : DefaultAssetPack) (rs : RS)
    (h : s3HasB rs.store (getThumbnailFilename p.id) = false)
    (hb : List.lookup (dataFilePath e (getThumbnailFilename p.id)) e.files = none) :
    packUpsertChain e now p rs
      = ({ store := rs.store,
           trace := rs.trace ++
             [Event.checkFile (getThumbnailFilename p.id) false,
              Event.log ("Reading file " ++ dataFilePath e (getThumbnailFilename p.id)),
              Event.readFile (dataFilePath e (getThumbnailFilename p.id))] },
         Outcome.error ("ENOENT: no such file or directory, open "
            ++ dataFilePath e (getThumbnailFilename p.id))) := by
  simp only [packUpsertChain, M.bind_eq]
  rw [M.bind_apply_error _ _ _ _ _ (uploadThumbnail_absent_missing e p rs h hb)]

/-! ## Fixture accessors

Pure readouts of the environment, used to phrase well-formedness hypotheses:
what `readJSON` would deliver for `packs.json` and for a pack's asset file. -/

/-- The parsed content of `packs.json`, when present and of the right shape. -/
def readPacksFixture (e : Env) : Option (List DefaultAssetPack) :=
  match List.lookup (dataFilePath e "packs.json") e.files with
  | some bs =>
      match e.jsonParse bs with
      | Except.ok (JsonValue.packsResponse r) => some r.data.packs
      | _ => none
  | none => none

/-- The parsed content of `<id>.json`, when present and of the right shape. -/
def readAssetsFixture (e : Env) (id : String) : Option (List DefaultAsset) :=
  match List.lookup (dataFilePath e (id ++ ".json")) e.files with
  | some bs =>
      match e.jsonParse bs with
      | Except.ok (JsonValue.assetResponse r) => some r.data.assets
      | _ => none
  | none => none

/-- The assets of a pack's fixture file (empty when the file is unusable). -/
def assetsOf (e : Env) (p : DefaultAssetPack) : List DefaultAsset :=
  (readAssetsFixture e p.id).getD []

/-- A pack's thumbnail is obtainable: already in the object store, or present
in the local fixture data directory. -/
def ThumbAvailable (e : Env) (s : Store) (p : DefaultAssetPack) : Prop :=
  s3HasB s (getThumbnailFilename p.id) = true ∨
    (List.lookup (dataFilePath e (getThumbnailFilename p.id)) e.files).isSome = true

/-- The content host delivers a complete body for every content id referenced
by `p`'s fixture assets: the only URLs the asset phase can ever request.  A
request-level failure on one of them kills the process mid-run (no `catch`
observes it), and a response-stream failure rejects the content chain, after
which `await Promise.all` resumes with the remaining chains of the batch still
pending; either way the run deviates from the nominal pipeline. -/
def PackDeliverable (e : Env) (p : DefaultAssetPack) : Prop :=
  ∀ d ∈ assetsOf e p, ∀ c ∈ d.contents,
    (e.remote (getAssetsUrl e ++ "/" ++ c.2)).deliversBody = true

/-- Well-formed fixtures for a run from store `s`: `packs.json` parses to
`packs`, every pack's asset fixture parses, every pack's thumbnail is
obtainable, and the remote content host delivers a body for every referenced
content id (so no chain of the run crashes the process or rejects). -/
def WF (e : Env) (s : Store) (packs : List DefaultAssetPack) : Prop :=
  readPacksFixture e = some packs ∧
  (∀ p ∈ packs, (readAssetsFixture e p.id).isSome = true) ∧
  (∀ p ∈ packs, ThumbAvailable e s p) ∧
  (∀ p ∈ packs, PackDeliverable e p)

/-! ## A growth order on stores and elementary upsert facts -/

/-- `t` extends `s`: every object-store key and every database key of `s` is
still present in `t`. -/
def StoreLE (s t : Store) : Prop :=
  (∀ k, s3HasB s k = true → s3HasB t k = true) ∧
  (∀ i, packHasB s i = true → packHasB t i = true) ∧
  (∀ i q, assetHasB s i q = true → assetHasB t i q = true)

theorem StoreLE.refl (s : Store) : StoreLE s s :=
  ⟨fun _ h => h, fun _ h => h, fun _ _ h => h⟩

theorem StoreLE.trans {s t u : Store} (h1 : StoreLE s t) (h2 : StoreLE t u) : StoreLE s u :=
  ⟨fun k h => h2.1 k (h1.1 k h), fun i h => h2.2.1 i (h1.2.1 i h),
   fun i q h => h2.2.2 i q (h1.2.2 i q h)⟩

theorem s3HasB_cons {d : DbState} {s3 : List (String × List Nat)} {k k2 : String} {b : List Nat}
    (h : s3HasB ⟨d, s3⟩ k2 = true) : s3HasB ⟨d, (k, b) :: s3⟩ k2 = true := by
  simp only [s3HasB, s3Lookup, List.lookup] at h ⊢
  cases hk : (k2 == k) <;> simp [hk, h]

theorem s3HasB_cons_self {d : DbState} {s3 : List (String × List Nat)} {k : String}
    {b : List Nat} : s3HasB ⟨d, (k, b) :: s3⟩ k = true := by
  simp [s3HasB, s3Lookup, List.lookup]

theorem any_id_upsertPackList {l : List AssetPackAttributes} {a : AssetPackAttributes}
    {i : String} (h : l.any (fun p => p.id == i) = true) :
    (upsertPackList l a).any (fun p => p.id == i) = true := by
  unfold upsertPackList
  split
  · rw [List.any_eq_true] at h ⊢
    obtain ⟨p, hp, hpi⟩ := h
    refine ⟨if p.id == a.id then a else p, List.mem_map_of_mem _ hp, ?_⟩
    by_cases hpa : (p.id == a.id) = true
    · have h1 : p.id = a.id := by simpa using hpa
      have h2 : p.id = i := by simpa using hpi
      simp [hpa, ← h1, h2]
    · simpa [hpa] using hpi
  · rw [List.any_eq_true] at h ⊢
    obtain ⟨p, hp, hpi⟩ := h
    exact ⟨p, List.mem_append_left _ hp, hpi⟩

theorem any_id_upsertPackList_self (l : List AssetPackAttributes) (a : AssetPackAttributes) :
    (upsertPackList l a).any (fun p => p.id == a.id) = true := by
  unfold upsertPackList
  split
  · rename_i hex
    rw [List.any_eq_true] at hex ⊢
    obtain ⟨p, hp, hpi⟩ := hex
    refine ⟨if p.id == a.id then a else p, List.mem_map_of_mem _ hp, ?_⟩
    simp [hpi]
  · rw [List.any_eq_true]
    exact ⟨a, List.mem_append_right _ (List.mem_singleton_self a), by simp⟩

theorem map_id_upsertPackList {l : List AssetPackAttributes} {a : AssetPackAttributes}
    (h : l.any (fun p => p.id == a.id) = true) :
    (upsertPackList l a).map (fun p => p.id) = l.map (fun p => p.id) := by
  unfold upsertPackList
  rw [if_pos h, List.map_map]
  apply List.map_congr_left
  intro p _
  by_cases hpa : (p.id == a.id) = true
  · have h1 : p.id = a.id := by simpa using hpa
    simp [hpa, h1]
  · have hne : ¬ p.id = a.id := by simpa using hpa
    simp [hne]

theorem any_key_upsertAssetList {l : List AssetAttributes} {a : AssetAttributes}
    {i q : String} (h : l.any (fun x => x.id == i && x.asset_pack_id == q) = true) :
    (upsertAssetList l a).any (fun x => x.id == i && x.asset_pack_id == q) = true := by
  unfold upsertAssetList
  split
  · rw [List.any_eq_true] at h ⊢
    obtain ⟨x, hx, hxi⟩ := h
    refine ⟨if x.id == a.id && x.asset_pack_id == a.asset_pack_id then a else x,
            List.mem_map_of_mem _ hx, ?_⟩
    by_cases hxa : (x.id == a.id && x.asset_pack_id == a.asset_pack_id) = true
    · have h1 : x.id = a.id ∧ x.asset_pack_id = a.asset_pack_id := by
        simpa using hxa
      have h2 : x.id = i ∧ x.asset_pack_id = q := by simpa using hxi
      simp [hxa, ← h1.1, ← h1.2, h2.1, h2.2]
    · simpa [hxa] using hxi
  · rw [List.any_eq_true] at h ⊢
    obtain ⟨x, hx, hxi⟩ := h
    exact ⟨x, List.mem_append_left _ hx, hxi⟩

theorem any_key_upsertAssetList_self (l : List AssetAttributes) (a : AssetAttributes) :
    (upsertAssetList l a).any (fun x => x.id == a.id && x.asset_pack_id == a.asset_pack_id)
      = true := by
  unfold upsertAssetList
  split
  · rename_i hex
    rw [List.any_eq_true] at hex ⊢
    obtain ⟨x, hx, hxi⟩ := hex
    refine ⟨if x.id == a.id && x.asset_pack_id == a.asset_pack_id then a else x,
            List.mem_map_of_mem _ hx, ?_⟩
    simp [hxi]
  · rw [List.any_eq_true]
    exact ⟨a, List.mem_append_right _ (List.mem_singleton_self a), by simp⟩

theorem map_key_upsertAssetList {l : List AssetAttributes} {a : AssetAttributes}
    (h : l.any (fun x => x.id == a.id && x.asset_pack_id == a.asset_pack_id) = true) :
    (upsertAssetList l a).map (fun x => (x.id, x.asset_pack_id))
      = l.map (fun x => (x.id, x.asset_pack_id)) := by
  unfold upsertAssetList
  rw [if_pos h, List.map_map]
  apply List.map_congr_left
  intro x _
  by_cases hxa : (x.id == a.id && x.asset_pack_id == a.asset_pack_id) = true
  · have h1 : x.id = a.id ∧ x.asset_pack_id = a.asset_pack_id := by simpa using hxa
    simp [hxa, h1.1, h1.2]
  · have hne : ¬ (x.id = a.id ∧ x.asset_pack_id = a.asset_pack_id) := by simpa using hxa
    simp [hne]

/-- Growth produced by an object-store write. -/
theorem storeLE_saveFile (s : Store) (k : String) (b : List Nat) :
    StoreLE s ⟨s.db, (k, b) :: s.s3⟩ := by
  refine ⟨fun k2 h => ?_, fun i h => h, fun i q h => h⟩
  exact s3HasB_cons (by simpa [s3HasB, s3Lookup] using h)

/-- Growth produced by a pack upsert. -/
theorem storeLE_upsertPack (s : Store) (a : AssetPackAttributes) :
    StoreLE s ⟨⟨upsertPackList s.db.assetPacks a, s.db.assets⟩, s.s3⟩ := by
  refine ⟨fun k h => h, fun i h => ?_, fun i q h => h⟩
  simpa [packHasB] using any_id_upsertPackList (by simpa [packHasB] using h)

/-- Growth produced by an asset upsert. -/
theorem storeLE_upsertAsset (s : Store) (a : AssetAttributes) :
    StoreLE s ⟨⟨s.db.assetPacks, upsertAssetList s.db.assets a⟩, s.s3⟩ := by
  refine ⟨fun k h => h, fun i h => h, fun i q h => ?_⟩
  simpa [assetHasB] using any_key_upsertAssetList (by simpa [assetHasB] using h)

/-! ## Stepping laws of the settling combinators -/

theorem settleChains_nil (rs : RS) : settleChains [] rs = (rs, Outcome.ok (), []) := rfl

theorem settleChains_cons_of_ok {p : M Unit} {rs rs1 : RS} {a : Unit} (ps : List (M Unit))
    (h : p rs = (rs1, Outcome.ok a)) :
    settleChains (p :: ps) rs = settleChains ps rs1 := by
  simp [settleChains, h]

theorem settleChains_cons_of_error {p : M Unit} {rs rs1 : RS} {msg : String}
    (ps : List (M Unit)) (h : p rs = (rs1, Outcome.error msg)) :
    settleChains (p :: ps) rs = (rs1, Outcome.error msg, ps) := by
  simp [settleChains, h]

theorem settleChains_cons_of_crash {p : M Unit} {rs rs1 : RS} {msg : String}
    (ps : List (M Unit)) (h : p rs = (rs1, Outcome.crash msg)) :
    settleChains (p :: ps) rs = (rs1, Outcome.crash msg, ps) := by
  simp [settleChains, h]

/-- Whatever a `Promise.all` leaves pending is one of the chains it waited
on. -/
theorem settleChains_pending_mem : ∀ (ps : List (M Unit)) (rs : RS),
    ∀ q ∈ (settleChains ps rs).2.2, q ∈ ps := by
  intro ps
  induction ps with
  | nil => intro rs q hq; exact absurd hq (by simp [settleChains])
  | cons p ps ih =>
      intro rs q hq
      cases hp : p rs with
      | mk rs1 r =>
          cases r with
          | ok a =>
              rw [settleChains_cons_of_ok ps hp] at hq
              exact List.mem_cons_of_mem p (ih rs1 q hq)
          | error msg =>
              rw [settleChains_cons_of_error ps hp] at hq
              exact List.mem_cons_of_mem p hq
          | crash msg =>
              rw [settleChains_cons_of_crash ps hp] at hq
              exact List.mem_cons_of_mem p hq

theorem runPending_nil (rs : RS) : runPending [] rs = (rs, Outcome.ok ()) := rfl

theorem runPending_cons_of_ok {p : M Unit} {rs rs1 : RS} {a : Unit} (ps : List (M Unit))
    (h : p rs = (rs1, Outcome.ok a)) :
    runPending (p :: ps) rs = runPending ps rs1 := by
  simp [runPending, h]

theorem runPending_cons_of_error {p : M Unit} {rs rs1 : RS} {msg : String}
    (ps : List (M Unit)) (h : p rs = (rs1, Outcome.error msg)) :
    runPending (p :: ps) rs = runPending ps rs1 := by
  simp [runPending, h]

theorem runPending_cons_of_crash {p : M Unit} {rs rs1 : RS} {msg : String}
    (ps : List (M Unit)) (h : p rs = (rs1, Outcome.crash msg)) :
    runPending (p :: ps) rs = (rs1, Outcome.crash msg) := by
  simp [runPending, h]

/-- All of the listed chains fulfill, from every state. -/
def AllOk (ps : List (M Unit)) : Prop := ∀ q ∈ ps, ∀ rs : RS, (q rs).2 = Outcome.ok ()

theorem allOk_nil : AllOk [] := by
  intro q hq
  exact absurd hq (by simp)

theorem allOk_append {l1 l2 : List (M Unit)} (h1 : AllOk l1) (h2 : AllOk l2) :
    AllOk (l1 ++ l2) := by
  intro q hq
  rcases List.mem_append.mp hq with h | h
  · exact h1 q h
  · exact h2 q h

theorem allOk_of_append_left {l1 l2 : List (M Unit)} (h : AllOk (l1 ++ l2)) : AllOk l1 :=
  fun q hq => h q (List.mem_append_left l2 hq)

theorem allOk_of_append_right {l1 l2 : List (M Unit)} (h : AllOk (l1 ++ l2)) : AllOk l2 :=
  fun q hq => h q (List.mem_append_right l1 hq)

/-- A fulfilling chain's application, as a pair equation. -/
theorem ok_pair {m : M Unit} (rs : RS) (h : ∀ rs2 : RS, (m rs2).2 = Outcome.ok ()) :
    m rs = ((m rs).1, Outcome.ok ()) :=
  Prod.ext rfl (h rs)

/-- When every chain fulfills, settling runs the whole list (nothing is left
pending) and the combined promise fulfills. -/
theorem settleChains_allOk {ps : List (M Unit)} (h : AllOk ps) (rs : RS) :
    settleChains ps rs = ((runPending ps rs).1, Outcome.ok (), []) := by
  induction ps generalizing rs with
  | nil => rfl
  | cons p ps ih =>
      have hp := ok_pair rs (h p (List.mem_cons_self p ps))
      rw [settleChains_cons_of_ok ps hp, runPending_cons_of_ok ps hp]
      exact ih (fun q hq => h q (List.mem_cons_of_mem p hq)) _

theorem runPending_append {l1 l2 : List (M Unit)} (h1 : AllOk l1) (rs : RS) :
    runPending (l1 ++ l2) rs = runPending l2 ((runPending l1 rs).1) := by
  induction l1 generalizing rs with
  | nil => rfl
  | cons p l1 ih =>
      have hp := ok_pair rs (h1 p (List.mem_cons_self p l1))
      rw [List.cons_append, runPending_cons_of_ok (l1 ++ l2) hp,
        runPending_cons_of_ok l1 hp]
      exact ih (fun q hq => h1 q (List.mem_cons_of_mem p hq)) _

theorem runPending_allOk_result {ps : List (M Unit)} (h : AllOk ps) (rs : RS) :
    (runPending ps rs).2 = Outcome.ok () := by
  induction ps generalizing rs with
  | nil => rfl
  | cons p ps ih =>
      have hp := ok_pair rs (h p (List.mem_cons_self p ps))
      rw [runPending_cons_of_ok ps hp]
      exact ih (fun q hq => h q (List.mem_cons_of_mem p hq)) _

theorem promiseAll_apply (ps : List (M Unit)) (rs : RS) :
    promiseAll ps rs = ((settleChains ps rs).1, (settleChains ps rs).2.1) := rfl

theorem promiseAll_allOk {ps : List (M Unit)} (h : AllOk ps) (rs : RS) :
    promiseAll ps rs = ((runPending ps rs).1, Outcome.ok ()) := by
  rw [promiseAll_apply, settleChains_allOk h]

theorem promiseAll_cons_of_ok {p : M Unit} {rs rs1 : RS} {a : Unit} (ps : List (M Unit))
    (h : p rs = (rs1, Outcome.ok a)) :
    promiseAll (p :: ps) rs = promiseAll ps rs1 := by
  rw [promiseAll_apply, promiseAll_apply, settleChains_cons_of_ok ps h]

theorem awaitAssetPromises_of_ok {ps : List (M Unit)} {rs : RS} {a : Unit}
    (h : (settleChains ps rs).2.1 = Outcome.ok a) :
    awaitAssetPromises ps rs
      = ((settleChains ps rs).1, Outcome.ok (settleChains ps rs).2.2) := by
  unfold awaitAssetPromises
  simp [h]

theorem awaitAssetPromises_of_error {ps : List (M Unit)} {rs : RS} {msg : String}
    (h : (settleChains ps rs).2.1 = Outcome.error msg) :
    awaitAssetPromises ps rs
      = ({ store := ((settleChains ps rs).1).store,
           trace := ((settleChains ps rs).1).trace
             ++ [Event.log ("Error saving assets: " ++ msg)] },
         Outcome.ok (settleChains ps rs).2.2) := by
  unfold awaitAssetPromises
  simp [h]

theorem awaitAssetPromises_of_crash {ps : List (M Unit)} {rs : RS} {msg : String}
    (h : (settleChains ps rs).2.1 = Outcome.crash msg) :
    awaitAssetPromises ps rs = ((settleChains ps rs).1, Outcome.crash msg) := by
  unfold awaitAssetPromises
  simp [h]

/-- When every chain fulfills, the per-pack `await` leaves nothing pending. -/
theorem awaitAssetPromises_allOk {ps : List (M Unit)} (h : AllOk ps) (rs : RS) :
    awaitAssetPromises ps rs = ((runPending ps rs).1, Outcome.ok []) := by
  unfold awaitAssetPromises
  rw [settleChains_allOk h]

/-- Whatever the per-pack `await` hands back as pending is one of the chains
it dispatched. -/
theorem awaitAssetPromises_val_mem {ps : List (M Unit)} {rs rs1 : RS}
    {pend : List (M Unit)}
    (h : awaitAssetPromises ps rs = (rs1, Outcome.ok pend)) :
    ∀ q ∈ pend, q ∈ ps := by
  intro q hq
  refine settleChains_pending_mem ps rs q ?_
  unfold awaitAssetPromises at h
  cases hres : (settleChains ps rs).2.1 with
  | ok a =>
      simp only [hres] at h
      cases h
      exact hq
  | error msg =>
      simp only [hres] at h
      cases h
      exact hq
  | crash msg =>
      simp only [hres] at h
      cases h


/-! ## Applied forms of `readJSON` -/

theorem readJSON_missing (e : Env) (fn : String) (rs : RS)
    (h : List.lookup (dataFilePath e fn) e.files = none) :
    readJSON e fn rs
      = ({ store := rs.store,
           trace := rs.trace ++ [Event.log ("Reading file " ++ dataFilePath e fn),
                                 Event.readFile (dataFilePath e fn)] },
         Outcome.error ("ENOENT: no such file or directory, open " ++ dataFilePath e fn)) := by
  simp only [readJSON, M.bind_eq]
  rw [M.bind_apply_error _ _ _ _ _ (readFileSync_missing e fn rs h)]

theorem readJSON_parse_error (e : Env) (fn : String) (rs : RS) (bs : List Nat) (msg : String)
    (h : List.lookup (dataFilePath e fn) e.files = some bs)
    (hp : e.jsonParse bs = Except.error msg) :
    readJSON e fn rs
      = ({ store := rs.store,
           trace := rs.trace ++ [Event.log ("Reading file " ++ dataFilePath e fn),
                                 Event.readFile (dataFilePath e fn)] },
         Outcome.error msg) := by
  simp only [readJSON, M.bind_eq]
  rw [M.bind_apply_ok _ _ _ _ _ (readFileSync_found e fn rs bs h)]
  simp [hp, throwM]

theorem readJSON_ok (e : Env) (fn : String) (rs : RS) (bs : List Nat) (v : JsonValue)
    (h : List.lookup (dataFilePath e fn) e.files = some bs)
    (hp : e.jsonParse bs = Except.ok v) :
    readJSON e fn rs
      = ({ store := rs.store,
           trace := rs.trace ++ [Event.log ("Reading file " ++ dataFilePath e fn),
                                 Event.readFile (dataFilePath e fn)] },
         Outcome.ok v) := by
  simp only [readJSON, M.bind_eq]
  rw [M.bind_apply_ok _ _ _ _ _ (readFileSync_found e fn rs bs h)]
  simp [hp, M.pure]

/-! ## Compositional run invariants -/

/-- The computation only grows the store. -/
def Mono (m : M α) : Prop := ∀ rs, StoreLE rs.store ((m rs).1).store

/-- The computation appends a suffix of new events, each satisfying `P` with
respect to the store at the computation's entry. -/
def EmitsD (m : M α) (P : Store → Event → Prop) : Prop :=
  ∀ rs, ∃ t, ((m rs).1).trace = rs.trace ++ t ∧ ∀ ev ∈ t, P rs.store ev

/-- `P` transports backwards along store growth. -/
def AntiP (P : Store → Event → Prop) : Prop :=
  ∀ s t ev, StoreLE s t → P t ev → P s ev

theorem mono_pure (a : α) : Mono (M.pure a) := fun rs => StoreLE.refl rs.store

theorem mono_throw (msg : String) : Mono (throwM msg : M α) := fun rs => StoreLE.refl rs.store

theorem mono_bind {m : M α} {f : α → M β} (hm : Mono m) (hf : ∀ a, Mono (f a)) :
    Mono (M.bind m f) := by
  intro rs
  have h1 := hm rs
  unfold M.bind
  cases h : m rs with
  | mk rs1 r =>
      rw [h] at h1
      cases r with
      | ok a => exact h1.trans (hf a rs1)
      | error msg => exact h1
      | crash msg => exact h1

/-- Bind-stepping for `Mono` where the continuation's invariant is only known
for the values the first component can in fact deliver. -/
theorem mono_bind_val {m : M α} {f : α → M β} (Q : α → Prop) (hm : Mono m)
    (hv : ∀ rs rs1 a, m rs = (rs1, Outcome.ok a) → Q a)
    (hf : ∀ a, Q a → Mono (f a)) : Mono (M.bind m f) := by
  intro rs
  have h1 := hm rs
  unfold M.bind
  cases h : m rs with
  | mk rs1 r =>
      rw [h] at h1
      cases r with
      | ok a => exact h1.trans (hf a (hv rs rs1 a h) rs1)
      | error msg => exact h1
      | crash msg => exact h1

theorem mono_settleChains {ps : List (M Unit)} (h : ∀ p ∈ ps, Mono p) :
    ∀ rs : RS, StoreLE rs.store ((settleChains ps rs).1).store := by
  induction ps with
  | nil => intro rs; exact StoreLE.refl rs.store
  | cons p ps ih =>
      intro rs
      have h1 := h p (List.mem_cons_self p ps) rs
      cases hp : p rs with
      | mk rs1 r =>
          rw [hp] at h1
          cases r with
          | ok a =>
              rw [settleChains_cons_of_ok ps hp]
              exact h1.trans (ih (fun q hq => h q (List.mem_cons_of_mem p hq)) rs1)
          | error msg => rw [settleChains_cons_of_error ps hp]; exact h1
          | crash msg => rw [settleChains_cons_of_crash ps hp]; exact h1

theorem mono_runPending {ps : List (M Unit)} (h : ∀ p ∈ ps, Mono p) :
    Mono (runPending ps) := by
  induction ps with
  | nil => intro rs; exact StoreLE.refl rs.store
  | cons p ps ih =>
      intro rs
      have h1 := h p (List.mem_cons_self p ps) rs
      cases hp : p rs with
      | mk rs1 r =>
          rw [hp] at h1
          cases r with
          | ok a =>
              show StoreLE rs.store ((runPending (p :: ps) rs).1).store
              rw [runPending_cons_of_ok ps hp]
              exact h1.trans (ih (fun q hq => h q (List.mem_cons_of_mem p hq)) rs1)
          | error msg =>
              show StoreLE rs.store ((runPending (p :: ps) rs).1).store
              rw [runPending_cons_of_error ps hp]
              exact h1.trans (ih (fun q hq => h q (List.mem_cons_of_mem p hq)) rs1)
          | crash msg =>
              show StoreLE rs.store ((runPending (p :: ps) rs).1).store
              rw [runPending_cons_of_crash ps hp]
              exact h1

theorem mono_promiseAll {ps : List (M Unit)} (h : ∀ p ∈ ps, Mono p) :
    Mono (promiseAll ps) :=
  fun rs => mono_settleChains h rs

theorem mono_awaitAssetPromises {ps : List (M Unit)} (h : ∀ p ∈ ps, Mono p) :
    Mono (awaitAssetPromises ps) := by
  intro rs
  have h1 := mono_settleChains h rs
  cases hres : (settleChains ps rs).2.1 with
  | ok a => rw [awaitAssetPromises_of_ok hres]; exact h1
  | error msg => rw [awaitAssetPromises_of_error hres]; exact h1
  | crash msg => rw [awaitAssetPromises_of_crash hres]; exact h1

theorem emitsD_pure (a : α) (P : Store → Event → Prop) : EmitsD (M.pure a) P :=
  fun rs => ⟨[], by simp [M.pure], by simp⟩

theorem emitsD_throw (msg : String) (P : Store → Event → Prop) :
    EmitsD (throwM msg : M α) P :=
  fun rs => ⟨[], by simp [throwM], by simp⟩

theorem emitsD_bind {m : M α} {f : α → M β} {P : Store → Event → Prop}
    (hP : AntiP P) (hm : Mono m) (hem : EmitsD m P) (hef : ∀ a, EmitsD (f a) P) :
    EmitsD (M.bind m f) P := by
  intro rs
  obtain ⟨t1, ht1, hp1⟩ := hem rs
  have hmono := hm rs
  unfold M.bind
  cases h : m rs with
  | mk rs1 r =>
      rw [h] at ht1 hmono
      cases r with
      | ok a =>
          obtain ⟨t2, ht2, hp2⟩ := hef a rs1
          refine ⟨t1 ++ t2, by rw [ht2, ht1, List.append_assoc], ?_⟩
          intro ev hev
          rcases List.mem_append.mp hev with hev | hev
          · exact hp1 ev hev
          · exact hP _ _ _ hmono (hp2 ev hev)
      | error msg => exact ⟨t1, ht1, hp1⟩
      | crash msg => exact ⟨t1, ht1, hp1⟩

/-- Bind-stepping for `EmitsD` where the continuation's invariant is only
known for the values the first component can in fact deliver. -/
theorem emitsD_bind_val {m : M α} {f : α → M β} {P : Store → Event → Prop} (Q : α → Prop)
    (hP : AntiP P) (hm : Mono m) (hem : EmitsD m P)
    (hv : ∀ rs rs1 a, m rs = (rs1, Outcome.ok a) → Q a)
    (hef : ∀ a, Q a → EmitsD (f a) P) :
    EmitsD (M.bind m f) P := by
  intro rs
  obtain ⟨t1, ht1, hp1⟩ := hem rs
  have hmono := hm rs
  unfold M.bind
  cases h : m rs with
  | mk rs1 r =>
      rw [h] at ht1 hmono
      cases r with
      | ok a =>
          obtain ⟨t2, ht2, hp2⟩ := hef a (hv rs rs1 a h) rs1
          refine ⟨t1 ++ t2, by rw [ht2, ht1, List.append_assoc], ?_⟩
          intro ev hev
          rcases List.mem_append.mp hev with hev | hev
          · exact hp1 ev hev
          · exact hP _ _ _ hmono (hp2 ev hev)
      | error msg => exact ⟨t1, ht1, hp1⟩
      | crash msg => exact ⟨t1, ht1, hp1⟩

theorem emitsD_settleChains {ps : List (M Unit)} {P : Store → Event → Prop}
    (hP : AntiP P) (h : ∀ p ∈ ps, Mono p ∧ EmitsD p P) :
    ∀ rs : RS, ∃ t, ((settleChains ps rs).1).trace = rs.trace ++ t ∧
      ∀ ev ∈ t, P rs.store ev := by
  induction ps with
  | nil => intro rs; exact ⟨[], by simp [settleChains], by simp⟩
  | cons p ps ih =>
      intro rs
      obtain ⟨t1, ht1, hp1⟩ := (h p (List.mem_cons_self p ps)).2 rs
      have hmono := (h p (List.mem_cons_self p ps)).1 rs
      cases hp : p rs with
      | mk rs1 r =>
          rw [hp] at ht1 hmono
          cases r with
          | ok a =>
              obtain ⟨t2, ht2, hp2⟩ := ih (fun q hq => h q (List.mem_cons_of_mem p hq)) rs1
              rw [settleChains_cons_of_ok ps hp]
              refine ⟨t1 ++ t2, by rw [ht2, ht1, List.append_assoc], ?_⟩
              intro ev hev
              rcases List.mem_append.mp hev with hev | hev
              · exact hp1 ev hev
              · exact hP _ _ _ hmono (hp2 ev hev)
          | error msg =>
              rw [settleChains_cons_of_error ps hp]
              exact ⟨t1, ht1, hp1⟩
          | crash msg =>
              rw [settleChains_cons_of_crash ps hp]
              exact ⟨t1, ht1, hp1⟩

theorem emitsD_runPending {ps : List (M Unit)} {P : Store → Event → Prop}
    (hP : AntiP P) (h : ∀ p ∈ ps, Mono p ∧ EmitsD p P) :
    EmitsD (runPending ps) P := by
  induction ps with
  | nil => intro rs; exact ⟨[], by simp [runPending], by simp⟩
  | cons p ps ih =>
      intro rs
      obtain ⟨t1, ht1, hp1⟩ := (h p (List.mem_cons_self p ps)).2 rs
      have hmono := (h p (List.mem_cons_self p ps)).1 rs
      cases hp : p rs with
      | mk rs1 r =>
          rw [hp] at ht1 hmono
          cases r with
          | ok a =>
              obtain ⟨t2, ht2, hp2⟩ := ih (fun q hq => h q (List.mem_cons_of_mem p hq)) rs1
              show ∃ t, ((runPending (p :: ps) rs).1).trace = rs.trace ++ t ∧ _
              rw [runPending_cons_of_ok ps hp]
              refine ⟨t1 ++ t2, by rw [ht2, ht1, List.append_assoc], ?_⟩
              intro ev hev
              rcases List.mem_append.mp hev with hev | hev
              · exact hp1 ev hev
              · exact hP _ _ _ hmono (hp2 ev hev)
          | error msg =>
              obtain ⟨t2, ht2, hp2⟩ := ih (fun q hq => h q (List.mem_cons_of_mem p hq)) rs1
              show ∃ t, ((runPending (p :: ps) rs).1).trace = rs.trace ++ t ∧ _
              rw [runPending_cons_of_error ps hp]
              refine ⟨t1 ++ t2, by rw [ht2, ht1, List.append_assoc], ?_⟩
              intro ev hev
              rcases List.mem_append.mp hev with hev | hev
              · exact hp1 ev hev
              · exact hP _ _ _ hmono (hp2 ev hev)
          | crash msg =>
              show ∃ t, ((runPending (p :: ps) rs).1).trace = rs.trace ++ t ∧ _
              rw [runPending_cons_of_crash ps hp]
              exact ⟨t1, ht1, hp1⟩

theorem emitsD_promiseAll {ps : List (M Unit)} {P : Store → Event → Prop}
    (hP : AntiP P) (h : ∀ p ∈ ps, Mono p ∧ EmitsD p P) :
    EmitsD (promiseAll ps) P :=
  fun rs => emitsD_settleChains hP h rs

theorem emitsD_awaitAssetPromises {ps : List (M Unit)} {P : Store → Event → Prop}
    (hP : AntiP P) (h : ∀ p ∈ ps, Mono p ∧ EmitsD p P)
    (hlog : ∀ s msg, P s (Event.log msg)) :
    EmitsD (awaitAssetPromises ps) P := by
  intro rs
  obtain ⟨t1, ht1, hp1⟩ := emitsD_settleChains hP h rs
  cases hres : (settleChains ps rs).2.1 with
  | ok a =>
      rw [awaitAssetPromises_of_ok hres]
      exact ⟨t1, ht1, hp1⟩
  | error msg =>
      rw [awaitAssetPromises_of_error hres]
      refine ⟨t1 ++ [Event.log ("Error saving assets: " ++ msg)], ?_, ?_⟩
      · show ((settleChains ps rs).1).trace ++ _ = _
        rw [ht1, List.append_assoc]
      · intro ev hev
        rcases List.mem_append.mp hev with hev | hev
        · exact hp1 ev hev
        · rw [List.mem_singleton.mp hev]
          exact hlog _ _
  | crash msg =>
      rw [awaitAssetPromises_of_crash hres]
      exact ⟨t1, ht1, hp1⟩

/-- Trace membership is preserved by any computation that satisfies some
`EmitsD` instance. -/
theorem mem_trace_of_emitsD {m : M α} {P : Store → Event → Prop} (hm : EmitsD m P)
    (rs : RS) {ev : Event} (h : ev ∈ rs.trace) : ev ∈ ((m rs).1).trace := by
  obtain ⟨t, ht, _⟩ := hm rs
  rw [ht]
  exact List.mem_append_left _ h

/-! ## The events each phase can produce -/

/-- What the pack phase emits: never an asset upsert; object-store writes only
for keys absent at entry; pack upserts only for records built from fixture
packs, hitting the existing row whenever the key was already present. -/
def PackPhaseP (e : Env) (packs : List DefaultAssetPack) : Store → Event → Prop :=
  fun s ev =>
    (∀ a tg ex, ev ≠ Event.upsertAsset a tg ex) ∧
    (∀ k acl, ev = Event.saveFile k acl → s3HasB s k = false) ∧
    (∀ a ex, ev = Event.upsertPack a ex →
      (∃ p, p ∈ packs ∧ a = mkAssetPackAttributes e.now p (getThumbnailFilename p.id)) ∧
      (packHasB s a.id = true → ex = true))

/-- What the asset phase emits: never a pack upsert; object-store writes only
for keys absent at entry; asset upserts only with the composite conflict
target, for records built from fixture assets, hitting the existing row
whenever the composite key was already present. -/
def AssetPhaseP (e : Env) (packs : List DefaultAssetPack) : Store → Event → Prop :=
  fun s ev =>
    (∀ a ex, ev ≠ Event.upsertPack a ex) ∧
    (∀ k acl, ev = Event.saveFile k acl → s3HasB s k = false) ∧
    (∀ a tg ex, ev = Event.upsertAsset a tg ex →
      (tg = ["id", "asset_pack_id"] ∧
        ∃ p, p ∈ packs ∧ ∃ d, d ∈ assetsOf e p ∧ a = mkAssetAttributes p.id d) ∧
      (assetHasB s a.id a.asset_pack_id = true → ex = true))

theorem antiP_packPhaseP (e : Env) (packs : List DefaultAssetPack) :
    AntiP (PackPhaseP e packs) := by
  intro s t ev hle hP
  refine ⟨hP.1, ?_, ?_⟩
  · intro k acl heq
    cases hx : s3HasB s k with
    | false => rfl
    | true =>
        have h2 := hP.2.1 k acl heq
        rw [hle.1 k hx] at h2
        exact h2
  · intro a ex heq
    refine ⟨(hP.2.2 a ex heq).1, fun hpre => (hP.2.2 a ex heq).2 (hle.2.1 a.id hpre)⟩

theorem antiP_assetPhaseP (e : Env) (packs : List DefaultAssetPack) :
    AntiP (AssetPhaseP e packs) := by
  intro s t ev hle hP
  refine ⟨hP.1, ?_, ?_⟩
  · intro k acl heq
    cases hx : s3HasB s k with
    | false => rfl
    | true =>
        have h2 := hP.2.1 k acl heq
        rw [hle.1 k hx] at h2
        exact h2
  · intro a tg ex heq
    refine ⟨(hP.2.2 a tg ex heq).1,
      fun hpre => (hP.2.2 a tg ex heq).2 (hle.2.2 a.id a.asset_pack_id hpre)⟩

theorem packPhaseP_log (e : Env) (packs : List DefaultAssetPack) (s : Store) (m : String) :
    PackPhaseP e packs s (Event.log m) := ⟨by simp, by simp, by simp⟩

theorem packPhaseP_readFile (e : Env) (packs : List DefaultAssetPack) (s : Store) (p : String) :
    PackPhaseP e packs s (Event.readFile p) := ⟨by simp, by simp, by simp⟩

theorem packPhaseP_checkFile (e : Env) (packs : List DefaultAssetPack) (s : Store)
    (k : String) (b : Bool) : PackPhaseP e packs s (Event.checkFile k b) :=
  ⟨by simp, by simp, by simp⟩

theorem assetPhaseP_log (e : Env) (packs : List DefaultAssetPack) (s : Store) (m : String) :
    AssetPhaseP e packs s (Event.log m) := ⟨by simp, by simp, by simp⟩

theorem assetPhaseP_readFile (e : Env) (packs : List DefaultAssetPack) (s : Store) (p : String) :
    AssetPhaseP e packs s (Event.readFile p) := ⟨by simp, by simp, by simp⟩

theorem assetPhaseP_checkFile (e : Env) (packs : List DefaultAssetPack) (s : Store)
    (k : String) (b : Bool) : AssetPhaseP e packs s (Event.checkFile k b) :=
  ⟨by simp, by simp, by simp⟩

theorem assetPhaseP_download (e : Env) (packs : List DefaultAssetPack) (s : Store)
    (u : String) (b : Bool) : AssetPhaseP e packs s (Event.download u b) :=
  ⟨by simp, by simp, by simp⟩

/-! ## Mono instances -/

theorem mono_consoleLog (msg : String) : Mono (consoleLog msg) :=
  fun rs => StoreLE.refl rs.store

theorem mono_s3CheckFile (key : String) : Mono (s3CheckFile key) :=
  fun rs => StoreLE.refl rs.store

theorem mono_s3SaveFile (key : String) (b : List Nat) (acl : ACL) :
    Mono (s3SaveFile key b acl) :=
  fun rs => storeLE_saveFile rs.store key b

theorem mono_dbUpsertAssetPack (a : AssetPackAttributes) : Mono (dbUpsertAssetPack a) :=
  fun rs => storeLE_upsertPack rs.store a

theorem mono_dbUpsertAsset (a : AssetAttributes) (tg : List String) :
    Mono (dbUpsertAsset a tg) :=
  fun rs => storeLE_upsertAsset rs.store a

theorem mono_readFileSync (e : Env) (fn : String) : Mono (readFileSync e fn) := by
  intro rs
  unfold readFileSync
  cases h : List.lookup (dataFilePath e fn) e.files <;>
    simp only [h] <;> exact StoreLE.refl rs.store

theorem mono_readJSON (e : Env) (fn : String) : Mono (readJSON e fn) := by
  unfold readJSON
  simp only [M.bind_eq]
  refine mono_bind (mono_readFileSync e fn) ?_
  intro content
  cases e.jsonParse content with
  | ok v => exact mono_pure v
  | error msg => exact mono_throw msg

theorem mono_downloadAsset (e : Env) (cid : String) : Mono (downloadAsset e cid) := by
  intro rs
  cases hrem : e.remote (getAssetsUrl e ++ "/" ++ cid) with
  | response r =>
      cases hse : r.streamError with
      | none =>
          rw [downloadAsset_resolves e cid rs r hrem hse]
          exact StoreLE.refl rs.store
      | some msg =>
          rw [downloadAsset_rejects e cid rs r msg hrem hse]
          exact StoreLE.refl rs.store
  | requestError msg =>
      rw [downloadAsset_crashes e cid rs msg hrem]
      exact StoreLE.refl rs.store

theorem mono_uploadThumbnail (e : Env) (p : DefaultAssetPack) :
    Mono (uploadThumbnail e p) := by
  intro rs
  cases hchk : s3HasB rs.store (getThumbnailFilename p.id) with
  | true =>
      rw [uploadThumbnail_present e p rs hchk]
      exact StoreLE.refl rs.store
  | false =>
      cases hb : List.lookup (dataFilePath e (getThumbnailFilename p.id)) e.files with
      | some b =>
          rw [uploadThumbnail_absent_found e p rs b hchk hb]
          exact storeLE_saveFile rs.store _ b
      | none =>
          rw [uploadThumbnail_absent_missing e p rs hchk hb]
          exact StoreLE.refl rs.store

theorem mono_contentChain (e : Env) (cid : String) : Mono (contentChain e cid) := by
  intro rs
  cases hchk : s3HasB rs.store cid with
  | true =>
      rw [contentChain_present e cid rs hchk]
      exact StoreLE.refl rs.store
  | false =>
      cases hrem : e.remote (getAssetsUrl e ++ "/" ++ cid) with
      | response r =>
          cases hse : r.streamError with
          | none =>
              rw [contentChain_absent_resolves e cid rs r hchk hrem hse]
              exact storeLE_saveFile rs.store _ _
          | some msg =>
              rw [contentChain_absent_rejects e cid rs r msg hchk hrem hse]
              exact StoreLE.refl rs.store
      | requestError msg =>
          rw [contentChain_absent_crashes e cid rs msg hchk hrem]
          exact StoreLE.refl rs.store

theorem mono_packUpsertChain (e : Env) (now : Nat) (p : DefaultAssetPack) :
    Mono (packUpsertChain e now p) := by
  unfold packUpsertChain
  simp only [M.bind_eq]
  refine mono_bind (mono_uploadThumbnail e p) ?_
  intro thumbnail
  exact mono_bind (mono_consoleLog _) (fun _ => mono_dbUpsertAssetPack _)

theorem mono_upsertAssetPacks (e : Env) (l : List DefaultAssetPack) :
    Mono (upsertAssetPacks e l) := by
  unfold upsertAssetPacks
  refine mono_promiseAll ?_
  intro q hq
  obtain ⟨p, _, rfl⟩ := List.mem_map.mp hq
  exact mono_packUpsertChain e e.now p

theorem mono_assetPromises (e : Env) (packId : String) (d : DefaultAsset) :
    ∀ q ∈ assetPromises e packId d, Mono q := by
  intro q hq
  simp only [assetPromises, contentDispatch] at hq
  rcases List.mem_cons.mp hq with rfl | hq
  · simp only [M.bind_eq]
    exact mono_bind (mono_consoleLog _) (fun _ => mono_dbUpsertAsset _ _)
  · obtain ⟨cid, _, rfl⟩ := List.mem_map.mp hq
    exact mono_contentChain e cid


theorem thumbAvailable_mono {e : Env} {s t : Store} {p : DefaultAssetPack}
    (hle : StoreLE s t) (h : ThumbAvailable e s p) : ThumbAvailable e t p := by
  rcases h with h | h
  · exact Or.inl (hle.1 _ h)
  · exact Or.inr h

theorem readPacksFixture_inv {e : Env} {packs : List DefaultAssetPack}
    (h : readPacksFixture e = some packs) :
    ∃ bs r, List.lookup (dataFilePath e "packs.json") e.files = some bs ∧
      e.jsonParse bs = Except.ok (JsonValue.packsResponse r) ∧ r.data.packs = packs := by
  unfold readPacksFixture at h
  cases hlook : List.lookup (dataFilePath e "packs.json") e.files with
  | none => simp only [hlook] at h; exact Option.noConfusion h
  | some bs =>
      simp only [hlook] at h
      cases hparse : e.jsonParse bs with
      | error msg => simp only [hparse] at h; exact Option.noConfusion h
      | ok v =>
          simp only [hparse] at h
          cases v with
          | packsResponse r =>
              simp only [Option.some.injEq] at h
              exact ⟨bs, r, rfl, hparse, h⟩
          | assetResponse r => simp only [hparse] at h; exact Option.noConfusion h
          | other => simp only [hparse] at h; exact Option.noConfusion h

theorem readAssetsFixture_inv {e : Env} {id : String} {assets : List DefaultAsset}
    (h : readAssetsFixture e id = some assets) :
    ∃ bs r, List.lookup (dataFilePath e (id ++ ".json")) e.files = some bs ∧
      e.jsonParse bs = Except.ok (JsonValue.assetResponse r) ∧ r.data.assets = assets := by
  unfold readAssetsFixture at h
  cases hlook : List.lookup (dataFilePath e (id ++ ".json")) e.files with
  | none => simp only [hlook] at h; exact Option.noConfusion h
  | some bs =>
      simp only [hlook] at h
      cases hparse : e.jsonParse bs with
      | error msg => simp only [hparse] at h; exact Option.noConfusion h
      | ok v =>
          simp only [hparse] at h
          cases v with
          | packsResponse r => simp only [hparse] at h; exact Option.noConfusion h
          | assetResponse r =>
              simp only [Option.some.injEq] at h
              exact ⟨bs, r, rfl, hparse, h⟩
          | other => simp only [hparse] at h; exact Option.noConfusion h

/-- Value inversion for one pack-loop iteration: whatever it delivers as the
next pending list is a chain dispatched for one of this pack's fixture
assets. -/
theorem packAssetsStep_val (e : Env) (pend : List (M Unit)) (p : DefaultAssetPack)
    {rs rs1 : RS} {pend2 : List (M Unit)}
    (h : packAssetsStep e pend p rs = (rs1, Outcome.ok pend2)) :
    ∀ q ∈ pend2, ∃ d ∈ assetsOf e p, q ∈ assetPromises e p.id d := by
  unfold packAssetsStep at h
  simp only [M.bind_eq] at h
  cases hlook : List.lookup (dataFilePath e (p.id ++ ".json")) e.files with
  | none =>
      rw [M.bind_apply_error _ _ _ _ _ (readJSON_missing e (p.id ++ ".json") rs hlook)] at h
      simp at h
  | some bs =>
      cases hparse : e.jsonParse bs with
      | error msg =>
          rw [M.bind_apply_error _ _ _ _ _
            (readJSON_parse_error e (p.id ++ ".json") rs bs msg hlook hparse)] at h
          simp at h
      | ok v =>
          rw [M.bind_apply_ok _ _ _ _ _
            (readJSON_ok e (p.id ++ ".json") rs bs v hlook hparse)] at h
          cases v with
          | packsResponse r => simp [throwM] at h
          | other => simp [throwM] at h
          | assetResponse r =>
              have hfix : assetsOf e p = r.data.assets := by
                simp [assetsOf, readAssetsFixture, hlook, hparse]
              have h2 : M.bind (runPending pend) (fun _ =>
                  awaitAssetPromises ((r.data.assets.map (assetPromises e p.id)).flatten))
                  ⟨rs.store, rs.trace ++ [Event.log ("Reading file "
                      ++ dataFilePath e (p.id ++ ".json")),
                    Event.readFile (dataFilePath e (p.id ++ ".json"))]⟩
                  = (rs1, Outcome.ok pend2) := h
              cases hrp : runPending pend
                  ⟨rs.store, rs.trace ++ [Event.log ("Reading file "
                      ++ dataFilePath e (p.id ++ ".json")),
                    Event.readFile (dataFilePath e (p.id ++ ".json"))]⟩ with
              | mk rsx rx =>
                  cases rx with
                  | ok a =>
                      rw [M.bind_apply_ok _ _ _ _ _ hrp] at h2
                      intro q hq
                      have hmem := awaitAssetPromises_val_mem h2 q hq
                      obtain ⟨ps2, hps2, hqps2⟩ := List.mem_flatten.mp hmem
                      obtain ⟨d, hd, rfl⟩ := List.mem_map.mp hps2
                      exact ⟨d, by rw [hfix]; exact hd, hqps2⟩
                  | error msg =>
                      rw [M.bind_apply_error _ _ _ _ _ hrp] at h2
                      simp at h2
                  | crash msg =>
                      rw [M.bind_apply_crash _ _ _ _ _ hrp] at h2
                      simp at h2

theorem mono_packAssetsStep (e : Env) (pend : List (M Unit)) (p : DefaultAssetPack)
    (hpend : ∀ q ∈ pend, Mono q) : Mono (packAssetsStep e pend p) := by
  unfold packAssetsStep
  simp only [M.bind_eq]
  refine mono_bind (mono_readJSON e _) ?_
  intro v
  cases v with
  | assetResponse r =>
      refine mono_bind (mono_runPending hpend) ?_
      intro a
      refine mono_awaitAssetPromises ?_
      intro q hq
      obtain ⟨ps, hps, hqps⟩ := List.mem_flatten.mp hq
      obtain ⟨d, _, rfl⟩ := List.mem_map.mp hps
      exact mono_assetPromises e p.id d q hqps
  | packsResponse r => exact mono_throw _
  | other => exact mono_throw _

theorem mono_upsertAssets (e : Env) (l : List DefaultAssetPack) :
    ∀ pend : List (M Unit), (∀ q ∈ pend, Mono q) → Mono (upsertAssets e pend l) := by
  induction l with
  | nil => intro pend _ rs; exact StoreLE.refl rs.store
  | cons p rest ih =>
      intro pend hpend
      show Mono (M.bind (packAssetsStep e pend p) (fun pend2 => upsertAssets e pend2 rest))
      refine mono_bind_val (fun pend2 => ∀ q ∈ pend2, Mono q)
        (mono_packAssetsStep e pend p hpend) ?_ ?_
      · intro rs rs1 pend2 h q hq
        obtain ⟨d, _, hqa⟩ := packAssetsStep_val e pend p h q hq
        exact mono_assetPromises e p.id d q hqa
      · intro pend2 hQ
        exact ih pend2 hQ

theorem mono_seed (e : Env) : Mono (seed e) := by
  unfold seed
  simp only [M.bind_eq]
  refine mono_bind (mono_readJSON e _) ?_
  intro v
  cases v with
  | packsResponse r =>
      refine mono_bind (mono_consoleLog _) (fun _ => ?_)
      refine mono_bind (mono_upsertAssetPacks e _) (fun _ => ?_)
      refine mono_bind (mono_consoleLog _) (fun _ => ?_)
      exact mono_upsertAssets e _ [] (fun q hq => absurd hq (by simp))
  | assetResponse r => exact mono_throw _
  | other => exact mono_throw _

/-! ## EmitsD instances -/

theorem emitsD_uploadThumbnail (e : Env) (packs : List DefaultAssetPack)
    (p : DefaultAssetPack) : EmitsD (uploadThumbnail e p) (PackPhaseP e packs) := by
  intro rs
  cases hchk : s3HasB rs.store (getThumbnailFilename p.id) with
  | true =>
      rw [uploadThumbnail_present e p rs hchk]
      refine ⟨_, rfl, ?_⟩
      intro ev hev
      rcases List.mem_cons.mp hev with rfl | hev
      · exact packPhaseP_checkFile e packs _ _ _
      rcases List.mem_singleton.mp hev with rfl
      exact packPhaseP_log e packs _ _
  | false =>
      cases hb : List.lookup (dataFilePath e (getThumbnailFilename p.id)) e.files with
      | some b =>
          rw [uploadThumbnail_absent_found e p rs b hchk hb]
          refine ⟨_, rfl, ?_⟩
          intro ev hev
          rcases List.mem_cons.mp hev with rfl | hev
          · exact packPhaseP_checkFile e packs _ _ _
          rcases List.mem_cons.mp hev with rfl | hev
          · exact packPhaseP_log e packs _ _
          rcases List.mem_cons.mp hev with rfl | hev
          · exact packPhaseP_readFile e packs _ _
          rcases List.mem_cons.mp hev with rfl | hev
          · exact packPhaseP_log e packs _ _
          rcases List.mem_singleton.mp hev with rfl
          refine ⟨by simp, ?_, by simp⟩
          intro k acl heq
          cases heq
          exact hchk
      | none =>
          rw [uploadThumbnail_absent_missing e p rs hchk hb]
          refine ⟨_, rfl, ?_⟩
          intro ev hev
          rcases List.mem_cons.mp hev with rfl | hev
          · exact packPhaseP_checkFile e packs _ _ _
          rcases List.mem_cons.mp hev with rfl | hev
          · exact packPhaseP_log e packs _ _
          rcases List.mem_singleton.mp hev with rfl
          exact packPhaseP_readFile e packs _ _

theorem emitsD_packUpsertChain (e : Env) (packs : List DefaultAssetPack)
    (p : DefaultAssetPack) (hp : p ∈ packs) :
    EmitsD (packUpsertChain e e.now p) (PackPhaseP e packs) := by
  intro rs
  cases hchk : s3HasB rs.store (getThumbnailFilename p.id) with
  | true =>
      rw [packUpsertChain_present e e.now p rs hchk]
      refine ⟨_, rfl, ?_⟩
      intro ev hev
      rcases List.mem_cons.mp hev with rfl | hev
      · exact packPhaseP_checkFile e packs _ _ _
      rcases List.mem_cons.mp hev with rfl | hev
      · exact packPhaseP_log e packs _ _
      rcases List.mem_cons.mp hev with rfl | hev
      · exact packPhaseP_log e packs _ _
      rcases List.mem_singleton.mp hev with rfl
      refine ⟨by simp, by simp, ?_⟩
      intro a ex heq
      cases heq
      refine ⟨⟨p, hp, rfl⟩, ?_⟩
      intro h
      simpa [mkAssetPackAttributes] using h
  | false =>
      cases hb : List.lookup (dataFilePath e (getThumbnailFilename p.id)) e.files with
      | some b =>
          rw [packUpsertChain_absent_found e e.now p rs b hchk hb]
          refine ⟨_, rfl, ?_⟩
          intro ev hev
          rcases List.mem_cons.mp hev with rfl | hev
          · exact packPhaseP_checkFile e packs _ _ _
          rcases List.mem_cons.mp hev with rfl | hev
          · exact packPhaseP_log e packs _ _
          rcases List.mem_cons.mp hev with rfl | hev
          · exact packPhaseP_readFile e packs _ _
          rcases List.mem_cons.mp hev with rfl | hev
          · exact packPhaseP_log e packs _ _
          rcases List.mem_cons.mp hev with rfl | hev
          · refine ⟨by simp, ?_, by simp⟩
            intro k acl heq
            cases heq
            exact hchk
          rcases List.mem_cons.mp hev with rfl | hev
          · exact packPhaseP_log e packs _ _
          rcases List.mem_singleton.mp hev with rfl
          refine ⟨by simp, by simp, ?_⟩
          intro a ex heq
          cases heq
          refine ⟨⟨p, hp, rfl⟩, ?_⟩
          intro h
          simpa [mkAssetPackAttributes] using h
      | none =>
          rw [packUpsertChain_absent_missing e e.now p rs hchk hb]
          refine ⟨_, rfl, ?_⟩
          intro ev hev
          rcases List.mem_cons.mp hev with rfl | hev
          · exact packPhaseP_checkFile e packs _ _ _
          rcases List.mem_cons.mp hev with rfl | hev
          · exact packPhaseP_log e packs _ _
          rcases List.mem_singleton.mp hev with rfl
          exact packPhaseP_readFile e packs _ _

theorem emitsD_upsertAssetPacks (e : Env) (packs : List DefaultAssetPack)
    (l : List DefaultAssetPack) (hl : ∀ p ∈ l, p ∈ packs) :
    EmitsD (upsertAssetPacks e l) (PackPhaseP e packs) := by
  unfold upsertAssetPacks
  refine emitsD_promiseAll (antiP_packPhaseP e packs) ?_
  intro q hq
  obtain ⟨p, hp, rfl⟩ := List.mem_map.mp hq
  exact ⟨mono_packUpsertChain e e.now p, emitsD_packUpsertChain e packs p (hl p hp)⟩

theorem emitsD_contentChain (e : Env) (packs : List DefaultAssetPack) (cid : String) :
    EmitsD (contentChain e cid) (AssetPhaseP e packs) := by
  intro rs
  cases hchk : s3HasB rs.store cid with
  | true =>
      rw [contentChain_present e cid rs hchk]
      refine ⟨_, rfl, ?_⟩
      intro ev hev
      rcases List.mem_cons.mp hev with rfl | hev
      · exact assetPhaseP_checkFile e packs _ _ _
      rcases List.mem_singleton.mp hev with rfl
      exact assetPhaseP_log e packs _ _
  | false =>
      cases hrem : e.remote (getAssetsUrl e ++ "/" ++ cid) with
      | response r =>
          cases hse : r.streamError with
          | none =>
              rw [contentChain_absent_resolves e cid rs r hchk hrem hse]
              refine ⟨_, rfl, ?_⟩
              intro ev hev
              rcases List.mem_cons.mp hev with rfl | hev
              · exact assetPhaseP_checkFile e packs _ _ _
              rcases List.mem_cons.mp hev with rfl | hev
              · exact assetPhaseP_log e packs _ _
              rcases List.mem_cons.mp hev with rfl | hev
              · exact assetPhaseP_download e packs _ _ _
              rcases List.mem_cons.mp hev with rfl | hev
              · exact assetPhaseP_log e packs _ _
              rcases List.mem_cons.mp hev with rfl | hev
              · refine ⟨by simp, ?_, by simp⟩
                intro k acl heq
                cases heq
                exact hchk
              rcases List.mem_singleton.mp hev with rfl
              exact assetPhaseP_log e packs _ _
          | some msg =>
              rw [contentChain_absent_rejects e cid rs r msg hchk hrem hse]
              refine ⟨_, rfl, ?_⟩
              intro ev hev
              rcases List.mem_cons.mp hev with rfl | hev
              · exact assetPhaseP_checkFile e packs _ _ _
              rcases List.mem_cons.mp hev with rfl | hev
              · exact assetPhaseP_log e packs _ _
              rcases List.mem_singleton.mp hev with rfl
              exact assetPhaseP_download e packs _ _ _
      | requestError msg =>
          rw [contentChain_absent_crashes e cid rs msg hchk hrem]
          refine ⟨_, rfl, ?_⟩
          intro ev hev
          rcases List.mem_cons.mp hev with rfl | hev
          · exact assetPhaseP_checkFile e packs _ _ _
          rcases List.mem_singleton.mp hev with rfl
          exact assetPhaseP_log e packs _ _

theorem emitsD_assetPromises (e : Env) (packs : List DefaultAssetPack)
    (p : DefaultAssetPack) (d : DefaultAsset) (hp : p ∈ packs) (hd : d ∈ assetsOf e p) :
    ∀ q ∈ assetPromises e p.id d, Mono q ∧ EmitsD q (AssetPhaseP e packs) := by
  intro q hq
  simp only [assetPromises, contentDispatch] at hq
  rcases List.mem_cons.mp hq with rfl | hq
  · refine ⟨?_, ?_⟩
    · simp only [M.bind_eq]
      exact mono_bind (mono_consoleLog _) (fun _ => mono_dbUpsertAsset _ _)
    · intro rs
      simp only [M.bind_eq]
      rw [M.bind_apply_ok _ _ _ _ _ (consoleLog_apply _ _)]
      rw [dbUpsertAsset_apply]
      refine ⟨[Event.log ("Upserting asset " ++ (mkAssetAttributes p.id d).id
          ++ " for asset pack " ++ p.id),
        Event.upsertAsset (mkAssetAttributes p.id d) ["id", "asset_pack_id"]
          (assetHasB rs.store (mkAssetAttributes p.id d).id
            (mkAssetAttributes p.id d).asset_pack_id)], by simp, ?_⟩
      intro ev hev
      rcases List.mem_cons.mp hev with rfl | hev
      · exact assetPhaseP_log e packs _ _
      rcases List.mem_singleton.mp hev with rfl
      refine ⟨by simp, by simp, ?_⟩
      intro a tg ex heq
      cases heq
      exact ⟨⟨rfl, p, hp, d, hd, rfl⟩, fun h => h⟩
  · obtain ⟨cid, _, rfl⟩ := List.mem_map.mp hq
    exact ⟨mono_contentChain e cid, emitsD_contentChain e packs cid⟩

theorem emitsD_packAssetsStep (e : Env) (packs : List DefaultAssetPack)
    (pend : List (M Unit)) (p : DefaultAssetPack) (hp : p ∈ packs)
    (hpend : ∀ q ∈ pend, Mono q ∧ EmitsD q (AssetPhaseP e packs)) :
    EmitsD (packAssetsStep e pend p) (AssetPhaseP e packs) := by
  intro rs
  cases hlook : List.lookup (dataFilePath e (p.id ++ ".json")) e.files with
  | none =>
      have hstep := readJSON_missing e (p.id ++ ".json") rs hlook
      unfold packAssetsStep
      simp only [M.bind_eq]
      rw [M.bind_apply_error _ _ _ _ _ hstep]
      refine ⟨_, rfl, ?_⟩
      intro ev hev
      rcases List.mem_cons.mp hev with rfl | hev
      · exact assetPhaseP_log e packs _ _
      rcases List.mem_singleton.mp hev with rfl
      exact assetPhaseP_readFile e packs _ _
  | some bs =>
      cases hparse : e.jsonParse bs with
      | error msg =>
          have hstep := readJSON_parse_error e (p.id ++ ".json") rs bs msg hlook hparse
          unfold packAssetsStep
          simp only [M.bind_eq]
          rw [M.bind_apply_error _ _ _ _ _ hstep]
          refine ⟨_, rfl, ?_⟩
          intro ev hev
          rcases List.mem_cons.mp hev with rfl | hev
          · exact assetPhaseP_log e packs _ _
          rcases List.mem_singleton.mp hev with rfl
          exact assetPhaseP_readFile e packs _ _
      | ok v =>
          have hstep := readJSON_ok e (p.id ++ ".json") rs bs v hlook hparse
          unfold packAssetsStep
          simp only [M.bind_eq]
          rw [M.bind_apply_ok _ _ _ _ _ hstep]
          cases v with
          | assetResponse r =>
              have hfix : assetsOf e p = r.data.assets := by
                simp [assetsOf, readAssetsFixture, hlook, hparse]
              have hrest : EmitsD (M.bind (runPending pend) (fun _ =>
                  awaitAssetPromises ((r.data.assets.map (assetPromises e p.id)).flatten)))
                  (AssetPhaseP e packs) := by
                refine emitsD_bind (antiP_assetPhaseP e packs)
                  (mono_runPending (fun q hq => (hpend q hq).1))
                  (emitsD_runPending (antiP_assetPhaseP e packs) hpend) ?_
                intro a
                refine emitsD_awaitAssetPromises (antiP_assetPhaseP e packs) ?_
                  (fun s m => assetPhaseP_log e packs s m)
                intro q hq
                obtain ⟨ps, hps, hqps⟩ := List.mem_flatten.mp hq
                obtain ⟨d, hd, rfl⟩ := List.mem_map.mp hps
                exact emitsD_assetPromises e packs p d hp (by rw [hfix]; exact hd) q hqps
              obtain ⟨t2, ht2, hp2⟩ := hrest
                { store := rs.store,
                  trace := rs.trace ++ [Event.log ("Reading file "
                      ++ dataFilePath e (p.id ++ ".json")),
                    Event.readFile (dataFilePath e (p.id ++ ".json"))] }
              refine ⟨[Event.log ("Reading file " ++ dataFilePath e (p.id ++ ".json")),
                Event.readFile (dataFilePath e (p.id ++ ".json"))] ++ t2, ?_, ?_⟩
              · rw [ht2]
                simp
              · intro ev hev
                rcases List.mem_append.mp hev with hev | hev
                · rcases List.mem_cons.mp hev with rfl | hev
                  · exact assetPhaseP_log e packs _ _
                  rcases List.mem_singleton.mp hev with rfl
                  exact assetPhaseP_readFile e packs _ _
                · exact hp2 ev hev
          | packsResponse r =>
              refine ⟨_, rfl, ?_⟩
              intro ev hev
              rcases List.mem_cons.mp hev with rfl | hev
              · exact assetPhaseP_log e packs _ _
              rcases List.mem_singleton.mp hev with rfl
              exact assetPhaseP_readFile e packs _ _
          | other =>
              refine ⟨_, rfl, ?_⟩
              intro ev hev
              rcases List.mem_cons.mp hev with rfl | hev
              · exact assetPhaseP_log e packs _ _
              rcases List.mem_singleton.mp hev with rfl
              exact assetPhaseP_readFile e packs _ _

theorem emitsD_upsertAssets (e : Env) (packs : List DefaultAssetPack)
    (l : List DefaultAssetPack) (hl : ∀ p ∈ l, p ∈ packs) :
    ∀ pend : List (M Unit), (∀ q ∈ pend, Mono q ∧ EmitsD q (AssetPhaseP e packs)) →
      EmitsD (upsertAssets e pend l) (AssetPhaseP e packs) := by
  induction l with
  | nil => intro pend _ rs; exact ⟨[], by rw [List.append_nil]; rfl, by simp⟩
  | cons p rest ih =>
      intro pend hpend
      show EmitsD (M.bind (packAssetsStep e pend p) (fun pend2 => upsertAssets e pend2 rest)) _
      refine emitsD_bind_val
        (fun pend2 => ∀ q ∈ pend2, Mono q ∧ EmitsD q (AssetPhaseP e packs))
        (antiP_assetPhaseP e packs)
        (mono_packAssetsStep e pend p (fun q hq => (hpend q hq).1))
        (emitsD_packAssetsStep e packs pend p (hl p (List.mem_cons_self p rest)) hpend)
        ?_ ?_
      · intro rs rs1 pend2 h q hq
        obtain ⟨d, hd, hqa⟩ := packAssetsStep_val e pend p h q hq
        exact emitsD_assetPromises e packs p d (hl p (List.mem_cons_self p rest)) hd q hqa
      · intro pend2 hQ
        exact ih (fun q hq => hl q (List.mem_cons_of_mem p hq)) pend2 hQ

/-! ## Postconditions of the pack phase -/

theorem promiseAll_cons_of_error {p : M Unit} {rs rs1 : RS} {msg : String}
    (ps : List (M Unit)) (h : p rs = (rs1, Outcome.error msg)) :
    promiseAll (p :: ps) rs = (rs1, Outcome.error msg) := by
  rw [promiseAll_apply, settleChains_cons_of_error ps h]

theorem promiseAll_cons_of_crash {p : M Unit} {rs rs1 : RS} {msg : String}
    (ps : List (M Unit)) (h : p rs = (rs1, Outcome.crash msg)) :
    promiseAll (p :: ps) rs = (rs1, Outcome.crash msg) := by
  rw [promiseAll_apply, settleChains_cons_of_crash ps h]

theorem packUpsertChain_establishes (e : Env) (p : DefaultAssetPack) (rs : RS)
    (h : ThumbAvailable e rs.store p) :
    (packUpsertChain e e.now p rs).2 = Outcome.ok () ∧
    packHasB ((packUpsertChain e e.now p rs).1).store p.id = true ∧
    s3HasB ((packUpsertChain e e.now p rs).1).store (getThumbnailFilename p.id) = true := by
  cases hchk : s3HasB rs.store (getThumbnailFilename p.id) with
  | true =>
      rw [packUpsertChain_present e e.now p rs hchk]
      refine ⟨rfl, ?_, ?_⟩
      · simpa [packHasB, mkAssetPackAttributes] using
          any_id_upsertPackList_self rs.store.db.assetPacks
            (mkAssetPackAttributes e.now p (getThumbnailFilename p.id))
      · simpa [s3HasB, s3Lookup] using hchk
  | false =>
      rcases h with h | h
      · rw [hchk] at h; exact absurd h (by simp)
      · obtain ⟨b, hb⟩ := Option.isSome_iff_exists.mp h
        rw [packUpsertChain_absent_found e e.now p rs b hchk hb]
        refine ⟨rfl, ?_, ?_⟩
        · simpa [packHasB, mkAssetPackAttributes] using
            any_id_upsertPackList_self rs.store.db.assetPacks
              (mkAssetPackAttributes e.now p (getThumbnailFilename p.id))
        · exact s3HasB_cons_self

theorem upsertAssetPacks_establishes (e : Env) (l : List DefaultAssetPack) :
    ∀ rs : RS, (∀ p ∈ l, ThumbAvailable e rs.store p) →
      ((upsertAssetPacks e l rs).2 = Outcome.ok () ∧
       ∀ p ∈ l, packHasB ((upsertAssetPacks e l rs).1).store p.id = true ∧
         s3HasB ((upsertAssetPacks e l rs).1).store (getThumbnailFilename p.id) = true) := by
  induction l with
  | nil => intro rs _; exact ⟨rfl, by simp⟩
  | cons p rest ih =>
      intro rs hta
      have hchain := packUpsertChain_establishes e p rs
        (hta p (List.mem_cons_self p rest))
      have hchainEq : packUpsertChain e e.now p rs
          = ((packUpsertChain e e.now p rs).1, Outcome.ok ()) := Prod.ext rfl hchain.1
      have hmono1 : StoreLE rs.store ((packUpsertChain e e.now p rs).1).store :=
        mono_packUpsertChain e e.now p rs
      have hta2 : ∀ q ∈ rest, ThumbAvailable e ((packUpsertChain e e.now p rs).1).store q :=
        fun q hq => thumbAvailable_mono hmono1 (hta q (List.mem_cons_of_mem p hq))
      have ihr := ih ((packUpsertChain e e.now p rs).1) hta2
      have hmono2 : StoreLE ((packUpsertChain e e.now p rs).1).store
          ((upsertAssetPacks e rest ((packUpsertChain e e.now p rs).1)).1).store :=
        mono_upsertAssetPacks e rest _
      have hstep : upsertAssetPacks e (p :: rest) rs
          = upsertAssetPacks e rest ((packUpsertChain e e.now p rs).1) := by
        show promiseAll ((p :: rest).map (packUpsertChain e e.now)) rs = _
        rw [List.map_cons, promiseAll_cons_of_ok _ hchainEq]
        rfl
      rw [hstep]
      refine ⟨ihr.1, ?_⟩
      intro q hq
      rcases List.mem_cons.mp hq with rfl | hq
      · exact ⟨hmono2.2.1 q.id hchain.2.1, hmono2.1 _ hchain.2.2⟩
      · exact ihr.2 q hq

theorem packUpsertChain_keys (e : Env) (p : DefaultAssetPack) (rs : RS)
    (hpres : packHasB rs.store p.id = true) :
    (((packUpsertChain e e.now p rs).1).store.db.assetPacks.map (fun x => x.id)
       = rs.store.db.assetPacks.map (fun x => x.id)) ∧
    ((packUpsertChain e e.now p rs).1).store.db.assets = rs.store.db.assets := by
  cases hchk : s3HasB rs.store (getThumbnailFilename p.id) with
  | true =>
      rw [packUpsertChain_present e e.now p rs hchk]
      refine ⟨?_, rfl⟩
      exact map_id_upsertPackList (by simpa [packHasB, mkAssetPackAttributes] using hpres)
  | false =>
      cases hb : List.lookup (dataFilePath e (getThumbnailFilename p.id)) e.files with
      | some b =>
          rw [packUpsertChain_absent_found e e.now p rs b hchk hb]
          refine ⟨?_, rfl⟩
          exact map_id_upsertPackList (by simpa [packHasB, mkAssetPackAttributes] using hpres)
      | none =>
          rw [packUpsertChain_absent_missing e e.now p rs hchk hb]
          exact ⟨rfl, rfl⟩

theorem upsertAssetPacks_keys (e : Env) (l : List DefaultAssetPack) :
    ∀ rs : RS, (∀ p ∈ l, packHasB rs.store p.id = true) →
      (((upsertAssetPacks e l rs).1).store.db.assetPacks.map (fun x => x.id)
         = rs.store.db.assetPacks.map (fun x => x.id)) ∧
      ((upsertAssetPacks e l rs).1).store.db.assets = rs.store.db.assets := by
  induction l with
  | nil => intro rs _; exact ⟨rfl, rfl⟩
  | cons p rest ih =>
      intro rs hpres
      have hchain := packUpsertChain_keys e p rs (hpres p (List.mem_cons_self p rest))
      have hmono1 : StoreLE rs.store ((packUpsertChain e e.now p rs).1).store :=
        mono_packUpsertChain e e.now p rs
      cases hres : packUpsertChain e e.now p rs with
      | mk rs1 r =>
          have h1 : rs1 = (packUpsertChain e e.now p rs).1 := by rw [hres]
          cases r with
          | ok a =>
              have hstep : upsertAssetPacks e (p :: rest) rs = upsertAssetPacks e rest rs1 := by
                show promiseAll ((p :: rest).map (packUpsertChain e e.now)) rs = _
                rw [List.map_cons, promiseAll_cons_of_ok _ hres]
                rfl
              rw [hstep]
              subst h1
              have ihr := ih ((packUpsertChain e e.now p rs).1)
                (fun q hq => hmono1.2.1 q.id (hpres q (List.mem_cons_of_mem p hq)))
              exact ⟨ihr.1.trans hchain.1, ihr.2.trans hchain.2⟩
          | error msg =>
              have hstep : upsertAssetPacks e (p :: rest) rs = (rs1, Outcome.error msg) := by
                show promiseAll ((p :: rest).map (packUpsertChain e e.now)) rs = _
                rw [List.map_cons, promiseAll_cons_of_error _ hres]
              rw [hstep]
              subst h1
              exact ⟨hchain.1, hchain.2⟩
          | crash msg =>
              have hstep : upsertAssetPacks e (p :: rest) rs = (rs1, Outcome.crash msg) := by
                show promiseAll ((p :: rest).map (packUpsertChain e e.now)) rs = _
                rw [List.map_cons, promiseAll_cons_of_crash _ hres]
              rw [hstep]
              subst h1
              exact ⟨hchain.1, hchain.2⟩

/-! ## Postconditions of the asset phase -/

theorem logThenUpsertAsset_apply (s : String) (A : AssetAttributes) (tgt : List String)
    (rs : RS) :
    (M.bind (consoleLog s) (fun _ => dbUpsertAsset A tgt)) rs
      = ({ store := { db := { assetPacks := rs.store.db.assetPacks,
                              assets := upsertAssetList rs.store.db.assets A },
                      s3 := rs.store.s3 },
           trace := rs.trace ++ [Event.log s,
             Event.upsertAsset A tgt (assetHasB rs.store A.id A.asset_pack_id)] },
         Outcome.ok ()) := by
  rw [M.bind_apply_ok _ _ _ _ _ (consoleLog_apply _ _)]
  rw [dbUpsertAsset_apply]
  simp


/-- A content chain whose URL delivers a body fulfills from every state. -/
theorem contentChain_ok (e : Env) (cid : String)
    (hdel : (e.remote (getAssetsUrl e ++ "/" ++ cid)).deliversBody = true) :
    ∀ rs : RS, (contentChain e cid rs).2 = Outcome.ok () := by
  intro rs
  cases hchk : s3HasB rs.store cid with
  | true => rw [contentChain_present e cid rs hchk]
  | false =>
      cases hrem : e.remote (getAssetsUrl e ++ "/" ++ cid) with
      | response r =>
          have hse : r.streamError = none := by
            rw [hrem] at hdel
            simpa [HttpOutcome.deliversBody] using hdel
          rw [contentChain_absent_resolves e cid rs r hchk hrem hse]
      | requestError msg =>
          rw [hrem] at hdel
          simp [HttpOutcome.deliversBody] at hdel

/-- Every promise dispatched for an asset whose content URLs deliver bodies
fulfills from every state. -/
theorem assetPromises_allOk (e : Env) (pid : String) (d : DefaultAsset)
    (hdel : ∀ c ∈ d.contents,
      (e.remote (getAssetsUrl e ++ "/" ++ c.2)).deliversBody = true) :
    AllOk (assetPromises e pid d) := by
  intro q hq
  simp only [assetPromises, contentDispatch] at hq
  rcases List.mem_cons.mp hq with rfl | hq
  · intro rs
    simp only [M.bind_eq]
    rw [logThenUpsertAsset_apply]
  · obtain ⟨cid, hcid, rfl⟩ := List.mem_map.mp hq
    obtain ⟨c, hc, rfl⟩ := List.mem_map.mp hcid
    exact contentChain_ok e c.2 (hdel c hc)

theorem assetFold_allOk (e : Env) (pid : String) (assets : List DefaultAsset)
    (hdel : ∀ d ∈ assets, ∀ c ∈ d.contents,
      (e.remote (getAssetsUrl e ++ "/" ++ c.2)).deliversBody = true) :
    AllOk ((assets.map (assetPromises e pid)).flatten) := by
  intro q hq
  obtain ⟨ps, hps, hqps⟩ := List.mem_flatten.mp hq
  obtain ⟨d, hd, rfl⟩ := List.mem_map.mp hps
  exact assetPromises_allOk e pid d (hdel d hd) q hqps

theorem contentChain_db (e : Env) (cid : String) (rs : RS) :
    ((contentChain e cid rs).1).store.db = rs.store.db := by
  cases hchk : s3HasB rs.store cid with
  | true => rw [contentChain_present e cid rs hchk]
  | false =>
      cases hrem : e.remote (getAssetsUrl e ++ "/" ++ cid) with
      | response r =>
          cases hse : r.streamError with
          | none => rw [contentChain_absent_resolves e cid rs r hchk hrem hse]
          | some msg => rw [contentChain_absent_rejects e cid rs r msg hchk hrem hse]
      | requestError msg => rw [contentChain_absent_crashes e cid rs msg hchk hrem]

theorem runPending_contentChains_db (e : Env) (cids : List String) :
    ∀ rs : RS, ((runPending (cids.map (contentChain e)) rs).1).store.db = rs.store.db := by
  induction cids with
  | nil => intro rs; rfl
  | cons cid cids ih =>
      intro rs
      have hdb := contentChain_db e cid rs
      cases hres : contentChain e cid rs with
      | mk rs1 r =>
          have h1 : rs1 = (contentChain e cid rs).1 := by rw [hres]
          cases r with
          | ok a =>
              show ((runPending (contentChain e cid :: cids.map (contentChain e)) rs).1).store.db = _
              rw [runPending_cons_of_ok _ hres, ih, h1, hdb]
          | error msg =>
              show ((runPending (contentChain e cid :: cids.map (contentChain e)) rs).1).store.db = _
              rw [runPending_cons_of_error _ hres, ih, h1, hdb]
          | crash msg =>
              show ((runPending (contentChain e cid :: cids.map (contentChain e)) rs).1).store.db = _
              rw [runPending_cons_of_crash _ hres, h1, hdb]

theorem assetBlock_db (e : Env) (pid : String) (d : DefaultAsset) (rs : RS) :
    ((runPending (assetPromises e pid d) rs).1).store.db
      = ⟨rs.store.db.assetPacks, upsertAssetList rs.store.db.assets (mkAssetAttributes pid d)⟩ := by
  simp only [assetPromises, contentDispatch, M.bind_eq]
  rw [runPending_cons_of_ok _ (logThenUpsertAsset_apply _ _ _ rs)]
  rw [runPending_contentChains_db]

theorem mono_assetBlock (e : Env) (pid : String) (d : DefaultAsset) :
    Mono (runPending (assetPromises e pid d)) :=
  mono_runPending (mono_assetPromises e pid d)

theorem assetBlock_establishes (e : Env) (pid : String) (d : DefaultAsset) (rs : RS) :
    assetHasB ((runPending (assetPromises e pid d) rs).1).store d.id pid = true := by
  have h := assetBlock_db e pid d rs
  simp only [assetHasB, h]
  simpa [mkAssetAttributes] using
    any_key_upsertAssetList_self rs.store.db.assets (mkAssetAttributes pid d)

theorem assetBlock_keys (e : Env) (pid : String) (d : DefaultAsset) (rs : RS)
    (hpres : assetHasB rs.store d.id pid = true) :
    (((runPending (assetPromises e pid d) rs).1).store.db.assets.map
        (fun x => (x.id, x.asset_pack_id))
      = rs.store.db.assets.map (fun x => (x.id, x.asset_pack_id))) ∧
    ((runPending (assetPromises e pid d) rs).1).store.db.assetPacks
      = rs.store.db.assetPacks := by
  have h := assetBlock_db e pid d rs
  rw [h]
  refine ⟨?_, rfl⟩
  exact map_key_upsertAssetList (by simpa [assetHasB, mkAssetAttributes] using hpres)

theorem mono_assetFold (e : Env) (pid : String) (assets : List DefaultAsset) :
    Mono (runPending ((assets.map (assetPromises e pid)).flatten)) := by
  refine mono_runPending ?_
  intro q hq
  obtain ⟨ps, hps, hqps⟩ := List.mem_flatten.mp hq
  obtain ⟨d, _, rfl⟩ := List.mem_map.mp hps
  exact mono_assetPromises e pid d q hqps

theorem assetFold_establishes (e : Env) (pid : String) (assets : List DefaultAsset)
    (hok : AllOk ((assets.map (assetPromises e pid)).flatten)) :
    ∀ rs : RS, ∀ d ∈ assets,
      assetHasB ((runPending ((assets.map (assetPromises e pid)).flatten) rs).1).store
        d.id pid = true := by
  induction assets with
  | nil => intro rs d hd; exact absurd hd (by simp)
  | cons d0 ds ih =>
      intro rs d hd
      have hsplit : (((d0 :: ds).map (assetPromises e pid)).flatten)
          = assetPromises e pid d0 ++ (ds.map (assetPromises e pid)).flatten := by
        simp
      rw [hsplit] at hok ⊢
      rw [runPending_append (allOk_of_append_left hok) rs]
      rcases List.mem_cons.mp hd with rfl | hd
      · have h0 := assetBlock_establishes e pid d rs
        have hmono := mono_assetFold e pid ds ((runPending (assetPromises e pid d) rs).1)
        exact hmono.2.2 d.id pid h0
      · exact ih (allOk_of_append_right hok) ((runPending (assetPromises e pid d0) rs).1) d hd

theorem assetFold_keys (e : Env) (pid : String) (assets : List DefaultAsset)
    (hok : AllOk ((assets.map (assetPromises e pid)).flatten)) :
    ∀ rs : RS, (∀ d ∈ assets, assetHasB rs.store d.id pid = true) →
      ((((runPending ((assets.map (assetPromises e pid)).flatten) rs).1).store.db.assets.map
          (fun x => (x.id, x.asset_pack_id))
        = rs.store.db.assets.map (fun x => (x.id, x.asset_pack_id))) ∧
       ((runPending ((assets.map (assetPromises e pid)).flatten) rs).1).store.db.assetPacks
        = rs.store.db.assetPacks) := by
  induction assets with
  | nil => intro rs _; exact ⟨rfl, rfl⟩
  | cons d0 ds ih =>
      intro rs hpres
      have hsplit : (((d0 :: ds).map (assetPromises e pid)).flatten)
          = assetPromises e pid d0 ++ (ds.map (assetPromises e pid)).flatten := by
        simp
      rw [hsplit] at hok ⊢
      rw [runPending_append (allOk_of_append_left hok) rs]
      have hblock := assetBlock_keys e pid d0 rs (hpres d0 (List.mem_cons_self d0 ds))
      have hmono := mono_assetBlock e pid d0 rs
      have ihr := ih (allOk_of_append_right hok) ((runPending (assetPromises e pid d0) rs).1)
        (fun d hd => hmono.2.2 d.id pid (hpres d (List.mem_cons_of_mem d0 hd)))
      exact ⟨ihr.1.trans hblock.1, ihr.2.trans hblock.2⟩

/-- With nothing pending, a parsing fixture and a delivering content host, one
pack-loop iteration is the read followed by the full completion of the pack's
dispatched chains, and it hands nothing pending to the next iteration. -/
theorem packAssetsStep_ok_eq (e : Env) (p : DefaultAssetPack) (assets : List DefaultAsset)
    (hfix : readAssetsFixture e p.id = some assets) (hdel : PackDeliverable e p) (rs : RS) :
    packAssetsStep e [] p rs
      = ((runPending ((assets.map (assetPromises e p.id)).flatten)
            ⟨rs.store, rs.trace
              ++ [Event.log ("Reading file " ++ dataFilePath e (p.id ++ ".json")),
                  Event.readFile (dataFilePath e (p.id ++ ".json"))]⟩).1,
         Outcome.ok []) := by
  obtain ⟨bs, r, hlook, hparse, hras⟩ := readAssetsFixture_inv hfix
  have hok : AllOk ((r.data.assets.map (assetPromises e p.id)).flatten) := by
    refine assetFold_allOk e p.id r.data.assets ?_
    intro d hd c hc
    have hdof : d ∈ assetsOf e p := by
      have hx : assetsOf e p = assets := by simp [assetsOf, hfix]
      rw [hx, ← hras]
      exact hd
    exact hdel d hdof c hc
  have hgoal : packAssetsStep e [] p rs
      = ((runPending ((r.data.assets.map (assetPromises e p.id)).flatten)
            ⟨rs.store, rs.trace
              ++ [Event.log ("Reading file " ++ dataFilePath e (p.id ++ ".json")),
                  Event.readFile (dataFilePath e (p.id ++ ".json"))]⟩).1,
         Outcome.ok []) := by
    unfold packAssetsStep
    simp only [M.bind_eq]
    rw [M.bind_apply_ok _ _ _ _ _ (readJSON_ok e (p.id ++ ".json") rs bs _ hlook hparse)]
    have hbody : M.bind (runPending []) (fun _ =>
        awaitAssetPromises ((r.data.assets.map (assetPromises e p.id)).flatten))
        ⟨rs.store, rs.trace
          ++ [Event.log ("Reading file " ++ dataFilePath e (p.id ++ ".json")),
              Event.readFile (dataFilePath e (p.id ++ ".json"))]⟩
        = ((runPending ((r.data.assets.map (assetPromises e p.id)).flatten)
              ⟨rs.store, rs.trace
                ++ [Event.log ("Reading file " ++ dataFilePath e (p.id ++ ".json")),
                    Event.readFile (dataFilePath e (p.id ++ ".json"))]⟩).1,
           Outcome.ok []) := by
      rw [M.bind_apply_ok _ _ _ _ _ (runPending_nil _)]
      exact awaitAssetPromises_allOk hok _
    exact hbody
  rw [hras] at hgoal
  exact hgoal

theorem packAssetsStep_establishes (e : Env) (p : DefaultAssetPack)
    (assets : List DefaultAsset) (hfix : readAssetsFixture e p.id = some assets)
    (hdel : PackDeliverable e p) (rs : RS) :
    (packAssetsStep e [] p rs).2 = Outcome.ok ([] : List (M Unit)) ∧
    ∀ d ∈ assets, assetHasB ((packAssetsStep e [] p rs).1).store d.id p.id = true := by
  have heq := packAssetsStep_ok_eq e p assets hfix hdel rs
  rw [heq]
  refine ⟨rfl, ?_⟩
  intro d hd
  have hok : AllOk ((assets.map (assetPromises e p.id)).flatten) := by
    refine assetFold_allOk e p.id assets ?_
    intro d2 hd2 c hc
    have hx : assetsOf e p = assets := by simp [assetsOf, hfix]
    exact hdel d2 (by rw [hx]; exact hd2) c hc
  exact assetFold_establishes e p.id assets hok _ d hd

theorem packAssetsStep_keys (e : Env) (p : DefaultAssetPack)
    (assets : List DefaultAsset) (hfix : readAssetsFixture e p.id = some assets)
    (hdel : PackDeliverable e p) (rs : RS)
    (hpres : ∀ d ∈ assets, assetHasB rs.store d.id p.id = true) :
    ((((packAssetsStep e [] p rs).1).store.db.assets.map (fun x => (x.id, x.asset_pack_id))
       = rs.store.db.assets.map (fun x => (x.id, x.asset_pack_id))) ∧
     ((packAssetsStep e [] p rs).1).store.db.assetPacks = rs.store.db.assetPacks) := by
  have heq := packAssetsStep_ok_eq e p assets hfix hdel rs
  rw [heq]
  have hok : AllOk ((assets.map (assetPromises e p.id)).flatten) := by
    refine assetFold_allOk e p.id assets ?_
    intro d2 hd2 c hc
    have hx : assetsOf e p = assets := by simp [assetsOf, hfix]
    exact hdel d2 (by rw [hx]; exact hd2) c hc
  exact assetFold_keys e p.id assets hok
    ⟨rs.store, rs.trace
      ++ [Event.log ("Reading file " ++ dataFilePath e (p.id ++ ".json")),
          Event.readFile (dataFilePath e (p.id ++ ".json"))]⟩ hpres

theorem upsertAssets_establishes (e : Env) (l : List DefaultAssetPack) :
    ∀ rs : RS, (∀ p ∈ l, (readAssetsFixture e p.id).isSome = true) →
      (∀ p ∈ l, PackDeliverable e p) →
      ((upsertAssets e [] l rs).2 = Outcome.ok () ∧
       ∀ p ∈ l, ∀ d ∈ assetsOf e p,
         assetHasB ((upsertAssets e [] l rs).1).store d.id p.id = true) := by
  induction l with
  | nil => intro rs _ _; exact ⟨rfl, by simp⟩
  | cons p rest ih =>
      intro rs hread hdel
      obtain ⟨assets, hassets⟩ := Option.isSome_iff_exists.mp
        (hread p (List.mem_cons_self p rest))
      have hstep := packAssetsStep_establishes e p assets hassets
        (hdel p (List.mem_cons_self p rest)) rs
      have hstepeq : packAssetsStep e [] p rs
          = ((packAssetsStep e [] p rs).1, Outcome.ok []) := Prod.ext rfl hstep.1
      have hun : upsertAssets e [] (p :: rest) rs
          = upsertAssets e [] rest ((packAssetsStep e [] p rs).1) := by
        show (M.bind (packAssetsStep e [] p) (fun pend2 => upsertAssets e pend2 rest)) rs = _
        exact M.bind_apply_ok _ _ _ _ _ hstepeq
      rw [hun]
      have ihr := ih ((packAssetsStep e [] p rs).1)
        (fun q hq => hread q (List.mem_cons_of_mem p hq))
        (fun q hq => hdel q (List.mem_cons_of_mem p hq))
      refine ⟨ihr.1, ?_⟩
      intro q hq d hd
      rcases List.mem_cons.mp hq with rfl | hq
      · have h0 : assetHasB ((packAssetsStep e [] q rs).1).store d.id q.id = true := by
          have hqa : assetsOf e q = assets := by simp [assetsOf, hassets]
          exact hstep.2 d (by rw [← hqa]; exact hd)
        exact (mono_upsertAssets e rest [] (fun q2 hq2 => absurd hq2 (by simp)) _).2.2
          d.id q.id h0
      · exact ihr.2 q hq d hd

theorem upsertAssets_keys (e : Env) (l : List DefaultAssetPack) :
    ∀ rs : RS, (∀ p ∈ l, (readAssetsFixture e p.id).isSome = true) →
      (∀ p ∈ l, PackDeliverable e p) →
      (∀ p ∈ l, ∀ d ∈ assetsOf e p, assetHasB rs.store d.id p.id = true) →
      ((((upsertAssets e [] l rs).1).store.db.assets.map (fun x => (x.id, x.asset_pack_id))
         = rs.store.db.assets.map (fun x => (x.id, x.asset_pack_id))) ∧
       ((upsertAssets e [] l rs).1).store.db.assetPacks = rs.store.db.assetPacks) := by
  induction l with
  | nil => intro rs _ _ _; exact ⟨rfl, rfl⟩
  | cons p rest ih =>
      intro rs hread hdel hpres
      obtain ⟨assets, hassets⟩ := Option.isSome_iff_exists.mp
        (hread p (List.mem_cons_self p rest))
      have hqa : assetsOf e p = assets := by simp [assetsOf, hassets]
      have hstep := packAssetsStep_keys e p assets hassets
        (hdel p (List.mem_cons_self p rest)) rs
        (fun d hd => hpres p (List.mem_cons_self p rest) d (by rw [hqa]; exact hd))
      have hstepres := packAssetsStep_establishes e p assets hassets
        (hdel p (List.mem_cons_self p rest)) rs
      have hstepeq : packAssetsStep e [] p rs
          = ((packAssetsStep e [] p rs).1, Outcome.ok []) := Prod.ext rfl hstepres.1
      have hun : upsertAssets e [] (p :: rest) rs
          = upsertAssets e [] rest ((packAssetsStep e [] p rs).1) := by
        show (M.bind (packAssetsStep e [] p) (fun pend2 => upsertAssets e pend2 rest)) rs = _
        exact M.bind_apply_ok _ _ _ _ _ hstepeq
      rw [hun]
      have hmono := mono_packAssetsStep e [] p (fun q2 hq2 => absurd hq2 (by simp)) rs
      have ihr := ih ((packAssetsStep e [] p rs).1)
        (fun q hq => hread q (List.mem_cons_of_mem p hq))
        (fun q hq => hdel q (List.mem_cons_of_mem p hq))
        (fun q hq d hd => hmono.2.2 d.id q.id (hpres q (List.mem_cons_of_mem p hq) d hd))
      exact ⟨ihr.1.trans hstep.1, ihr.2.trans hstep.2⟩

/-! ## Decomposition of a whole run -/

/-- The trace prefix a run produces before the pack phase starts. -/
def seedHeader (e : Env) : List Event :=
  [Event.log ("Reading file " ++ dataFilePath e "packs.json"),
   Event.readFile (dataFilePath e "packs.json"),
   Event.log "==== Asset packs ===="]

/-- The running state at the end of the pack phase of a run from store `s`. -/
def packPhaseRS (e : Env) (packs : List DefaultAssetPack) (s : Store) : RS :=
  (upsertAssetPacks e packs ⟨s, seedHeader e⟩).1

/-- The running state at the end of the asset phase of a run from store `s`. -/
def assetPhaseRS (e : Env) (packs : List DefaultAssetPack) (s : Store) : RS :=
  (upsertAssets e [] packs
    ⟨(packPhaseRS e packs s).store,
     (packPhaseRS e packs s).trace ++ [Event.log "==== Assets ===="]⟩).1

theorem seed_eq (e : Env) (packs : List DefaultAssetPack)
    (h : readPacksFixture e = some packs) (rs : RS) :
    seed e rs
      = (M.bind (consoleLog "==== Asset packs ====") (fun _ =>
          M.bind (upsertAssetPacks e packs) (fun _ =>
            M.bind (consoleLog "==== Assets ====") (fun _ => upsertAssets e [] packs))))
          { store := rs.store,
            trace := rs.trace ++ [Event.log ("Reading file " ++ dataFilePath e "packs.json"),
                                  Event.readFile (dataFilePath e "packs.json")] } := by
  obtain ⟨bs, r, hlook, hparse, hpacks⟩ := readPacksFixture_inv h
  unfold seed
  simp only [M.bind_eq]
  rw [M.bind_apply_ok _ _ _ _ _ (readJSON_ok e "packs.json" rs bs _ hlook hparse)]
  subst hpacks
  rfl

/-- Under well-formed fixtures a run is the pack phase followed by the asset
phase, and it succeeds. -/
theorem runSeed_decomp (e : Env) (packs : List DefaultAssetPack) (s : Store)
    (hwf : WF e s packs) :
    (runSeed e s).store = (assetPhaseRS e packs s).store ∧
    (runSeed e s).trace = (assetPhaseRS e packs s).trace ∧
    (runSeed e s).result = Outcome.ok () := by
  have hpack := upsertAssetPacks_establishes e packs ⟨s, seedHeader e⟩
    (fun p hp => hwf.2.2.1 p hp)
  have hpackeq : upsertAssetPacks e packs
      ⟨s, [Event.log ("Reading file " ++ dataFilePath e "packs.json"),
           Event.readFile (dataFilePath e "packs.json"),
           Event.log "==== Asset packs ===="]⟩
      = (packPhaseRS e packs s, Outcome.ok ()) :=
    Prod.ext rfl hpack.1
  have hassets := upsertAssets_establishes e packs
    ⟨(packPhaseRS e packs s).store,
     (packPhaseRS e packs s).trace ++ [Event.log "==== Assets ===="]⟩
    (fun p hp => hwf.2.1 p hp) (fun p hp => hwf.2.2.2 p hp)
  have hasseteq : upsertAssets e [] packs
      ⟨(packPhaseRS e packs s).store,
       (packPhaseRS e packs s).trace ++ [Event.log "==== Assets ===="]⟩
      = (assetPhaseRS e packs s, Outcome.ok ()) :=
    Prod.ext rfl hassets.1
  have hseed : seed e ⟨s, []⟩ = (assetPhaseRS e packs s, Outcome.ok ()) := by
    rw [seed_eq e packs hwf.1]
    rw [M.bind_apply_ok _ _ _ _ _ (consoleLog_apply _ _)]
    simp only [List.nil_append, List.cons_append, List.singleton_append]
    rw [M.bind_apply_ok _ _ _ _ _ hpackeq]
    rw [M.bind_apply_ok _ _ _ _ _ (consoleLog_apply _ _)]
    exact hasseteq
  unfold runSeed
  rw [hseed]
  exact ⟨rfl, rfl, rfl⟩
/-! ## Every write is preceded by a failed existence check

A left-to-right scanner over traces: it collects the keys for which an
existence check returned `false` and accepts a trace exactly when every
object-store write targets a previously so-checked key. -/

/-- Keys for which some existence check in the trace returned `false`. -/
def seenAfter (seen : List String) : List Event → List String
  | [] => seen
  | Event.checkFile k false :: rest => seenAfter (k :: seen) rest
  | _ :: rest => seenAfter seen rest

/-- Accepts a trace iff every `saveFile` is preceded by a `checkFile` of the
same key that returned `false`. -/
def savesGuarded (seen : List String) : List Event → Bool
  | [] => true
  | Event.saveFile k _ :: rest => decide (k ∈ seen) && savesGuarded seen rest
  | Event.checkFile k false :: rest => savesGuarded (k :: seen) rest
  | _ :: rest => savesGuarded seen rest

theorem savesGuarded_append (t1 : List Event) : ∀ (seen : List String) (t2 : List Event),
    savesGuarded seen (t1 ++ t2)
      = (savesGuarded seen t1 && savesGuarded (seenAfter seen t1) t2) := by
  induction t1 with
  | nil => intro seen t2; simp [savesGuarded, seenAfter]
  | cons ev t1 ih =>
      intro seen t2
      cases ev with
      | saveFile k acl => simp [savesGuarded, seenAfter, ih, Bool.and_assoc]
      | checkFile k b => cases b <;> simp [savesGuarded, seenAfter, ih]
      | log m => simp [savesGuarded, seenAfter, ih]
      | readFile p => simp [savesGuarded, seenAfter, ih]
      | download u ok => simp [savesGuarded, seenAfter, ih]
      | upsertPack a ex => simp [savesGuarded, seenAfter, ih]
      | upsertAsset a tg ex => simp [savesGuarded, seenAfter, ih]

theorem savesGuarded_mono : ∀ (t : List Event) (s1 s2 : List String),
    (∀ k, k ∈ s1 → k ∈ s2) → savesGuarded s1 t = true → savesGuarded s2 t = true := by
  intro t
  induction t with
  | nil => intro s1 s2 _ _; rfl
  | cons ev t ih =>
      intro s1 s2 hsub hg
      cases ev with
      | saveFile k acl =>
          simp only [savesGuarded, Bool.and_eq_true, decide_eq_true_eq] at hg ⊢
          exact ⟨hsub k hg.1, ih s1 s2 hsub hg.2⟩
      | checkFile k b =>
          cases b with
          | false =>
              simp only [savesGuarded] at hg ⊢
              refine ih (k :: s1) (k :: s2) ?_ hg
              intro x hx
              rcases List.mem_cons.mp hx with rfl | hx
              · exact List.mem_cons_self x s2
              · exact List.mem_cons_of_mem k (hsub x hx)
          | true => exact ih s1 s2 hsub hg
      | log m => exact ih s1 s2 hsub hg
      | readFile p => exact ih s1 s2 hsub hg
      | download u ok => exact ih s1 s2 hsub hg
      | upsertPack a ex => exact ih s1 s2 hsub hg
      | upsertAsset a tg ex => exact ih s1 s2 hsub hg

/-- The computation preserves acceptance by the scanner: it only ever writes
keys it has itself checked (or that were check-covered before). -/
def GuardedM (m : M α) : Prop :=
  ∀ (rs : RS) (seen : List String), savesGuarded seen rs.trace = true →
    savesGuarded seen ((m rs).1).trace = true

theorem guardedM_pure (a : α) : GuardedM (M.pure a) := fun _ _ h => h

theorem guardedM_throw (msg : String) : GuardedM (throwM msg : M α) := fun _ _ h => h

theorem guardedM_bind {m : M α} {f : α → M β} (hm : GuardedM m)
    (hf : ∀ a, GuardedM (f a)) : GuardedM (M.bind m f) := by
  intro rs seen hg
  unfold M.bind
  cases h : m rs with
  | mk rs1 r =>
      have h1 : savesGuarded seen rs1.trace = true := by
        have h2 := hm rs seen hg
        rw [h] at h2
        exact h2
      cases r with
      | ok a => exact hf a rs1 seen h1
      | error msg => exact h1
      | crash msg => exact h1

/-- Bind-stepping for `GuardedM` where the continuation's invariant is only
known for the values the first component can in fact deliver. -/
theorem guardedM_bind_val {m : M α} {f : α → M β} (Q : α → Prop) (hm : GuardedM m)
    (hv : ∀ rs rs1 a, m rs = (rs1, Outcome.ok a) → Q a)
    (hf : ∀ a, Q a → GuardedM (f a)) : GuardedM (M.bind m f) := by
  intro rs seen hg
  unfold M.bind
  cases h : m rs with
  | mk rs1 r =>
      have h1 : savesGuarded seen rs1.trace = true := by
        have h2 := hm rs seen hg
        rw [h] at h2
        exact h2
      cases r with
      | ok a => exact hf a (hv rs rs1 a h) rs1 seen h1
      | error msg => exact h1
      | crash msg => exact h1

theorem guardedM_settleChains {ps : List (M Unit)} (h : ∀ p ∈ ps, GuardedM p) :
    ∀ (rs : RS) (seen : List String), savesGuarded seen rs.trace = true →
      savesGuarded seen ((settleChains ps rs).1).trace = true := by
  induction ps with
  | nil => intro rs seen hg; exact hg
  | cons p ps ih =>
      intro rs seen hg
      have h1 := h p (List.mem_cons_self p ps) rs seen hg
      cases hp : p rs with
      | mk rs1 r =>
          rw [hp] at h1
          cases r with
          | ok a =>
              rw [settleChains_cons_of_ok ps hp]
              exact ih (fun q hq => h q (List.mem_cons_of_mem p hq)) rs1 seen h1
          | error msg => rw [settleChains_cons_of_error ps hp]; exact h1
          | crash msg => rw [settleChains_cons_of_crash ps hp]; exact h1

theorem guardedM_runPending {ps : List (M Unit)} (h : ∀ p ∈ ps, GuardedM p) :
    GuardedM (runPending ps) := by
  induction ps with
  | nil => intro rs seen hg; exact hg
  | cons p ps ih =>
      intro rs seen hg
      have h1 := h p (List.mem_cons_self p ps) rs seen hg
      cases hp : p rs with
      | mk rs1 r =>
          rw [hp] at h1
          cases r with
          | ok a =>
              show savesGuarded seen ((runPending (p :: ps) rs).1).trace = true
              rw [runPending_cons_of_ok ps hp]
              exact ih (fun q hq => h q (List.mem_cons_of_mem p hq)) rs1 seen h1
          | error msg =>
              show savesGuarded seen ((runPending (p :: ps) rs).1).trace = true
              rw [runPending_cons_of_error ps hp]
              exact ih (fun q hq => h q (List.mem_cons_of_mem p hq)) rs1 seen h1
          | crash msg =>
              show savesGuarded seen ((runPending (p :: ps) rs).1).trace = true
              rw [runPending_cons_of_crash ps hp]
              exact h1

theorem guardedM_promiseAll {ps : List (M Unit)} (h : ∀ p ∈ ps, GuardedM p) :
    GuardedM (promiseAll ps) :=
  fun rs seen hg => guardedM_settleChains h rs seen hg

theorem guardedM_awaitAssetPromises {ps : List (M Unit)} (h : ∀ p ∈ ps, GuardedM p) :
    GuardedM (awaitAssetPromises ps) := by
  intro rs seen hg
  have h1 := guardedM_settleChains h rs seen hg
  cases hres : (settleChains ps rs).2.1 with
  | ok a => rw [awaitAssetPromises_of_ok hres]; exact h1
  | error msg =>
      rw [awaitAssetPromises_of_error hres]
      simp [savesGuarded_append, savesGuarded, h1]
  | crash msg => rw [awaitAssetPromises_of_crash hres]; exact h1
theorem guardedM_consoleLog (msg : String) : GuardedM (consoleLog msg) := by
  intro rs seen hg
  simp [consoleLog, savesGuarded_append, savesGuarded, hg]

theorem guardedM_s3CheckFile (key : String) : GuardedM (s3CheckFile key) := by
  intro rs seen hg
  rw [s3CheckFile_apply]
  cases h : s3HasB rs.store key <;>
    simp [h, savesGuarded_append, savesGuarded, hg]

theorem guardedM_readFileSync (e : Env) (fn : String) : GuardedM (readFileSync e fn) := by
  intro rs seen hg
  cases h : List.lookup (dataFilePath e fn) e.files with
  | some bs =>
      rw [readFileSync_found e fn rs bs h]
      simp [savesGuarded_append, savesGuarded, hg]
  | none =>
      rw [readFileSync_missing e fn rs h]
      simp [savesGuarded_append, savesGuarded, hg]

theorem guardedM_readJSON (e : Env) (fn : String) : GuardedM (readJSON e fn) := by
  unfold readJSON
  simp only [M.bind_eq]
  refine guardedM_bind (guardedM_readFileSync e fn) ?_
  intro content
  cases e.jsonParse content with
  | ok v => exact guardedM_pure v
  | error msg => exact guardedM_throw msg
theorem guardedM_downloadAsset (e : Env) (cid : String) : GuardedM (downloadAsset e cid) := by
  intro rs seen hg
  cases hrem : e.remote (getAssetsUrl e ++ "/" ++ cid) with
  | response r =>
      cases hse : r.streamError with
      | none =>
          rw [downloadAsset_resolves e cid rs r hrem hse]
          simp [savesGuarded_append, savesGuarded, hg]
      | some msg =>
          rw [downloadAsset_rejects e cid rs r msg hrem hse]
          simp [savesGuarded_append, savesGuarded, hg]
  | requestError msg =>
      rw [downloadAsset_crashes e cid rs msg hrem]
      simp [savesGuarded_append, savesGuarded, hg]
theorem guardedM_dbUpsertAssetPack (a : AssetPackAttributes) :
    GuardedM (dbUpsertAssetPack a) := by
  intro rs seen hg
  rw [dbUpsertAssetPack_apply]
  simp [savesGuarded_append, savesGuarded, hg]

theorem guardedM_dbUpsertAsset (a : AssetAttributes) (tg : List String) :
    GuardedM (dbUpsertAsset a tg) := by
  intro rs seen hg
  rw [dbUpsertAsset_apply]
  simp [savesGuarded_append, savesGuarded, hg]

theorem guardedM_uploadThumbnail (e : Env) (p : DefaultAssetPack) :
    GuardedM (uploadThumbnail e p) := by
  intro rs seen hg
  cases hchk : s3HasB rs.store (getThumbnailFilename p.id) with
  | true =>
      rw [uploadThumbnail_present e p rs hchk]
      simp [savesGuarded_append, savesGuarded, hg]
  | false =>
      cases hb : List.lookup (dataFilePath e (getThumbnailFilename p.id)) e.files with
      | some b =>
          rw [uploadThumbnail_absent_found e p rs b hchk hb]
          simp [savesGuarded_append, savesGuarded, hg]
      | none =>
          rw [uploadThumbnail_absent_missing e p rs hchk hb]
          simp [savesGuarded_append, savesGuarded, hg]

theorem guardedM_contentChain (e : Env) (cid : String) : GuardedM (contentChain e cid) := by
  intro rs seen hg
  cases hchk : s3HasB rs.store cid with
  | true =>
      rw [contentChain_present e cid rs hchk]
      simp [savesGuarded_append, savesGuarded, hg]
  | false =>
      cases hrem : e.remote (getAssetsUrl e ++ "/" ++ cid) with
      | response r =>
          cases hse : r.streamError with
          | none =>
              rw [contentChain_absent_resolves e cid rs r hchk hrem hse]
              simp [savesGuarded_append, savesGuarded, hg]
          | some msg =>
              rw [contentChain_absent_rejects e cid rs r msg hchk hrem hse]
              simp [savesGuarded_append, savesGuarded, hg]
      | requestError msg =>
          rw [contentChain_absent_crashes e cid rs msg hchk hrem]
          simp [savesGuarded_append, savesGuarded, hg]

theorem guardedM_packUpsertChain (e : Env) (now : Nat) (p : DefaultAssetPack) :
    GuardedM (packUpsertChain e now p) := by
  unfold packUpsertChain
  simp only [M.bind_eq]
  refine guardedM_bind (guardedM_uploadThumbnail e p) ?_
  intro thumbnail
  exact guardedM_bind (guardedM_consoleLog _) (fun _ => guardedM_dbUpsertAssetPack _)

theorem guardedM_upsertAssetPacks (e : Env) (l : List DefaultAssetPack) :
    GuardedM (upsertAssetPacks e l) := by
  unfold upsertAssetPacks
  refine guardedM_promiseAll ?_
  intro q hq
  obtain ⟨p, _, rfl⟩ := List.mem_map.mp hq
  exact guardedM_packUpsertChain e e.now p

theorem guardedM_assetPromises (e : Env) (packId : String) (d : DefaultAsset) :
    ∀ q ∈ assetPromises e packId d, GuardedM q := by
  intro q hq
  simp only [assetPromises, contentDispatch] at hq
  rcases List.mem_cons.mp hq with rfl | hq
  · simp only [M.bind_eq]
    exact guardedM_bind (guardedM_consoleLog _) (fun _ => guardedM_dbUpsertAsset _ _)
  · obtain ⟨cid, _, rfl⟩ := List.mem_map.mp hq
    exact guardedM_contentChain e cid

theorem guardedM_packAssetsStep (e : Env) (pend : List (M Unit)) (p : DefaultAssetPack)
    (hpend : ∀ q ∈ pend, GuardedM q) : GuardedM (packAssetsStep e pend p) := by
  unfold packAssetsStep
  simp only [M.bind_eq]
  refine guardedM_bind (guardedM_readJSON e _) ?_
  intro v
  cases v with
  | assetResponse r =>
      refine guardedM_bind (guardedM_runPending hpend) ?_
      intro a
      refine guardedM_awaitAssetPromises ?_
      intro q hq
      obtain ⟨ps, hps, hqps⟩ := List.mem_flatten.mp hq
      obtain ⟨d, _, rfl⟩ := List.mem_map.mp hps
      exact guardedM_assetPromises e p.id d q hqps
  | packsResponse r => exact guardedM_throw _
  | other => exact guardedM_throw _

theorem guardedM_upsertAssets (e : Env) (l : List DefaultAssetPack) :
    ∀ pend : List (M Unit), (∀ q ∈ pend, GuardedM q) →
      GuardedM (upsertAssets e pend l) := by
  induction l with
  | nil => intro pend _ rs seen hg; exact hg
  | cons p rest ih =>
      intro pend hpend
      show GuardedM (M.bind (packAssetsStep e pend p) (fun pend2 => upsertAssets e pend2 rest))
      refine guardedM_bind_val (fun pend2 => ∀ q ∈ pend2, GuardedM q)
        (guardedM_packAssetsStep e pend p hpend) ?_ ?_
      · intro rs rs1 pend2 h q hq
        obtain ⟨d, _, hqa⟩ := packAssetsStep_val e pend p h q hq
        exact guardedM_assetPromises e p.id d q hqa
      · intro pend2 hQ
        exact ih pend2 hQ

theorem guardedM_seed (e : Env) : GuardedM (seed e) := by
  unfold seed
  simp only [M.bind_eq]
  refine guardedM_bind (guardedM_readJSON e _) ?_
  intro v
  cases v with
  | packsResponse r =>
      refine guardedM_bind (guardedM_consoleLog _) (fun _ => ?_)
      refine guardedM_bind (guardedM_upsertAssetPacks e _) (fun _ => ?_)
      refine guardedM_bind (guardedM_consoleLog _) (fun _ => ?_)
      exact guardedM_upsertAssets e _ [] (fun q hq => absurd hq (by simp))
  | assetResponse r => exact guardedM_throw _
  | other => exact guardedM_throw _

/-- Every object-store write of any run is preceded, earlier in the same run's
trace, by an existence check of the same key that returned `false`. -/
theorem runSeed_savesGuarded (e : Env) (s : Store) :
    savesGuarded [] (runSeed e s).trace = true := by
  have h := guardedM_seed e ⟨s, []⟩ [] rfl
  unfold runSeed
  exact h

/-! ## Trace growth and event presence -/

/-- The computation only appends to the trace. -/
def TraceGrows (m : M α) : Prop := ∀ rs, ∃ t, ((m rs).1).trace = rs.trace ++ t

theorem grows_pure (a : α) : TraceGrows (M.pure a) := fun rs => ⟨[], by simp [M.pure]⟩

theorem grows_throw (msg : String) : TraceGrows (throwM msg : M α) :=
  fun rs => ⟨[], by simp [throwM]⟩

theorem grows_bind {m : M α} {f : α → M β} (hm : TraceGrows m)
    (hf : ∀ a, TraceGrows (f a)) : TraceGrows (M.bind m f) := by
  intro rs
  obtain ⟨t1, ht1⟩ := hm rs
  unfold M.bind
  cases h : m rs with
  | mk rs1 r =>
      rw [h] at ht1
      cases r with
      | ok a =>
          obtain ⟨t2, ht2⟩ := hf a rs1
          exact ⟨t1 ++ t2, by rw [ht2, ht1, List.append_assoc]⟩
      | error msg => exact ⟨t1, ht1⟩
      | crash msg => exact ⟨t1, ht1⟩

/-- Bind-stepping for `TraceGrows` where the continuation's invariant is only
known for the values the first component can in fact deliver. -/
theorem grows_bind_val {m : M α} {f : α → M β} (Q : α → Prop) (hm : TraceGrows m)
    (hv : ∀ rs rs1 a, m rs = (rs1, Outcome.ok a) → Q a)
    (hf : ∀ a, Q a → TraceGrows (f a)) : TraceGrows (M.bind m f) := by
  intro rs
  obtain ⟨t1, ht1⟩ := hm rs
  unfold M.bind
  cases h : m rs with
  | mk rs1 r =>
      rw [h] at ht1
      cases r with
      | ok a =>
          obtain ⟨t2, ht2⟩ := hf a (hv rs rs1 a h) rs1
          exact ⟨t1 ++ t2, by rw [ht2, ht1, List.append_assoc]⟩
      | error msg => exact ⟨t1, ht1⟩
      | crash msg => exact ⟨t1, ht1⟩

theorem grows_settleChains {ps : List (M Unit)} (h : ∀ p ∈ ps, TraceGrows p) :
    ∀ rs : RS, ∃ t, ((settleChains ps rs).1).trace = rs.trace ++ t := by
  induction ps with
  | nil => intro rs; exact ⟨[], by simp [settleChains]⟩
  | cons p ps ih =>
      intro rs
      obtain ⟨t1, ht1⟩ := h p (List.mem_cons_self p ps) rs
      cases hp : p rs with
      | mk rs1 r =>
          rw [hp] at ht1
          cases r with
          | ok a =>
              obtain ⟨t2, ht2⟩ := ih (fun q hq => h q (List.mem_cons_of_mem p hq)) rs1
              rw [settleChains_cons_of_ok ps hp]
              exact ⟨t1 ++ t2, by rw [ht2, ht1, List.append_assoc]⟩
          | error msg =>
              rw [settleChains_cons_of_error ps hp]
              exact ⟨t1, ht1⟩
          | crash msg =>
              rw [settleChains_cons_of_crash ps hp]
              exact ⟨t1, ht1⟩

theorem grows_runPending {ps : List (M Unit)} (h : ∀ p ∈ ps, TraceGrows p) :
    TraceGrows (runPending ps) := by
  induction ps with
  | nil => intro rs; exact ⟨[], by simp [runPending]⟩
  | cons p ps ih =>
      intro rs
      obtain ⟨t1, ht1⟩ := h p (List.mem_cons_self p ps) rs
      cases hp : p rs with
      | mk rs1 r =>
          rw [hp] at ht1
          cases r with
          | ok a =>
              obtain ⟨t2, ht2⟩ := ih (fun q hq => h q (List.mem_cons_of_mem p hq)) rs1
              show ∃ t, ((runPending (p :: ps) rs).1).trace = rs.trace ++ t
              rw [runPending_cons_of_ok ps hp]
              exact ⟨t1 ++ t2, by rw [ht2, ht1, List.append_assoc]⟩
          | error msg =>
              obtain ⟨t2, ht2⟩ := ih (fun q hq => h q (List.mem_cons_of_mem p hq)) rs1
              show ∃ t, ((runPending (p :: ps) rs).1).trace = rs.trace ++ t
              rw [runPending_cons_of_error ps hp]
              exact ⟨t1 ++ t2, by rw [ht2, ht1, List.append_assoc]⟩
          | crash msg =>
              show ∃ t, ((runPending (p :: ps) rs).1).trace = rs.trace ++ t
              rw [runPending_cons_of_crash ps hp]
              exact ⟨t1, ht1⟩

theorem grows_awaitAssetPromises {ps : List (M Unit)} (h : ∀ p ∈ ps, TraceGrows p) :
    TraceGrows (awaitAssetPromises ps) := by
  intro rs
  obtain ⟨t1, ht1⟩ := grows_settleChains h rs
  cases hres : (settleChains ps rs).2.1 with
  | ok a =>
      rw [awaitAssetPromises_of_ok hres]
      exact ⟨t1, ht1⟩
  | error msg =>
      rw [awaitAssetPromises_of_error hres]
      exact ⟨t1 ++ [Event.log ("Error saving assets: " ++ msg)],
        by show ((settleChains ps rs).1).trace ++ _ = _; rw [ht1, List.append_assoc]⟩
  | crash msg =>
      rw [awaitAssetPromises_of_crash hres]
      exact ⟨t1, ht1⟩
theorem grows_consoleLog (msg : String) : TraceGrows (consoleLog msg) :=
  fun _rs => ⟨[Event.log msg], rfl⟩

theorem grows_s3CheckFile (key : String) : TraceGrows (s3CheckFile key) :=
  fun rs => ⟨[Event.checkFile key (s3HasB rs.store key)], rfl⟩

theorem grows_s3SaveFile (key : String) (b : List Nat) (acl : ACL) :
    TraceGrows (s3SaveFile key b acl) :=
  fun _rs => ⟨[Event.saveFile key acl], rfl⟩

theorem grows_dbUpsertAsset (a : AssetAttributes) (tg : List String) :
    TraceGrows (dbUpsertAsset a tg) :=
  fun rs => ⟨[Event.upsertAsset a tg (assetHasB rs.store a.id a.asset_pack_id)], rfl⟩

theorem grows_readFileSync (e : Env) (fn : String) : TraceGrows (readFileSync e fn) := by
  intro rs
  cases h : List.lookup (dataFilePath e fn) e.files with
  | some bs => rw [readFileSync_found e fn rs bs h]; exact ⟨_, rfl⟩
  | none => rw [readFileSync_missing e fn rs h]; exact ⟨_, rfl⟩

theorem grows_readJSON (e : Env) (fn : String) : TraceGrows (readJSON e fn) := by
  unfold readJSON
  simp only [M.bind_eq]
  refine grows_bind (grows_readFileSync e fn) ?_
  intro content
  cases e.jsonParse content with
  | ok v => exact grows_pure v
  | error msg => exact grows_throw msg

theorem grows_downloadAsset (e : Env) (cid : String) : TraceGrows (downloadAsset e cid) := by
  intro rs
  cases hrem : e.remote (getAssetsUrl e ++ "/" ++ cid) with
  | response r =>
      cases hse : r.streamError with
      | none => rw [downloadAsset_resolves e cid rs r hrem hse]; exact ⟨_, rfl⟩
      | some msg => rw [downloadAsset_rejects e cid rs r msg hrem hse]; exact ⟨_, rfl⟩
  | requestError msg => rw [downloadAsset_crashes e cid rs msg hrem]; exact ⟨_, rfl⟩

theorem grows_contentChain (e : Env) (cid : String) : TraceGrows (contentChain e cid) := by
  intro rs
  cases hchk : s3HasB rs.store cid with
  | true => rw [contentChain_present e cid rs hchk]; exact ⟨_, rfl⟩
  | false =>
      cases hrem : e.remote (getAssetsUrl e ++ "/" ++ cid) with
      | response r =>
          cases hse : r.streamError with
          | none => rw [contentChain_absent_resolves e cid rs r hchk hrem hse]; exact ⟨_, rfl⟩
          | some msg =>
              rw [contentChain_absent_rejects e cid rs r msg hchk hrem hse]; exact ⟨_, rfl⟩
      | requestError msg =>
          rw [contentChain_absent_crashes e cid rs msg hchk hrem]; exact ⟨_, rfl⟩

theorem grows_assetPromises (e : Env) (packId : String) (d : DefaultAsset) :
    ∀ q ∈ assetPromises e packId d, TraceGrows q := by
  intro q hq
  simp only [assetPromises, contentDispatch] at hq
  rcases List.mem_cons.mp hq with rfl | hq
  · simp only [M.bind_eq]
    exact grows_bind (grows_consoleLog _) (fun _ => grows_dbUpsertAsset _ _)
  · obtain ⟨cid, _, rfl⟩ := List.mem_map.mp hq
    exact grows_contentChain e cid

theorem grows_assetFold (e : Env) (pid : String) (assets : List DefaultAsset) :
    TraceGrows (runPending ((assets.map (assetPromises e pid)).flatten)) := by
  refine grows_runPending ?_
  intro q hq
  obtain ⟨ps, hps, hqps⟩ := List.mem_flatten.mp hq
  obtain ⟨d, _, rfl⟩ := List.mem_map.mp hps
  exact grows_assetPromises e pid d q hqps

theorem grows_packAssetsStep (e : Env) (pend : List (M Unit)) (p : DefaultAssetPack)
    (hpend : ∀ q ∈ pend, TraceGrows q) : TraceGrows (packAssetsStep e pend p) := by
  unfold packAssetsStep
  simp only [M.bind_eq]
  refine grows_bind (grows_readJSON e _) ?_
  intro v
  cases v with
  | assetResponse r =>
      refine grows_bind (grows_runPending hpend) ?_
      intro a
      refine grows_awaitAssetPromises ?_
      intro q hq
      obtain ⟨ps, hps, hqps⟩ := List.mem_flatten.mp hq
      obtain ⟨d, _, rfl⟩ := List.mem_map.mp hps
      exact grows_assetPromises e p.id d q hqps
  | packsResponse r => exact grows_throw _
  | other => exact grows_throw _

theorem grows_upsertAssets (e : Env) (l : List DefaultAssetPack) :
    ∀ pend : List (M Unit), (∀ q ∈ pend, TraceGrows q) →
      TraceGrows (upsertAssets e pend l) := by
  induction l with
  | nil => intro pend _ rs; exact ⟨[], by rw [List.append_nil]; rfl⟩
  | cons p rest ih =>
      intro pend hpend
      show TraceGrows (M.bind (packAssetsStep e pend p) (fun pend2 => upsertAssets e pend2 rest))
      refine grows_bind_val (fun pend2 => ∀ q ∈ pend2, TraceGrows q)
        (grows_packAssetsStep e pend p hpend) ?_ ?_
      · intro rs rs1 pend2 h q hq
        obtain ⟨d, _, hqa⟩ := packAssetsStep_val e pend p h q hq
        exact grows_assetPromises e p.id d q hqa
      · intro pend2 hQ
        exact ih pend2 hQ

theorem mem_of_grows {m : M α} (hg : TraceGrows m) (rs : RS) {ev : Event}
    (h : ev ∈ rs.trace) : ev ∈ ((m rs).1).trace := by
  obtain ⟨t, ht⟩ := hg rs
  rw [ht]
  exact List.mem_append_left _ h

/-- No fixture-file read: what every chain dispatched inside the asset loop
emits (only the loop itself reads fixture files). -/
def NoReadP : Store → Event → Prop := fun _ ev => ∀ fp, ev ≠ Event.readFile fp

theorem antiP_noReadP : AntiP NoReadP := fun _ _ _ _ h => h

theorem emitsD_contentChain_noRead (e : Env) (cid : String) :
    EmitsD (contentChain e cid) NoReadP := by
  intro rs
  cases hchk : s3HasB rs.store cid with
  | true =>
      rw [contentChain_present e cid rs hchk]
      refine ⟨_, rfl, ?_⟩
      intro ev hev fp heq
      subst heq
      simp at hev
  | false =>
      cases hrem : e.remote (getAssetsUrl e ++ "/" ++ cid) with
      | response r =>
          cases hse : r.streamError with
          | none =>
              rw [contentChain_absent_resolves e cid rs r hchk hrem hse]
              refine ⟨_, rfl, ?_⟩
              intro ev hev fp heq
              subst heq
              simp at hev
          | some msg =>
              rw [contentChain_absent_rejects e cid rs r msg hchk hrem hse]
              refine ⟨_, rfl, ?_⟩
              intro ev hev fp heq
              subst heq
              simp at hev
      | requestError msg =>
          rw [contentChain_absent_crashes e cid rs msg hchk hrem]
          refine ⟨_, rfl, ?_⟩
          intro ev hev fp heq
          subst heq
          simp at hev

theorem contentChains_delta (e : Env) (cids : List String) (rs0 : RS) :
    ∃ t, ((runPending (cids.map (contentChain e)) rs0).1).trace = rs0.trace ++ t ∧
      ∀ ev ∈ t, ∀ fp, ev ≠ Event.readFile fp :=
  emitsD_runPending antiP_noReadP (fun q hq => by
    obtain ⟨cid, _, rfl⟩ := List.mem_map.mp hq
    exact ⟨mono_contentChain e cid, emitsD_contentChain_noRead e cid⟩) rs0

/-- The events appended by the fully-awaited chains of a pack's asset batch:
they contain each asset's upsert event and no fixture-file read. -/
theorem assetFold_delta (e : Env) (pid : String) (assets : List DefaultAsset)
    (hok : AllOk ((assets.map (assetPromises e pid)).flatten)) :
    ∀ rs : RS, ∃ t,
      ((runPending ((assets.map (assetPromises e pid)).flatten) rs).1).trace
        = rs.trace ++ t ∧
      (∀ ev ∈ t, ∀ fp, ev ≠ Event.readFile fp) ∧
      (∀ d ∈ assets, ∃ ex,
        Event.upsertAsset (mkAssetAttributes pid d) ["id", "asset_pack_id"] ex ∈ t) := by
  induction assets with
  | nil =>
      intro rs
      exact ⟨[], by simp [runPending], by simp, by simp⟩
  | cons d0 ds ih =>
      intro rs
      have hsplit : (((d0 :: ds).map (assetPromises e pid)).flatten)
          = assetPromises e pid d0 ++ (ds.map (assetPromises e pid)).flatten := by
        simp
      rw [hsplit] at hok
      have hblock : ∃ tb, ((runPending (assetPromises e pid d0) rs).1).trace
            = rs.trace ++ tb ∧
          (∀ ev ∈ tb, ∀ fp, ev ≠ Event.readFile fp) ∧
          ∃ ex, Event.upsertAsset (mkAssetAttributes pid d0) ["id", "asset_pack_id"] ex
            ∈ tb := by
        simp only [assetPromises, contentDispatch, M.bind_eq]
        rw [runPending_cons_of_ok _ (logThenUpsertAsset_apply _ _ _ rs)]
        obtain ⟨tc, htc, hptc⟩ := contentChains_delta e _ _
        refine ⟨Event.log ("Upserting asset " ++ (mkAssetAttributes pid d0).id
              ++ " for asset pack " ++ pid)
            :: Event.upsertAsset (mkAssetAttributes pid d0) ["id", "asset_pack_id"]
              (assetHasB rs.store (mkAssetAttributes pid d0).id
                (mkAssetAttributes pid d0).asset_pack_id) :: tc, ?_, ?_, ?_⟩
        · rw [htc]
          simp
        · intro ev hev
          rcases List.mem_cons.mp hev with rfl | hev
          · simp
          rcases List.mem_cons.mp hev with rfl | hev
          · simp
          exact hptc ev hev
        · exact ⟨assetHasB rs.store (mkAssetAttributes pid d0).id
            (mkAssetAttributes pid d0).asset_pack_id, by simp⟩
      obtain ⟨tb, htb, hnb, ex0, hex0⟩ := hblock
      obtain ⟨td, htd, hnd, hupd⟩ := ih (allOk_of_append_right hok)
        ((runPending (assetPromises e pid d0) rs).1)
      refine ⟨tb ++ td, ?_, ?_, ?_⟩
      · show ((runPending (((d0 :: ds).map (assetPromises e pid)).flatten) rs).1).trace = _
        rw [hsplit, runPending_append (allOk_of_append_left hok) rs, htd, htb,
          List.append_assoc]
      · intro ev hev
        rcases List.mem_append.mp hev with hev | hev
        · exact hnb ev hev
        · exact hnd ev hev
      · intro d hd
        rcases List.mem_cons.mp hd with rfl | hd
        · exact ⟨ex0, List.mem_append_left _ hex0⟩
        · obtain ⟨ex, hx⟩ := hupd d hd
          exact ⟨ex, List.mem_append_right _ hx⟩

theorem upsertAssets_event (e : Env) (l : List DefaultAssetPack) :
    ∀ rs : RS, (∀ p ∈ l, (readAssetsFixture e p.id).isSome = true) →
      (∀ p ∈ l, PackDeliverable e p) →
      ∀ p ∈ l, ∀ d ∈ assetsOf e p, ∃ ex,
        Event.upsertAsset (mkAssetAttributes p.id d) ["id", "asset_pack_id"] ex
          ∈ ((upsertAssets e [] l rs).1).trace := by
  induction l with
  | nil => intro rs _ _ p hp; exact absurd hp (by simp)
  | cons p0 rest ih =>
      intro rs hread hdel p hp d hd
      obtain ⟨assets, hassets⟩ := Option.isSome_iff_exists.mp
        (hread p0 (List.mem_cons_self p0 rest))
      have hdel0 := hdel p0 (List.mem_cons_self p0 rest)
      have heq := packAssetsStep_ok_eq e p0 assets hassets hdel0 rs
      have hest := packAssetsStep_establishes e p0 assets hassets hdel0 rs
      have hstepeq : packAssetsStep e [] p0 rs
          = ((packAssetsStep e [] p0 rs).1, Outcome.ok []) := Prod.ext rfl hest.1
      have hun : upsertAssets e [] (p0 :: rest) rs
          = upsertAssets e [] rest ((packAssetsStep e [] p0 rs).1) := by
        show (M.bind (packAssetsStep e [] p0) (fun pend2 => upsertAssets e pend2 rest)) rs = _
        exact M.bind_apply_ok _ _ _ _ _ hstepeq
      rw [hun]
      rcases List.mem_cons.mp hp with rfl | hp
      · have hqa : assetsOf e p = assets := by simp [assetsOf, hassets]
        have hok : AllOk ((assets.map (assetPromises e p.id)).flatten) := by
          refine assetFold_allOk e p.id assets ?_
          intro d2 hd2 c hc
          exact hdel0 d2 (by rw [hqa]; exact hd2) c hc
        obtain ⟨t, ht, hnr, hup⟩ := assetFold_delta e p.id assets hok
          ⟨rs.store, rs.trace
            ++ [Event.log ("Reading file " ++ dataFilePath e (p.id ++ ".json")),
                Event.readFile (dataFilePath e (p.id ++ ".json"))]⟩
        obtain ⟨ex, hex⟩ := hup d (by rw [← hqa]; exact hd)
        have h1 : (packAssetsStep e [] p rs).1
            = (runPending ((assets.map (assetPromises e p.id)).flatten)
                ⟨rs.store, rs.trace
                  ++ [Event.log ("Reading file " ++ dataFilePath e (p.id ++ ".json")),
                      Event.readFile (dataFilePath e (p.id ++ ".json"))]⟩).1 := by
          rw [heq]
        have hin : Event.upsertAsset (mkAssetAttributes p.id d) ["id", "asset_pack_id"] ex
            ∈ ((packAssetsStep e [] p rs).1).trace := by
          rw [h1, ht]
          exact List.mem_append_right _ hex
        exact ⟨ex, mem_of_grows
          (grows_upsertAssets e rest [] (fun q hq => absurd hq (by simp))) _ hin⟩
      · exact ih ((packAssetsStep e [] p0 rs).1)
          (fun q hq => hread q (List.mem_cons_of_mem p0 hq))
          (fun q hq => hdel q (List.mem_cons_of_mem p0 hq)) p hp d hd

/-- A concrete fixture pack. -/
def wPk1 : DefaultAssetPack := ⟨"p1", "Pack 1", "http://x/t1.png", "t1.png"⟩

/-- A second concrete fixture pack. -/
def wPk2 : DefaultAssetPack := ⟨"p2", "Pack 2", "http://x/t2.png", "t2.png"⟩

/-- A concrete fixture asset of pack `p1` whose content id is `hash1`. -/
def wA1 : DefaultAsset :=
  ⟨"a1", "A1", "http://x/th1.png", "http://x/m1.glb", "c", ["t"], ["v1"], [("c1", "hash1")]⟩

/-- A concrete fixture asset of pack `p1` whose content id is `hash2`. -/
def wA2 : DefaultAsset :=
  ⟨"a2", "A2", "http://x/th2.png", "http://x/m2.glb", "c", [], [], [("c2", "hash2")]⟩

/-- A concrete fixture asset of pack `p2` whose content id is `hash3`. -/
def wA3 : DefaultAsset :=
  ⟨"a3", "A3", "th3.png", "http://x/m3.glb", "c", [], [], [("c3", "hash3")]⟩

/-- The packs of the concrete `packs.json`. -/
def wPacks : List DefaultAssetPack := [wPk1, wPk2]

/-- The concrete `JSON.parse`: file `[0]` is `packs.json`, `[1]` and `[2]` the
two asset fixtures, anything else a syntax error. -/
def wParse : List Nat → Except String JsonValue := fun bs =>
  if bs = [0] then Except.ok (JsonValue.packsResponse ⟨true, ⟨wPacks⟩⟩)
  else if bs = [1] then
    Except.ok (JsonValue.assetResponse ⟨true, ⟨"p1", 1, "Pack 1", [wA1, wA2]⟩⟩)
  else if bs = [2] then
    Except.ok (JsonValue.assetResponse ⟨true, ⟨"p2", 1, "Pack 2", [wA3]⟩⟩)
  else Except.error "SyntaxError: Unexpected token"

/-- The concrete fixture files under the dated directory. -/
def wFiles : List (String × List Nat) :=
  [("/seed/2020-02-02/packs.json", [0]),
   ("/seed/2020-02-02/p1.json", [1]),
   ("/seed/2020-02-02/p2.json", [2]),
   ("/seed/2020-02-02/p1/thumbnail.png", [10]),
   ("/seed/2020-02-02/p2/thumbnail.png", [20])]

/-- A healthy remote content host: `hash3` answers with a 404 error page, and
any other URL — none of which the fixtures reference — fails at the request
level (connection refused). -/
def wRemote : String → HttpOutcome := fun url =>
  if url = "https://assets.decentraland.zone/hash1" then
    HttpOutcome.response ⟨200, [[1], [2]], none⟩
  else if url = "https://assets.decentraland.zone/hash2" then
    HttpOutcome.response ⟨200, [[3, 4]], none⟩
  else if url = "https://assets.decentraland.zone/hash3" then
    HttpOutcome.response ⟨404, [[9]], none⟩
  else HttpOutcome.requestError "connect ECONNREFUSED"

/-- The concrete healthy environment. -/
def wEnv : Env :=
  ⟨false, "/seed", ["2019-01-01", "2020-02-02"], wFiles, wParse, wRemote, 1000⟩

/-- The same environment with the production flag set. -/
def wEnvProd : Env :=
  ⟨true, "/seed", ["2019-01-01", "2020-02-02"], wFiles, wParse, wRemote, 1000⟩

/-- The same environment, but the download of `hash1` fails with a transport
error mid-stream: the response arrives, its stream errors out before `end`. -/
def wEnvFail : Env :=
  ⟨false, "/seed", ["2019-01-01", "2020-02-02"], wFiles, wParse,
   (fun url =>
      if url = "https://assets.decentraland.zone/hash1" then
        HttpOutcome.response ⟨200, [[1], [2]], some "socket hang up"⟩
      else wRemote url),
   1000⟩

/-- An environment whose base directory has no subdirectories. -/
def wEnvNoDirs : Env := ⟨false, "/seed", [], wFiles, wParse, wRemote, 1000⟩

/-- The empty persistent store. -/
def wStore0 : Store := ⟨⟨[], []⟩, []⟩
/-! ## The claims -/

/-- **C4.** For every pack whose thumbnail filename the object store reports
absent, the thumbnail bytes are read from the local fixture data directory and
written to the object store with public-read access, and this write completes
before the pack record is upserted (it precedes the upsert in the chain's
trace); if the store reports it present, no read and no write occur; in either
case the upserted pack record's thumbnail field is the computed
storage-relative filename, and the fixture URL is not used in the record at
all. -/
theorem pack_thumbnail_upload_spec (e : Env) (p : DefaultAssetPack) (rs : RS) :
    (upsertAssetPacks e = fun l => promiseAll (l.map (packUpsertChain e e.now))) ∧
    (∀ b, s3HasB rs.store (getThumbnailFilename p.id) = false →
      List.lookup (dataFilePath e (getThumbnailFilename p.id)) e.files = some b →
      packUpsertChain e e.now p rs
        = ({ store := { db := { assetPacks := upsertPackList rs.store.db.assetPacks
                                  (mkAssetPackAttributes e.now p (getThumbnailFilename p.id)),
                                assets := rs.store.db.assets },
                        s3 := (getThumbnailFilename p.id, b) :: rs.store.s3 },
             trace := rs.trace ++
               [Event.checkFile (getThumbnailFilename p.id) false,
                Event.log ("Reading file " ++ dataFilePath e (getThumbnailFilename p.id)),
                Event.readFile (dataFilePath e (getThumbnailFilename p.id)),
                Event.log "Uploading thumbnail to S3",
                Event.saveFile (getThumbnailFilename p.id) ACL.publicRead,
                Event.log ("Upserting asset pack " ++ p.id ++ " for user "
                   ++ getDefaultEthAddress),
                Event.upsertPack (mkAssetPackAttributes e.now p (getThumbnailFilename p.id))
                  (packHasB rs.store p.id)] },
           Outcome.ok ())) ∧
    (s3HasB rs.store (getThumbnailFilename p.id) = true →
      packUpsertChain e e.now p rs
        = ({ store := { db := { assetPacks := upsertPackList rs.store.db.assetPacks
                                  (mkAssetPackAttributes e.now p (getThumbnailFilename p.id)),
                                assets := rs.store.db.assets },
                        s3 := rs.store.s3 },
             trace := rs.trace ++
               [Event.checkFile (getThumbnailFilename p.id) true,
                Event.log "Thumbnail already exists in S3",
                Event.log ("Upserting asset pack " ++ p.id ++ " for user "
                   ++ getDefaultEthAddress),
                Event.upsertPack (mkAssetPackAttributes e.now p (getThumbnailFilename p.id))
                  (packHasB rs.store p.id)] },
           Outcome.ok ())) ∧
    (mkAssetPackAttributes e.now p (getThumbnailFilename p.id)).thumbnail
      = getThumbnailFilename p.id ∧
    (∀ u, mkAssetPackAttributes e.now { p with url := u } (getThumbnailFilename p.id)
      = mkAssetPackAttributes e.now p (getThumbnailFilename p.id)) := by
  refine ⟨rfl, ?_, ?_, rfl, fun u => rfl⟩
  · intro b h hb
    exact packUpsertChain_absent_found e e.now p rs b h hb
  · intro h
    exact packUpsertChain_present e e.now p rs h

/-- Witness for the C4 theorem at a concrete pack whose thumbnail is absent
from the store. -/
theorem pack_thumbnail_upload_spec_witness :
    s3HasB wStore0 (getThumbnailFilename wPk1.id) = false ∧
    List.lookup (dataFilePath wEnv (getThumbnailFilename wPk1.id)) wEnv.files = some [10] ∧
    packUpsertChain wEnv wEnv.now wPk1 ⟨wStore0, []⟩
      = ({ store := { db := { assetPacks := upsertPackList wStore0.db.assetPacks
                                (mkAssetPackAttributes wEnv.now wPk1
                                  (getThumbnailFilename wPk1.id)),
                              assets := wStore0.db.assets },
                      s3 := (getThumbnailFilename wPk1.id, [10]) :: wStore0.s3 },
           trace := [] ++
             [Event.checkFile (getThumbnailFilename wPk1.id) false,
              Event.log ("Reading file " ++ dataFilePath wEnv (getThumbnailFilename wPk1.id)),
              Event.readFile (dataFilePath wEnv (getThumbnailFilename wPk1.id)),
              Event.log "Uploading thumbnail to S3",
              Event.saveFile (getThumbnailFilename wPk1.id) ACL.publicRead,
              Event.log ("Upserting asset pack " ++ wPk1.id ++ " for user "
                 ++ getDefaultEthAddress),
              Event.upsertPack (mkAssetPackAttributes wEnv.now wPk1
                  (getThumbnailFilename wPk1.id))
                (packHasB wStore0 wPk1.id)] },
         Outcome.ok ()) := by
  refine ⟨by decide, by decide, ?_⟩
  exact (pack_thumbnail_upload_spec wEnv wPk1 ⟨wStore0, []⟩).2.1 [10] (by decide) (by decide)

/-- **C5.** For every content identifier: if the object store reports it
present, no download and no write occur (the chain only logs); if absent, the
bytes are downloaded and then written under that identifier; and globally,
every object-store write of a run is preceded by an existence check of the
same key that returned false. -/
theorem content_check_before_write (e : Env) (cid : String) (rs : RS) :
    (s3HasB rs.store cid = true →
      contentChain e cid rs
        = ({ store := rs.store,
             trace := rs.trace ++ [Event.checkFile cid true,
               Event.log ("File " ++ cid ++ " already exists in S3")] }, Outcome.ok ())) ∧
    (∀ r : HttpResponse, s3HasB rs.store cid = false →
      e.remote (getAssetsUrl e ++ "/" ++ cid) = HttpOutcome.response r →
      r.streamError = none →
      contentChain e cid rs
        = ({ store := { db := rs.store.db,
                        s3 := (cid, r.chunks.flatten) :: rs.store.s3 },
             trace := rs.trace ++
               [Event.checkFile cid false,
                Event.log ("Downloading " ++ (getAssetsUrl e ++ "/" ++ cid)),
                Event.download (getAssetsUrl e ++ "/" ++ cid) true,
                Event.log ("Uploading file " ++ cid ++ " to S3"),
                Event.saveFile cid ACL.publicRead,
                Event.log ("File " ++ cid ++ " uploaded successfully")] },
           Outcome.ok ())) ∧
    (∀ s : Store, savesGuarded [] (runSeed e s).trace = true) := by
  refine ⟨?_, ?_, fun s => runSeed_savesGuarded e s⟩
  · intro h
    exact contentChain_present e cid rs h
  · intro r h hrem hr
    exact contentChain_absent_resolves e cid rs r h hrem hr

/-- Witness for the C5 theorem: a present key is skipped, an absent key is
downloaded then written, and a full run's trace passes the scanner. -/
theorem content_check_before_write_witness :
    (contentChain wEnv "hash9" ⟨⟨⟨[], []⟩, [("hash9", [7])]⟩, []⟩
      = ({ store := ⟨⟨[], []⟩, [("hash9", [7])]⟩,
           trace := [] ++ [Event.checkFile "hash9" true,
             Event.log ("File " ++ "hash9" ++ " already exists in S3")] }, Outcome.ok ())) ∧
    (contentChain wEnv "hash2" ⟨wStore0, []⟩
      = ({ store := { db := wStore0.db,
                      s3 := ("hash2", ([[3, 4]] : List (List Nat)).flatten) :: wStore0.s3 },
           trace := [] ++
             [Event.checkFile "hash2" false,
              Event.log ("Downloading " ++ (getAssetsUrl wEnv ++ "/" ++ "hash2")),
              Event.download (getAssetsUrl wEnv ++ "/" ++ "hash2") true,
              Event.log ("Uploading file " ++ "hash2" ++ " to S3"),
              Event.saveFile "hash2" ACL.publicRead,
              Event.log ("File " ++ "hash2" ++ " uploaded successfully")] },
         Outcome.ok ())) ∧
    savesGuarded [] (runSeed wEnv wStore0).trace = true := by
  refine ⟨?_, ?_, ?_⟩
  · exact (content_check_before_write wEnv "hash9"
      ⟨⟨⟨[], []⟩, [("hash9", [7])]⟩, []⟩).1 (by decide)
  · exact (content_check_before_write wEnv "hash2" ⟨wStore0, []⟩).2.1
      ⟨200, [[3, 4]], none⟩ (by decide) (by decide) (by decide)
  · exact (content_check_before_write wEnv "x" ⟨wStore0, []⟩).2.2 wStore0

/-- **C7** (amended: the claim's "rejects on any transport-level error" holds
only for errors on the *response stream*).  `downloadAsset` logs and performs
a GET against `https://assets.decentraland.org/<cid>` when the production flag
is set and `https://assets.decentraland.zone/<cid>` otherwise; when a response
arrives and its stream ends cleanly it resolves with the concatenation of the
body's chunks; when the response stream emits a transport error it rejects
with that error; but a *request-level* transport error (connection refused,
DNS, TLS) has no handler — the promise does not reject, the error is raised
as an uncaught exception and the process dies. -/
theorem downloadAsset_url_buffer_spec (e : Env) (cid : String) (rs : RS) :
    (e.isProduction = true → getAssetsUrl e = "https://assets.decentraland.org") ∧
    (e.isProduction = false → getAssetsUrl e = "https://assets.decentraland.zone") ∧
    (Event.log ("Downloading " ++ (getAssetsUrl e ++ "/" ++ cid))
      ∈ ((downloadAsset e cid rs).1).trace) ∧
    (∀ r : HttpResponse, e.remote (getAssetsUrl e ++ "/" ++ cid) = HttpOutcome.response r →
      r.streamError = none →
      (downloadAsset e cid rs).2 = Outcome.ok r.chunks.flatten) ∧
    (∀ (r : HttpResponse) (msg : String),
      e.remote (getAssetsUrl e ++ "/" ++ cid) = HttpOutcome.response r →
      r.streamError = some msg →
      (downloadAsset e cid rs).2 = Outcome.error msg) ∧
    (∀ msg : String, e.remote (getAssetsUrl e ++ "/" ++ cid) = HttpOutcome.requestError msg →
      ((downloadAsset e cid rs).2).isError = false ∧
      (downloadAsset e cid rs).2 = Outcome.crash msg) := by
  refine ⟨?_, ?_, ?_, ?_, ?_, ?_⟩
  · intro h; simp [getAssetsUrl, h]
  · intro h; simp [getAssetsUrl, h]
  · cases hrem : e.remote (getAssetsUrl e ++ "/" ++ cid) with
    | response r =>
        cases hse : r.streamError with
        | none => rw [downloadAsset_resolves e cid rs r hrem hse]; simp
        | some msg => rw [downloadAsset_rejects e cid rs r msg hrem hse]; simp
    | requestError msg => rw [downloadAsset_crashes e cid rs msg hrem]; simp
  · intro r hrem h; rw [downloadAsset_resolves e cid rs r hrem h]
  · intro r msg hrem h; rw [downloadAsset_rejects e cid rs r msg hrem h]
  · intro msg hrem
    rw [downloadAsset_crashes e cid rs msg hrem]
    exact ⟨rfl, rfl⟩

/-- Witness for the C7 theorem: domain selection in both modes, a resolving
download, a stream-error rejection and a request-level failure that is not a
rejection, all at concrete inputs. -/
theorem downloadAsset_url_buffer_spec_witness :
    getAssetsUrl wEnvProd = "https://assets.decentraland.org" ∧
    getAssetsUrl wEnv = "https://assets.decentraland.zone" ∧
    (downloadAsset wEnv "hash2" ⟨wStore0, []⟩).2 = Outcome.ok [3, 4] ∧
    (downloadAsset wEnvFail "hash1" ⟨wStore0, []⟩).2 = Outcome.error "socket hang up" ∧
    ((downloadAsset wEnv "hash9" ⟨wStore0, []⟩).2).isError = false := by
  refine ⟨?_, ?_, ?_, ?_, ?_⟩
  · exact (downloadAsset_url_buffer_spec wEnvProd "x" ⟨wStore0, []⟩).1 (by decide)
  · exact (downloadAsset_url_buffer_spec wEnv "x" ⟨wStore0, []⟩).2.1 (by decide)
  · have h := (downloadAsset_url_buffer_spec wEnv "hash2" ⟨wStore0, []⟩).2.2.2.1
      ⟨200, [[3, 4]], none⟩ (by decide) (by decide)
    rw [h]
    rfl
  · exact (downloadAsset_url_buffer_spec wEnvFail "hash1" ⟨wStore0, []⟩).2.2.2.2.1
      ⟨200, [[1], [2]], some "socket hang up"⟩ "socket hang up" (by decide) (by decide)
  · exact ((downloadAsset_url_buffer_spec wEnv "hash9" ⟨wStore0, []⟩).2.2.2.2.2
      "connect ECONNREFUSED" (by decide)).1

/-- Counterexample to C7 as stated: a transport-level error at the *request*
level (here a refused connection) does not reject the promise.  The code
installs an `error` handler only on the response; the `ClientRequest`'s
`error` event is unhandled, so the outcome is a process-killing uncaught
exception, not a rejection — `downloadAsset` "rejects on any transport-level
error" is false of the program. -/
theorem downloadAsset_transport_counterexample :
    wEnv.remote (getAssetsUrl wEnv ++ "/" ++ "hash9")
      = HttpOutcome.requestError "connect ECONNREFUSED" ∧
    ((downloadAsset wEnv "hash9" ⟨wStore0, []⟩).2).isError = false ∧
    (downloadAsset wEnv "hash9" ⟨wStore0, []⟩).2
      = Outcome.crash "connect ECONNREFUSED" := by
  decide

/-- **C9.** `downloadAsset` never inspects the status code: any response whose
stream ends without a transport error resolves with the body bytes — for a 404
or 500 alike — and, when the content id is absent from the store, that body is
subsequently uploaded under the content identifier. -/
theorem downloadAsset_ignores_status (e : Env) (cid : String) (rs : RS)
    (status : Nat) (chunks : List (List Nat))
    (hresp : e.remote (getAssetsUrl e ++ "/" ++ cid)
      = HttpOutcome.response ⟨status, chunks, none⟩) :
    (downloadAsset e cid rs).2 = Outcome.ok chunks.flatten ∧
    (s3HasB rs.store cid = false →
      ((contentChain e cid rs).1).store.s3 = (cid, chunks.flatten) :: rs.store.s3 ∧
      Event.saveFile cid ACL.publicRead ∈ ((contentChain e cid rs).1).trace) := by
  constructor
  · rw [downloadAsset_resolves e cid rs ⟨status, chunks, none⟩ hresp rfl]
  · intro h
    rw [contentChain_absent_resolves e cid rs ⟨status, chunks, none⟩ h hresp rfl]
    exact ⟨rfl, by simp⟩

/-- Witness for the C9 theorem: the `hash3` response has status 404, yet its
body is returned and uploaded. -/
theorem downloadAsset_ignores_status_witness :
    wEnv.remote (getAssetsUrl wEnv ++ "/" ++ "hash3") = HttpOutcome.response ⟨404, [[9]], none⟩ ∧
    (downloadAsset wEnv "hash3" ⟨wStore0, []⟩).2 = Outcome.ok [9] ∧
    ((contentChain wEnv "hash3" ⟨wStore0, []⟩).1).store.s3 = [("hash3", [9])] ∧
    Event.saveFile "hash3" ACL.publicRead ∈ ((contentChain wEnv "hash3" ⟨wStore0, []⟩).1).trace := by
  have h := downloadAsset_ignores_status wEnv "hash3" ⟨wStore0, []⟩ 404 [[9]] (by decide)
  refine ⟨by decide, h.1, ?_, (h.2 (by decide)).2⟩
  have h2 := (h.2 (by decide)).1
  rw [h2]
  rfl
/-- **C10.** With no subdirectories in the base directory, `getDataPath` does
not fail: `pop()` of the empty sorted list is `undefined`, the template
literal renders it as the string `undefined`, and every subsequent fixture
read targets a path inside the `undefined` directory. -/
theorem getDataPath_empty_undefined (e : Env) (h : e.directories = []) :
    getDataPath e = e.dirname ++ "/undefined" ∧
    ∀ fn, dataFilePath e fn = e.dirname ++ "/undefined/" ++ fn := by
  have h1 := getDataPath_empty e h
  refine ⟨h1, fun fn => ?_⟩
  rw [dataFilePath, h1, String.append_assoc e.dirname "/undefined" "/"]
  rfl

/-- Witness for the C10 theorem at a concrete directory-less environment. -/
theorem getDataPath_empty_undefined_witness :
    getDataPath wEnvNoDirs = "/seed" ++ "/undefined" ∧
    dataFilePath wEnvNoDirs "packs.json" = "/seed" ++ "/undefined/" ++ "packs.json" := by
  have h := getDataPath_empty_undefined wEnvNoDirs (by decide)
  exact ⟨h.1, h.2 "packs.json"⟩


instance (e : Env) (s : Store) (p : DefaultAssetPack) : Decidable (ThumbAvailable e s p) := by
  unfold ThumbAvailable
  infer_instance

instance (e : Env) (p : DefaultAssetPack) : Decidable (PackDeliverable e p) := by
  unfold PackDeliverable
  infer_instance

instance (e : Env) (s : Store) (packs : List DefaultAssetPack) : Decidable (WF e s packs) := by
  unfold WF
  infer_instance
/-- **C8.** The fixture reader resolves every filename inside the
lexicographically last subdirectory of the base directory (sorted as strings,
the last one wins) and parses the file's contents as JSON; a missing file or
invalid JSON propagates as an error to the caller, with no fallback. -/
theorem readJSON_latest_dir_spec (e : Env) (fn : String) (hne : e.directories ≠ []) :
    ∃ d, d ∈ e.directories ∧ (∀ x ∈ e.directories, strLe x d = true) ∧
      getDataPath e = e.dirname ++ "/" ++ d ∧
      ∀ rs : RS,
        (List.lookup (dataFilePath e fn) e.files = none →
          (readJSON e fn rs).2
            = Outcome.error ("ENOENT: no such file or directory, open " ++ dataFilePath e fn)) ∧
        (∀ bs msg, List.lookup (dataFilePath e fn) e.files = some bs →
          e.jsonParse bs = Except.error msg → (readJSON e fn rs).2 = Outcome.error msg) ∧
        (∀ bs v, List.lookup (dataFilePath e fn) e.files = some bs →
          e.jsonParse bs = Except.ok v → (readJSON e fn rs).2 = Outcome.ok v) := by
  obtain ⟨d, hd, hmax, hpath⟩ := getDataPath_spec e hne
  refine ⟨d, hd, hmax, hpath, fun rs => ⟨?_, ?_, ?_⟩⟩
  · intro h
    rw [readJSON_missing e fn rs h]
  · intro bs msg h hp
    rw [readJSON_parse_error e fn rs bs msg h hp]
  · intro bs v h hp
    rw [readJSON_ok e fn rs bs v h hp]

/-- Witness for the C8 theorem at the concrete environment, whose directories
sort to `2019-01-01 < 2020-02-02`. -/
theorem readJSON_latest_dir_spec_witness :
    wEnv.directories ≠ [] ∧
    ∃ d, d ∈ wEnv.directories ∧ (∀ x ∈ wEnv.directories, strLe x d = true) ∧
      getDataPath wEnv = wEnv.dirname ++ "/" ++ d ∧
      ∀ rs : RS,
        (List.lookup (dataFilePath wEnv "packs.json") wEnv.files = none →
          (readJSON wEnv "packs.json" rs).2
            = Outcome.error ("ENOENT: no such file or directory, open "
                ++ dataFilePath wEnv "packs.json")) ∧
        (∀ bs msg, List.lookup (dataFilePath wEnv "packs.json") wEnv.files = some bs →
          wEnv.jsonParse bs = Except.error msg →
          (readJSON wEnv "packs.json" rs).2 = Outcome.error msg) ∧
        (∀ bs v, List.lookup (dataFilePath wEnv "packs.json") wEnv.files = some bs →
          wEnv.jsonParse bs = Except.ok v → (readJSON wEnv "packs.json" rs).2 = Outcome.ok v) :=
  ⟨by decide, readJSON_latest_dir_spec wEnv "packs.json" (by decide)⟩

/-- **C3.** For every asset in a pack's fixture file, the record passed to the
upsert carries the composite key (asset id, pack id), the conflict target
`["id", "asset_pack_id"]`, `model` equal to the asset's original url and
`thumbnail` equal to the basename of the fixture thumbnail path; the record
type has no variations and no url field, so those are omitted.  The upsert
event appears in the run's trace and the record is present in the store
afterwards under the composite key. -/
theorem asset_record_upsert_spec (e : Env) (packs : List DefaultAssetPack) (s : Store)
    (hwf : WF e s packs) :
    ∀ p ∈ packs, ∀ d ∈ assetsOf e p,
      (∃ ex, Event.upsertAsset (mkAssetAttributes p.id d) ["id", "asset_pack_id"] ex
          ∈ (runSeed e s).trace) ∧
      mkAssetAttributes p.id d
        = { id := d.id, name := d.name, thumbnail := basename d.thumbnail,
            model := d.url, category := d.category, tags := d.tags,
            contents := d.contents, asset_pack_id := p.id } ∧
      assetHasB (runSeed e s).store d.id p.id = true := by
  intro p hp d hd
  have hdec := runSeed_decomp e packs s hwf
  refine ⟨?_, rfl, ?_⟩
  · rw [hdec.2.1]
    exact upsertAssets_event e packs _ (fun q hq => hwf.2.1 q hq)
      (fun q hq => hwf.2.2.2 q hq) p hp d hd
  · rw [hdec.1]
    exact (upsertAssets_establishes e packs _ (fun q hq => hwf.2.1 q hq)
      (fun q hq => hwf.2.2.2 q hq)).2 p hp d hd
/-- Witness for the C3 theorem at a concrete asset of a concrete pack. -/
theorem asset_record_upsert_spec_witness :
    (∃ ex, Event.upsertAsset (mkAssetAttributes wPk1.id wA1) ["id", "asset_pack_id"] ex
        ∈ (runSeed wEnv wStore0).trace) ∧
    mkAssetAttributes wPk1.id wA1
      = { id := wA1.id, name := wA1.name, thumbnail := basename wA1.thumbnail,
          model := wA1.url, category := wA1.category, tags := wA1.tags,
          contents := wA1.contents, asset_pack_id := wPk1.id } ∧
    assetHasB (runSeed wEnv wStore0).store wA1.id wPk1.id = true :=
  asset_record_upsert_spec wEnv wPacks wStore0 (by decide) wPk1 (by decide) wA1 (by decide)


/-- The pack-table key list of a store. -/
def packIds (s : Store) : List String := s.db.assetPacks.map (fun x => x.id)

/-- The asset-table composite-key list of a store. -/
def assetKeysOf (s : Store) : List (String × String) :=
  s.db.assets.map (fun x => (x.id, x.asset_pack_id))

/-- **C1.** Running the seed a second time with identical fixtures over the
state left by the first run creates no new pack or asset records (the key
lists of both tables are unchanged), every pack and asset upsert of the second
run hits the existing key (`existed = true`), and the second run performs no
object-store upload — thumbnail or content — for any key the store already
reports as present. -/
theorem seed_second_run_idempotent (e : Env) (s0 : Store) (packs : List DefaultAssetPack)
    (hwf : WF e s0 packs) :
    packIds (runSeed e (runSeed e s0).store).store = packIds (runSeed e s0).store ∧
    assetKeysOf (runSeed e (runSeed e s0).store).store = assetKeysOf (runSeed e s0).store ∧
    (∀ a ex, Event.upsertPack a ex ∈ (runSeed e (runSeed e s0).store).trace → ex = true) ∧
    (∀ a tg ex, Event.upsertAsset a tg ex ∈ (runSeed e (runSeed e s0).store).trace
      → ex = true) ∧
    (∀ k, s3HasB (runSeed e s0).store k = true →
      ∀ acl, Event.saveFile k acl ∉ (runSeed e (runSeed e s0).store).trace) := by
  have hdec1 := runSeed_decomp e packs s0 hwf
  -- facts established by the first run
  have hpack1 := upsertAssetPacks_establishes e packs ⟨s0, seedHeader e⟩
    (fun q hq => hwf.2.2.1 q hq)
  have hassetmono1 : StoreLE (packPhaseRS e packs s0).store (assetPhaseRS e packs s0).store :=
    mono_upsertAssets e packs [] (fun q hq => absurd hq (by simp))
      ⟨(packPhaseRS e packs s0).store,
       (packPhaseRS e packs s0).trace ++ [Event.log "==== Assets ===="]⟩
  have F1 : ∀ p ∈ packs, packHasB (runSeed e s0).store p.id = true := by
    intro p hp
    rw [hdec1.1]
    exact hassetmono1.2.1 p.id (hpack1.2 p hp).1
  have F2 : ∀ p ∈ packs, s3HasB (runSeed e s0).store (getThumbnailFilename p.id) = true := by
    intro p hp
    rw [hdec1.1]
    exact hassetmono1.1 _ (hpack1.2 p hp).2
  have F3 : ∀ p ∈ packs, ∀ d ∈ assetsOf e p,
      assetHasB (runSeed e s0).store d.id p.id = true := by
    intro p hp d hd
    rw [hdec1.1]
    exact (upsertAssets_establishes e packs
      ⟨(packPhaseRS e packs s0).store,
       (packPhaseRS e packs s0).trace ++ [Event.log "==== Assets ===="]⟩
      (fun q hq => hwf.2.1 q hq) (fun q hq => hwf.2.2.2 q hq)).2 p hp d hd
  have hwf2 : WF e (runSeed e s0).store packs :=
    ⟨hwf.1, hwf.2.1, fun p hp => Or.inl (F2 p hp), hwf.2.2.2⟩
  have hdec2 := runSeed_decomp e packs (runSeed e s0).store hwf2
  have hmonoPack2 : StoreLE (runSeed e s0).store
      (packPhaseRS e packs (runSeed e s0).store).store :=
    mono_upsertAssetPacks e packs ⟨(runSeed e s0).store, seedHeader e⟩
  -- key-list preservation in the second run
  have hkeysPack := upsertAssetPacks_keys e packs ⟨(runSeed e s0).store, seedHeader e⟩
    (fun q hq => F1 q hq)
  have hkeysAsset0 := upsertAssets_keys e packs
    ⟨(packPhaseRS e packs (runSeed e s0).store).store,
     (packPhaseRS e packs (runSeed e s0).store).trace ++ [Event.log "==== Assets ===="]⟩
    (fun q hq => hwf.2.1 q hq) (fun q hq => hwf.2.2.2 q hq)
    (fun p hp d hd => hmonoPack2.2.2 d.id p.id (F3 p hp d hd))
  have hkeysPack2 :
      ((packPhaseRS e packs (runSeed e s0).store).store.db.assetPacks.map (fun x => x.id)
        = (runSeed e s0).store.db.assetPacks.map (fun x => x.id)) ∧
      (packPhaseRS e packs (runSeed e s0).store).store.db.assets
        = (runSeed e s0).store.db.assets := hkeysPack
  have hkeysAsset2 :
      ((assetPhaseRS e packs (runSeed e s0).store).store.db.assets.map
          (fun x => (x.id, x.asset_pack_id))
        = (packPhaseRS e packs (runSeed e s0).store).store.db.assets.map
            (fun x => (x.id, x.asset_pack_id))) ∧
      (assetPhaseRS e packs (runSeed e s0).store).store.db.assetPacks
        = (packPhaseRS e packs (runSeed e s0).store).store.db.assetPacks := hkeysAsset0
  -- trace decomposition of the second run
  obtain ⟨tp, htp0, hptp⟩ := emitsD_upsertAssetPacks e packs packs (fun _ h => h)
    ⟨(runSeed e s0).store, seedHeader e⟩
  obtain ⟨ta, hta0, hpta⟩ := emitsD_upsertAssets e packs packs (fun _ h => h) []
    (fun q hq => absurd hq (by simp))
    ⟨(packPhaseRS e packs (runSeed e s0).store).store,
     (packPhaseRS e packs (runSeed e s0).store).trace ++ [Event.log "==== Assets ===="]⟩
  have htp : (packPhaseRS e packs (runSeed e s0).store).trace = seedHeader e ++ tp := htp0
  have hta : (assetPhaseRS e packs (runSeed e s0).store).trace
      = ((packPhaseRS e packs (runSeed e s0).store).trace
          ++ [Event.log "==== Assets ===="]) ++ ta := hta0
  have hsplit : ∀ ev, ev ∈ (runSeed e (runSeed e s0).store).trace →
      ev ∈ seedHeader e ∨ ev ∈ tp ∨ ev = Event.log "==== Assets ====" ∨ ev ∈ ta := by
    intro ev hev
    rw [hdec2.2.1, hta, htp] at hev
    rcases List.mem_append.mp hev with h | h
    · rcases List.mem_append.mp h with h | h
      · rcases List.mem_append.mp h with h | h
        · exact Or.inl h
        · exact Or.inr (Or.inl h)
      · exact Or.inr (Or.inr (Or.inl (List.mem_singleton.mp h)))
    · exact Or.inr (Or.inr (Or.inr h))
  refine ⟨?_, ?_, ?_, ?_, ?_⟩
  · -- pack key list unchanged
    rw [hdec2.1]
    show ((assetPhaseRS e packs (runSeed e s0).store).store.db.assetPacks.map (fun x => x.id))
      = ((runSeed e s0).store.db.assetPacks.map (fun x => x.id))
    rw [hkeysAsset2.2, hkeysPack2.1]
  · -- asset key list unchanged
    rw [hdec2.1]
    show ((assetPhaseRS e packs (runSeed e s0).store).store.db.assets.map
        (fun x => (x.id, x.asset_pack_id)))
      = ((runSeed e s0).store.db.assets.map (fun x => (x.id, x.asset_pack_id)))
    rw [hkeysAsset2.1, hkeysPack2.2]
  · -- every pack upsert hits the existing key
    intro a ex hev
    rcases hsplit _ hev with h | h | h | h
    · simp [seedHeader] at h
    · obtain ⟨⟨p, hp, haid⟩, hflag⟩ := (hptp _ h).2.2 a ex rfl
      refine hflag ?_
      rw [haid]
      simpa [mkAssetPackAttributes] using F1 p hp
    · simp at h
    · exact absurd rfl ((hpta _ h).1 a ex)
  · -- every asset upsert hits the existing composite key
    intro a tg ex hev
    rcases hsplit _ hev with h | h | h | h
    · simp [seedHeader] at h
    · exact absurd rfl ((hptp _ h).1 a tg ex)
    · simp at h
    · obtain ⟨⟨htg, p, hp, d, hd, haid⟩, hflag⟩ := (hpta _ h).2.2 a tg ex rfl
      refine hflag ?_
      rw [haid]
      simpa [mkAssetAttributes] using hmonoPack2.2.2 d.id p.id (F3 p hp d hd)
  · -- no upload for a key the store already reports present
    intro k hk acl hev
    rcases hsplit _ hev with h | h | h | h
    · simp [seedHeader] at h
    · have hfalse := (hptp _ h).2.1 k acl rfl
      rw [hk] at hfalse
      exact Bool.noConfusion hfalse
    · simp at h
    · have hfalse := (hpta _ h).2.1 k acl rfl
      rw [hmonoPack2.1 k hk] at hfalse
      exact Bool.noConfusion hfalse

/-- Witness for the C1 theorem at the concrete two-pack environment. -/
theorem seed_second_run_idempotent_witness :
    packIds (runSeed wEnv (runSeed wEnv wStore0).store).store
      = packIds (runSeed wEnv wStore0).store ∧
    assetKeysOf (runSeed wEnv (runSeed wEnv wStore0).store).store
      = assetKeysOf (runSeed wEnv wStore0).store ∧
    (∀ a ex, Event.upsertPack a ex ∈ (runSeed wEnv (runSeed wEnv wStore0).store).trace
      → ex = true) ∧
    (∀ a tg ex, Event.upsertAsset a tg ex ∈ (runSeed wEnv (runSeed wEnv wStore0).store).trace
      → ex = true) ∧
    (∀ k, s3HasB (runSeed wEnv wStore0).store k = true →
      ∀ acl, Event.saveFile k acl ∉ (runSeed wEnv (runSeed wEnv wStore0).store).trace) :=
  seed_second_run_idempotent wEnv wStore0 wPacks (by decide)

/-- **C2** (the code contradicts its own comment): when the download of
`hash1` rejects inside pack `p1`'s asset loop, the rejection is *not* caught
by the loop's local `try/catch` — that catch only guards the synchronous
promise dispatch, so its `Ignoring ERROR` log never appears; the error
instead reaches the pack-level `await Promise.all` catch, which logs
`Error saving assets`.  Both assets of the pack still get their records
upserted and pack `p2` is still processed (its fixture is read and its asset
upserted), so the run completes; but the other content upload of the same
pack (`hash2`) is *not* short-circuited — it completes. -/
theorem download_rejection_escapes_inner_catch :
    (runSeed wEnvFail wStore0).result.isOk = true ∧
    assetHasB (runSeed wEnvFail wStore0).store "a1" "p1" = true ∧
    assetHasB (runSeed wEnvFail wStore0).store "a2" "p1" = true ∧
    assetHasB (runSeed wEnvFail wStore0).store "a3" "p2" = true ∧
    Event.log "Error saving assets: socket hang up" ∈ (runSeed wEnvFail wStore0).trace ∧
    Event.log "Ignoring ERROR: socket hang up" ∉ (runSeed wEnvFail wStore0).trace ∧
    Event.saveFile "hash2" ACL.publicRead ∈ (runSeed wEnvFail wStore0).trace ∧
    Event.readFile "/seed/2020-02-02/p2.json" ∈ (runSeed wEnvFail wStore0).trace ∧
    s3HasB (runSeed wEnvFail wStore0).store "hash1" = false := by
  decide

end SeedScript
